import Mathlib

/-!
# USBasp firmware: ISP protocol engine and programming session

A shallow embedding of `src/isp.c` and `src/main.c`.

* Machine integers are natural numbers reduced explicitly: `uchar`/`uint8_t`
  modulo 256, `int`/`unsigned int` are the 16 bit types of avr-gcc,
  `unsigned long` is 32 bits. Function parameters are taken to hold values of
  their C types (the callers in `main.c` pass such values); theorems about a
  function called on its own state the ranges they need.
* The hardware (target chip behind the SPI lines, timer 0, port pins) is an
  environment `Env W` acting on an abstract world `W`; every theorem that
  does not say otherwise holds for every environment.
* Each ISP operation appends to a trace: one `Event.xchg` per call through the
  `ispTransmit` pointer and a ghost `Event.call` marker on entry of an
  operation of `isp.c`, so that statements about "which operation was called
  when" can be read off the trace. The bit-banged exchange `ispTransmit_sw` is
  also given at the level of the port pins; there the trace records every
  write to the MOSI and SCK pins and every sample of the MISO pin.
* Busy-wait loops (`ispDelay`, the flash poll loops) take a bound `fuel` on
  their number of iterations and yield `none` when it is exceeded. A larger
  bound never changes a result (`*_mono`); "the call returns" is stated as
  "some bound yields a result", under the liveness of the timer it needs
  (`TickLive`, `DelayLive`).
-/

namespace Usbasp

/-! ## Hardware environment -/

/-- Port and SPI control actions of `isp.c` / `main.c` (register writes whose
only effect is on the pins). -/
inductive Ctl
  | spiHWdisable
  | spiHWenable
  | sckHigh
  | sckLow
  | mosiHigh
  | mosiLow
  | rstHigh
  | rstLow
  | ddrOut
  | ddrIn
  | pullupsOff
  | ledRedOn
  | ledRedOff
  deriving DecidableEq, Repr

/-- Entry markers of the operations of `isp.c`, with their arguments. -/
inductive IspCall
  | enterProgrammingMode
  | readFlash (address : Nat)
  | writeFlash (address data pollmode : Nat)
  | flushPage (address pollvalue : Nat)
  | readEEPROM (address : Nat)
  | writeEEPROM (address data : Nat)
  deriving DecidableEq, Repr

/-- Observable events, in program order. -/
inductive Event
  | call (c : IspCall)
  | xchg (sent recv : Nat)
  | clockWait (time : Nat)
  | retry (left : Nat)
  | ctl (c : Ctl)
  | sample (level : Bool)
  deriving DecidableEq, Repr

/-- Hardware seen by the firmware, over a world `W` (target chip, timer, pins).
`transmit_sw` and `transmit_hw` are one complete byte exchange through
`ispTransmit_sw` resp. `ispTransmit_hw`; `timer` is one read of `TIMERVALUE`
(`TCNT0`); `clockWait` is `clockWait` of `clock.c`; `speedPin` is the
speed-selection jumper bit; `clock_T_320us` and `delayTicks` are the
`F_CPU`-dependent constants `CLOCK_T_320us` and
`(uint8_t)(F_CPU / 64.0 / 16000 + 1)`. -/
structure Env (W : Type) where
  transmit_sw : Nat → W → Nat × W
  transmit_hw : Nat → W → Nat × W
  timer : W → Nat × W
  clockWait : Nat → W → W
  ctl : Ctl → W → W
  speedPin : W → Bool
  clock_T_320us : Nat
  delayTicks : Nat

/-- State of `isp.c`: the world, the binding of the `ispTransmit` function
pointer (`true` = `ispTransmit_hw`) and the trace so far. -/
structure Hw (W : Type) where
  world : W
  hwSpi : Bool
  trace : List Event

variable {W : Type}

/-- Append one event to the trace. -/
def emit (e : Event) (h : Hw W) : Hw W :=
  { h with trace := h.trace ++ [e] }

/-- A port/SPI control action. -/
def ctl (E : Env W) (c : Ctl) (h : Hw W) : Hw W :=
  { h with world := E.ctl c h.world, trace := h.trace ++ [Event.ctl c] }

/-- One read of `TIMERVALUE` (an 8 bit register). -/
def readTimer (E : Env W) (h : Hw W) : Nat × Hw W :=
  ((E.timer h.world).1 % 256, { h with world := (E.timer h.world).2 })

/-- The call `clockWait(time)`. -/
def clockWait (E : Env W) (time : Nat) (h : Hw W) : Hw W :=
  { h with world := E.clockWait time h.world, trace := h.trace ++ [Event.clockWait time] }

/-! ## isp.c -/

/-- Modelled from the spec: the value `ISP_SCK_SLOW` of isp.h, which is not part
of the sources; the slow option selects the bit-banged transport. -/
def ISP_SCK_SLOW : Nat := 0

/-- Modelled from the spec: the value `ISP_SCK_FAST` of isp.h, which is not part
of the sources; the fast option selects the peripheral-assisted transport. -/
def ISP_SCK_FAST : Nat := 1

/-- `ispSetSCKOption`: bind `ispTransmit`. -/
def ispSetSCKOption (option : Nat) (h : Hw W) : Hw W :=
  if option % 256 = 0 then { h with hwSpi := false } else { h with hwSpi := true }

/-- A call through the pointer `ispTransmit`: exchanges one byte. -/
def ispTransmit (E : Env W) (send_byte : Nat) (h : Hw W) : Nat × Hw W :=
  let r := (if h.hwSpi then E.transmit_hw else E.transmit_sw) (send_byte % 256) h.world
  (r.1 % 256,
    { h with world := r.2, trace := h.trace ++ [Event.xchg (send_byte % 256) (r.1 % 256)] })

/-- The wait loop of `ispDelay`, `starttime` already taken. -/
def ispDelayLoop (E : Env W) (starttime : Nat) : Nat → Hw W → Option (Hw W)
  | 0, _ => none
  | fuel + 1, h =>
    let t := readTimer E h
    if (t.1 + 256 - starttime) % 256 < E.delayTicks % 256 then
      ispDelayLoop E starttime fuel t.2
    else some t.2

/-- `ispDelay`. -/
def ispDelay (E : Env W) (fuel : Nat) (h : Hw W) : Option (Hw W) :=
  let t := readTimer E h
  ispDelayLoop E t.1 fuel t.2

/-- `ispConnect`. -/
def ispConnect (E : Env W) (fuel : Nat) (h : Hw W) : Option (Hw W) :=
  let h1 := ctl E Ctl.ddrOut h
  let h2 := ctl E Ctl.rstLow h1
  let h3 := ctl E Ctl.sckLow h2
  (ispDelay E fuel h3).bind fun h4 =>
  let h5 := ctl E Ctl.rstHigh h4
  (ispDelay E fuel h5).bind fun h6 =>
  let h7 := ctl E Ctl.rstLow h6
  some (if h7.hwSpi then ctl E Ctl.spiHWenable h7 else h7)

/-- `ispDisconnect`. -/
def ispDisconnect (E : Env W) (h : Hw W) : Hw W :=
  ctl E Ctl.spiHWdisable (ctl E Ctl.pullupsOff (ctl E Ctl.ddrIn h))

/-- The `for` loop of `ispTransmit_sw` with `n` of its 8 iterations still to go,
`send_byte` and `rec_byte` holding their current values. `miso` is the level of
the `ISP_MISO` bit of `ISP_IN` in the current state of the pins. -/
def swLoop (E : Env W) (miso : W → Bool) (fuel : Nat) :
    Nat → Nat → Nat → Hw W → Option (Nat × Hw W)
  | 0, _, rec_byte, h => some (rec_byte, h)
  | n + 1, send_byte, rec_byte, h =>
    let h1 := if send_byte &&& 0x80 ≠ 0 then ctl E Ctl.mosiHigh h else ctl E Ctl.mosiLow h
    let send1 := (send_byte <<< 1) % 256
    let rec1 := (rec_byte <<< 1) % 256
    let level := miso h1.world
    let rec2 := if level then (rec1 + 1) % 256 else rec1
    let h2 := emit (Event.sample level) h1
    let h3 := ctl E Ctl.sckHigh h2
    (ispDelay E fuel h3).bind fun h4 =>
    let h5 := ctl E Ctl.sckLow h4
    (ispDelay E fuel h5).bind fun h6 =>
    swLoop E miso fuel n send1 rec2 h6

/-- `ispTransmit_sw`, the bit-banged exchange, at the level of the port pins
(`Env.transmit_sw` stands for one whole such exchange). -/
def ispTransmit_sw (E : Env W) (miso : W → Bool) (fuel : Nat) (send_byte : Nat) (h : Hw W) :
    Option (Nat × Hw W) :=
  swLoop E miso fuel 8 (send_byte % 256) 0 h

/-- The `while (count--)` loop of `ispEnterProgrammingMode`; `count` is the
number of attempts still allowed. -/
def enterLoop (E : Env W) (fuel : Nat) : Nat → Hw W → Option (Nat × Hw W)
  | 0, h => some (1, h)
  | count + 1, h =>
    let h1 := (ispTransmit E 0xAC h).2
    let h2 := (ispTransmit E 0x53 h1).2
    let check := ispTransmit E 0 h2
    let h4 := (ispTransmit E 0 check.2).2
    if check.1 = 0x53 then some (0, h4)
    else
      let h5 := ctl E Ctl.spiHWdisable h4
      let h6 := ctl E Ctl.sckHigh h5
      (ispDelay E fuel h6).bind fun h7 =>
      let h8 := ctl E Ctl.sckLow h7
      (ispDelay E fuel h8).bind fun h9 =>
      let h10 := if h9.hwSpi then ctl E Ctl.spiHWenable h9 else h9
      enterLoop E fuel count h10

/-- `ispEnterProgrammingMode`. -/
def ispEnterProgrammingMode (E : Env W) (fuel : Nat) (h : Hw W) : Option (Nat × Hw W) :=
  enterLoop E fuel 32 (emit (Event.call IspCall.enterProgrammingMode) h)

/-- `ispReadFlash`. -/
def ispReadFlash (E : Env W) (address : Nat) (h : Hw W) : Nat × Hw W :=
  let h0 := emit (Event.call (IspCall.readFlash address)) h
  let h1 := (ispTransmit E (0x20 ||| ((address &&& 1) <<< 3)) h0).2
  let h2 := (ispTransmit E (address >>> 9) h1).2
  let h3 := (ispTransmit E (address >>> 1) h2).2
  ispTransmit E 0 h3

/-- The flash poll loop shared (textually duplicated) by `ispWriteFlash` and
`ispFlushPage`: `while (retries != 0)`, reading back `address` until the value
differs from `busy` (0x7F resp. 0xFF). -/
def pollFlash (E : Env W) (busy address : Nat) :
    Nat → Nat → Nat → Hw W → Option (Nat × Hw W)
  | 0, _, _, _ => none
  | fuel + 1, retries, starttime, h =>
    if retries = 0 then some (1, h)
    else
      let r := ispReadFlash E address h
      if r.1 ≠ busy then some (0, r.2)
      else
        let t := readTimer E r.2
        if (t.1 + 256 - starttime) % 256 > E.clock_T_320us % 256 then
          let t2 := readTimer E t.2
          pollFlash E busy address fuel (retries - 1) t2.1
            (emit (Event.retry (retries - 1)) t2.2)
        else pollFlash E busy address fuel retries starttime t.2

/-- `ispWriteFlash`. -/
def ispWriteFlash (E : Env W) (fuel : Nat) (address data pollmode : Nat) (h : Hw W) :
    Option (Nat × Hw W) :=
  let h0 := emit (Event.call (IspCall.writeFlash address data pollmode)) h
  let h1 := (ispTransmit E (0x40 ||| ((address &&& 1) <<< 3)) h0).2
  let h2 := (ispTransmit E (address >>> 9) h1).2
  let h3 := (ispTransmit E (address >>> 1) h2).2
  let h4 := (ispTransmit E data h3).2
  if pollmode = 0 then some (0, h4)
  else if data = 0x7F then some (0, clockWait E 15 h4)
  else
    let t := readTimer E h4
    pollFlash E 0x7F address fuel 30 t.1 t.2

/-- `ispFlushPage`. -/
def ispFlushPage (E : Env W) (fuel : Nat) (address pollvalue : Nat) (h : Hw W) :
    Option (Nat × Hw W) :=
  let h0 := emit (Event.call (IspCall.flushPage address pollvalue)) h
  let h1 := (ispTransmit E 0x4C h0).2
  let h2 := (ispTransmit E (address >>> 9) h1).2
  let h3 := (ispTransmit E (address >>> 1) h2).2
  let h4 := (ispTransmit E 0 h3).2
  if pollvalue = 0xFF then some (0, clockWait E 15 h4)
  else
    let t := readTimer E h4
    pollFlash E 0xFF address fuel 30 t.1 t.2

/-- `ispReadEEPROM`; the parameter is an `unsigned int`. -/
def ispReadEEPROM (E : Env W) (address : Nat) (h : Hw W) : Nat × Hw W :=
  let a := address % 65536
  let h0 := emit (Event.call (IspCall.readEEPROM a)) h
  let h1 := (ispTransmit E 0xA0 h0).2
  let h2 := (ispTransmit E (a >>> 8) h1).2
  let h3 := (ispTransmit E a h2).2
  ispTransmit E 0 h3

/-- `ispWriteEEPROM`; the address parameter is an `unsigned int`. -/
def ispWriteEEPROM (E : Env W) (address data : Nat) (h : Hw W) : Nat × Hw W :=
  let a := address % 65536
  let h0 := emit (Event.call (IspCall.writeEEPROM a data)) h
  let h1 := (ispTransmit E 0xC0 h0).2
  let h2 := (ispTransmit E (a >>> 8) h1).2
  let h3 := (ispTransmit E a h2).2
  let h4 := (ispTransmit E data h3).2
  (0, clockWait E 30 h4)

/-! ## main.c -/

/-- The values `PROG_STATE_*` of `prog_state`. -/
inductive ProgState
  | idle
  | writeFlash
  | readFlash
  | readEEPROM
  | writeEEPROM
  deriving DecidableEq, Repr

/-- The static variables of `main.c`. `prog_address` is an `unsigned long`,
`prog_nbytes` and `prog_pagesize` are `unsigned int` (16 bits), the others are
`uchar`; `replyBuffer` has 8 bytes. -/
structure Session where
  prog_state : ProgState
  prog_address_newmode : Nat
  prog_address : Nat
  prog_nbytes : Nat
  prog_pagesize : Nat
  prog_blockflags : Nat
  prog_pagecounter : Nat
  replyBuffer : List Nat
  deriving DecidableEq, Repr

/-- The read operation selected by the session state. -/
def Session.reading (s : Session) : Prop :=
  s.prog_state = ProgState.readFlash ∨ s.prog_state = ProgState.readEEPROM

/-- The write states. -/
def Session.writing (s : Session) : Prop :=
  s.prog_state = ProgState.writeFlash ∨ s.prog_state = ProgState.writeEEPROM

instance (s : Session) : Decidable s.reading := by
  unfold Session.reading; infer_instance

instance (s : Session) : Decidable s.writing := by
  unfold Session.writing; infer_instance

/-- The command codes `USBASP_FUNC_*` and block flags `PROG_BLOCKFLAG_*`. -/
def USBASP_FUNC_CONNECT : Nat := 1

def USBASP_FUNC_DISCONNECT : Nat := 2

def USBASP_FUNC_TRANSMIT : Nat := 3

def USBASP_FUNC_READFLASH : Nat := 4

def USBASP_FUNC_ENABLEPROG : Nat := 5

def USBASP_FUNC_WRITEFLASH : Nat := 6

def USBASP_FUNC_READEEPROM : Nat := 7

def USBASP_FUNC_WRITEEEPROM : Nat := 8

def USBASP_FUNC_SETLONGADDRESS : Nat := 9

def PROG_BLOCKFLAG_FIRST : Nat := 1

def PROG_BLOCKFLAG_LAST : Nat := 2

/-- The byte `data[i]` of a `uchar` buffer. -/
def byteAt (data : List Nat) (i : Nat) : Nat := data.getD i 0 % 256

/-- The value stored by `prog_address = (data[3] << 8) | data[2]`. The operands
are promoted to `int`, which has 16 bits on the AVR: for `data[3] >= 0x80` the
shift leaves the sign bit set (avr-gcc wraps), and the conversion of the
negative `int` to `unsigned long` extends the sign. -/
def legacyAddress (data : List Nat) : Nat :=
  let v := ((byteAt data 3 <<< 8) ||| byteAt data 2) % 65536
  if v < 32768 then v else v + (4294967296 - 65536)

/-- The value stored by `prog_nbytes = (data[7] << 8) | data[6]` (conversion of
the 16 bit `int` to `unsigned int`). -/
def transferLength (data : List Nat) : Nat :=
  ((byteAt data 7 <<< 8) ||| byteAt data 6) % 65536

/-- The value `*((unsigned long*)&data[2])` (little endian). -/
def longAddress (data : List Nat) : Nat :=
  byteAt data 2 + 256 * byteAt data 3 + 65536 * byteAt data 4 + 16777216 * byteAt data 5

/-- `usbFunctionSetup`: returns `len`. -/
def usbFunctionSetup (E : Env W) (fuel : Nat) (data : List Nat) (s : Session) (h : Hw W) :
    Option (Nat × Session × Hw W) :=
  if byteAt data 1 = USBASP_FUNC_CONNECT then
    let h1 := if E.speedPin h.world = false then ispSetSCKOption ISP_SCK_SLOW h
              else ispSetSCKOption ISP_SCK_FAST h
    let s1 := { s with prog_address_newmode := 0 }
    let h2 := ctl E Ctl.ledRedOn h1
    (ispConnect E fuel h2).bind fun h3 => some (0, s1, h3)
  else if byteAt data 1 = USBASP_FUNC_DISCONNECT then
    some (0, s, ctl E Ctl.ledRedOff (ispDisconnect E h))
  else if byteAt data 1 = USBASP_FUNC_TRANSMIT then
    let r0 := ispTransmit E (byteAt data 2) h
    let r1 := ispTransmit E (byteAt data 3) r0.2
    let r2 := ispTransmit E (byteAt data 4) r1.2
    let r3 := ispTransmit E (byteAt data 5) r2.2
    let buf := (((s.replyBuffer.set 0 r0.1).set 1 r1.1).set 2 r2.1).set 3 r3.1
    some (4, { s with replyBuffer := buf }, r3.2)
  else if byteAt data 1 = USBASP_FUNC_READFLASH then
    let s1 := if s.prog_address_newmode = 0 then { s with prog_address := legacyAddress data }
              else s
    some (0xff, { s1 with prog_nbytes := transferLength data,
                          prog_state := ProgState.readFlash }, h)
  else if byteAt data 1 = USBASP_FUNC_READEEPROM then
    let s1 := if s.prog_address_newmode = 0 then { s with prog_address := legacyAddress data }
              else s
    some (0xff, { s1 with prog_nbytes := transferLength data,
                          prog_state := ProgState.readEEPROM }, h)
  else if byteAt data 1 = USBASP_FUNC_ENABLEPROG then
    (ispEnterProgrammingMode E fuel h).bind fun r =>
    some (1, { s with replyBuffer := s.replyBuffer.set 0 r.1 }, r.2)
  else if byteAt data 1 = USBASP_FUNC_WRITEFLASH then
    let s1 := if s.prog_address_newmode = 0 then { s with prog_address := legacyAddress data }
              else s
    let s2 := { s1 with prog_pagesize := byteAt data 4 }
    let s3 := { s2 with prog_blockflags := byteAt data 5 &&& 0x0F }
    let s4 := { s3 with
      prog_pagesize := (s3.prog_pagesize + ((byteAt data 5 &&& 0xF0) <<< 4) % 65536) % 65536 }
    let s5 := if s4.prog_blockflags &&& PROG_BLOCKFLAG_FIRST ≠ 0 then
                { s4 with prog_pagecounter := s4.prog_pagesize % 256 }
              else s4
    some (0xff, { s5 with prog_nbytes := transferLength data,
                          prog_state := ProgState.writeFlash }, h)
  else if byteAt data 1 = USBASP_FUNC_WRITEEEPROM then
    let s1 := if s.prog_address_newmode = 0 then { s with prog_address := legacyAddress data }
              else s
    some (0xff, { s1 with prog_pagesize := 0, prog_blockflags := 0,
                          prog_nbytes := transferLength data,
                          prog_state := ProgState.writeEEPROM }, h)
  else if byteAt data 1 = USBASP_FUNC_SETLONGADDRESS then
    some (0, { s with prog_address_newmode := 1, prog_address := longAddress data }, h)
  else some (0, s, h)

/-- The `for` loop of `usbFunctionRead` ("fill packet"): the bytes stored in
`data[0..len-1]`, and the state afterwards. -/
def readFill (E : Env W) : Nat → Session → Hw W → List Nat × Session × Hw W
  | 0, s, h => ([], s, h)
  | n + 1, s, h =>
    let r := if s.prog_state = ProgState.readFlash then ispReadFlash E s.prog_address h
             else ispReadEEPROM E s.prog_address h
    let s1 := { s with prog_address := (s.prog_address + 1) % 4294967296 }
    let rest := readFill E n s1 r.2
    (r.1 :: rest.1, rest.2)

/-- `usbFunctionRead(data, len)`: the return value, the bytes written to `data`,
and the state afterwards. `len` is a `uchar`. -/
def usbFunctionRead (E : Env W) (len : Nat) (s : Session) (h : Hw W) :
    Nat × List Nat × Session × Hw W :=
  if s.prog_state ≠ ProgState.readFlash ∧ s.prog_state ≠ ProgState.readEEPROM then
    (0xff, [], s, h)
  else
    let r := readFill E len s h
    let s1 := if len < 8 then { r.2.1 with prog_state := ProgState.idle } else r.2.1
    (len, r.1, s1, r.2.2)

/-- Lines 224-243 of `usbFunctionWrite`: the memory operation for the byte
`b = data[i]`. -/
def writeMem (E : Env W) (fuel : Nat) (b : Nat) (s : Session) (h : Hw W) :
    Option (Session × Hw W) :=
  if s.prog_state = ProgState.writeFlash then
    if s.prog_pagesize = 0 then
      (ispWriteFlash E fuel s.prog_address b 1 h).bind fun r => some (s, r.2)
    else
      (ispWriteFlash E fuel s.prog_address b 0 h).bind fun r =>
      let s1 := { s with prog_pagecounter := (s.prog_pagecounter + 255) % 256 }
      if s1.prog_pagecounter = 0 then
        (ispFlushPage E fuel s1.prog_address b r.2).bind fun f =>
        some ({ s1 with prog_pagecounter := s1.prog_pagesize % 256 }, f.2)
      else some (s1, r.2)
  else some (s, (ispWriteEEPROM E s.prog_address b h).2)

/-- Lines 245-259 of `usbFunctionWrite`: count the byte, finish the transfer
when `prog_nbytes` reaches 0, advance the address. Returns the new `retVal`. -/
def writeCount (E : Env W) (fuel : Nat) (b : Nat) (retVal : Nat) (s : Session) (h : Hw W) :
    Option (Nat × Session × Hw W) :=
  let s1 := { s with prog_nbytes := (s.prog_nbytes + 65535) % 65536 }
  if s1.prog_nbytes = 0 then
    let s2 := { s1 with prog_state := ProgState.idle }
    if s2.prog_blockflags &&& PROG_BLOCKFLAG_LAST ≠ 0 ∧
        s2.prog_pagecounter ≠ s2.prog_pagesize then
      (ispFlushPage E fuel s2.prog_address b h).bind fun f =>
      some (1, { s2 with prog_address := (s2.prog_address + 1) % 4294967296 }, f.2)
    else some (1, { s2 with prog_address := (s2.prog_address + 1) % 4294967296 }, h)
  else some (retVal, { s1 with prog_address := (s1.prog_address + 1) % 4294967296 }, h)

/-- The `for` loop of `usbFunctionWrite` over the bytes `data[0..len-1]`. -/
def writeLoop (E : Env W) (fuel : Nat) : List Nat → Nat → Session → Hw W →
    Option (Nat × Session × Hw W)
  | [], retVal, s, h => some (retVal, s, h)
  | b :: bs, retVal, s, h =>
    (writeMem E fuel (b % 256) s h).bind fun m =>
    (writeCount E fuel (b % 256) retVal m.1 m.2).bind fun c =>
    writeLoop E fuel bs c.1 c.2.1 c.2.2

/-- `usbFunctionWrite(data, len)` with `len = data.length` (a `uchar`). -/
def usbFunctionWrite (E : Env W) (fuel : Nat) (data : List Nat) (s : Session) (h : Hw W) :
    Option (Nat × Session × Hw W) :=
  if s.prog_state ≠ ProgState.writeFlash ∧ s.prog_state ≠ ProgState.writeEEPROM then
    some (0xff, s, h)
  else writeLoop E fuel data 0 s h

/-! ## The transport driving the bulk phases, and host scenarios -/

/-- The bulk-in phase as the transport drives it: `usbFunctionRead` is called
once per packet with the packet lengths `lens` in turn. Yields the packets
filled, and the state at the end. -/
def bulkRead (E : Env W) : List Nat → Session → Hw W → List (List Nat) × Session × Hw W
  | [], s, h => ([], s, h)
  | len :: lens, s, h =>
    let r := usbFunctionRead E len s h
    let rest := bulkRead E lens r.2.2.1 r.2.2.2
    (r.2.1 :: rest.1, rest.2)

/-- The bulk-out phase as the transport drives it: `usbFunctionWrite` is called
once per packet. Yields the return values and the state at the end. -/
def bulkWrite (E : Env W) (fuel : Nat) :
    List (List Nat) → Session → Hw W → Option (List Nat × Session × Hw W)
  | [], s, h => some ([], s, h)
  | pkt :: pkts, s, h =>
    (usbFunctionWrite E fuel pkt s h).bind fun r =>
    (bulkWrite E fuel pkts r.2.1 r.2.2).bind fun rest =>
    some (r.1 :: rest.1, rest.2)

/-- The scenario of the round trip: WriteFlash command (address `a`, page size 0,
block flags `f`, length 1), the write packet `[b]`, ReadFlash command (address
`a`, length 1), a read packet of one byte. Yields the bytes read. -/
def roundTrip (E : Env W) (fuel a f b : Nat) (s : Session) (h : Hw W) : Option (List Nat) :=
  (usbFunctionSetup E fuel [0, USBASP_FUNC_WRITEFLASH, a % 256, a / 256, 0, f, 1, 0] s h).bind
    fun r1 =>
  (usbFunctionWrite E fuel [b] r1.2.1 r1.2.2).bind fun r2 =>
  (usbFunctionSetup E fuel [0, USBASP_FUNC_READFLASH, a % 256, a / 256, 0, 0, 1, 0]
    r2.2.1 r2.2.2).bind fun r3 =>
  some (usbFunctionRead E 1 r3.2.1 r3.2.2).2.1

/-- The host reading `N` bytes of flash from address `A` with extended addressing:
SetExtendedAddress with `A`, a ReadFlash command (address field 0, length `N`),
then the read packets. Yields the packets and the state at the end. -/
def readExtended (E : Env W) (A N : Nat) (s : Session) (h : Hw W) :
    Option (List (List Nat) × Session × Hw W) :=
  (usbFunctionSetup E 0 [0, USBASP_FUNC_SETLONGADDRESS, A % 256, A / 256 % 256,
    A / 65536 % 256, A / 16777216 % 256, 0, 0] s h).bind fun r1 =>
  (usbFunctionSetup E 0 [0, USBASP_FUNC_READFLASH, 0, 0, 0, 0, N % 256, N / 256 % 256]
    r1.2.1 r1.2.2).bind fun r2 =>
  some (bulkRead E (List.replicate (N / 8) 8 ++ [N % 8]) r2.2.1 r2.2.2)

/-- The host reading `N` bytes of flash from address `A` with the legacy address
field: a ReadFlash command whose bytes 2-3 hold `A`, then the read packets. -/
def readLegacy (E : Env W) (A N : Nat) (s : Session) (h : Hw W) :
    Option (List (List Nat) × Session × Hw W) :=
  (usbFunctionSetup E 0 [0, USBASP_FUNC_READFLASH, A % 256, A / 256 % 256, 0, 0,
    N % 256, N / 256 % 256] s h).bind fun r2 =>
  some (bulkRead E (List.replicate (N / 8) 8 ++ [N % 8]) r2.2.1 r2.2.2)

/-! ## Observations on traces -/

/-- The ISP operations entered, in order. -/
def callsOf (t : List Event) : List IspCall :=
  t.filterMap fun e => match e with
    | Event.call c => some c
    | _ => none

/-- The byte exchanges `(sent, received)`, in order. -/
def xchgsOf (t : List Event) : List (Nat × Nat) :=
  t.filterMap fun e => match e with
    | Event.xchg a b => some (a, b)
    | _ => none

/-- The retry budget values written by `retries --`, in order. -/
def retriesOf (t : List Event) : List Nat :=
  t.filterMap fun e => match e with
    | Event.retry k => some k
    | _ => none

/-- The byte received in every fourth exchange. -/
def fourth : List (Nat × Nat) → List Nat
  | _ :: _ :: _ :: x :: rest => x.2 :: fourth rest
  | _ => []

/-- The byte received in the third exchange of every group of four. -/
def third : List (Nat × Nat) → List Nat
  | _ :: _ :: x :: _ :: rest => x.2 :: third rest
  | _ => []

/-- The read-back values of a poll phase: its exchanges come in groups of four
(one `ispReadFlash` each), the fourth delivering the value read. -/
def readBacks (evs : List Event) : List Nat := fourth (xchgsOf evs)

/-- The operations that change target memory. -/
def isProg : IspCall → Bool
  | IspCall.writeFlash _ _ _ => true
  | IspCall.flushPage _ _ => true
  | IspCall.writeEEPROM _ _ => true
  | _ => false

/-- The programming operations entered (`ispWriteFlash`, `ispFlushPage`,
`ispWriteEEPROM`), in order; the read-backs of the poll loops are left out. -/
def progCalls (t : List Event) : List IspCall := (callsOf t).filter isProg

/-- The number of `ispFlushPage` calls among programming calls. -/
def flushCount (cs : List IspCall) : Nat :=
  (cs.filter fun c => match c with
    | IspCall.flushPage _ _ => true
    | _ => false).length

/-- The bytes sent to the target in a run. -/
def sentBytes (r : Option (List (List Nat) × Session × Hw W)) : Option (List Nat) :=
  r.map fun x => (xchgsOf x.2.2.trace).map Prod.fst

/-- The events of one `ispReadFlash(a)` whose exchanges received `r1 r2 r3 v`. -/
def readFlashEvents (a r1 r2 r3 v : Nat) : List Event :=
  [Event.call (IspCall.readFlash a),
   Event.xchg ((0x20 ||| ((a &&& 1) <<< 3)) % 256) r1,
   Event.xchg ((a >>> 9) % 256) r2,
   Event.xchg ((a >>> 1) % 256) r3,
   Event.xchg 0 v]

/-- The events of the command part of `ispWriteFlash(a, d, p)`: the call marker
and the four exchanges, which received `x1 x2 x3 x4`. -/
def writeFlashEvents (a d p x1 x2 x3 x4 : Nat) : List Event :=
  [Event.call (IspCall.writeFlash a d p),
   Event.xchg ((0x40 ||| ((a &&& 1) <<< 3)) % 256) x1,
   Event.xchg ((a >>> 9) % 256) x2,
   Event.xchg ((a >>> 1) % 256) x3,
   Event.xchg (d % 256) x4]

/-- The events of the command part of `ispFlushPage(a, v)`. -/
def flushPageEvents (a v x1 x2 x3 x4 : Nat) : List Event :=
  [Event.call (IspCall.flushPage a v),
   Event.xchg 0x4C x1,
   Event.xchg ((a >>> 9) % 256) x2,
   Event.xchg ((a >>> 1) % 256) x3,
   Event.xchg 0 x4]

/-- The levels written to the MOSI pin, in order. -/
def mosiWrites (t : List Event) : List Bool :=
  t.filterMap fun e => match e with
    | Event.ctl Ctl.mosiHigh => some true
    | Event.ctl Ctl.mosiLow => some false
    | _ => none

/-- The levels written to the SCK pin, in order. -/
def sckWrites (t : List Event) : List Bool :=
  t.filterMap fun e => match e with
    | Event.ctl Ctl.sckHigh => some true
    | Event.ctl Ctl.sckLow => some false
    | _ => none

/-- The levels sampled from the MISO pin, in order. -/
def samplesOf (t : List Event) : List Bool :=
  t.filterMap fun e => match e with
    | Event.sample b => some b
    | _ => none

/-- The arguments of the `clockWait` calls, in order. -/
def clockWaitsOf (t : List Event) : List Nat :=
  t.filterMap fun e => match e with
    | Event.clockWait n => some n
    | _ => none

/-- The EEPROM write operation. -/
def isEepromWrite : IspCall → Bool
  | IspCall.writeEEPROM _ _ => true
  | _ => false

/-! ## Liveness of the timer -/

/-- Polling `address` from state `h` with start time `st`: the elapsed-time test
`(uint8_t)(TIMERVALUE - starttime) > CLOCK_T_320us` succeeds at one of the next
`n` read-backs. -/
def tickWithin (E : Env W) (address : Nat) : Nat → Nat → Hw W → Bool
  | 0, _, _ => false
  | n + 1, st, h =>
    let t := readTimer E (ispReadFlash E address h).2
    decide ((t.1 + 256 - st) % 256 > E.clock_T_320us % 256) || tickWithin E address n st t.2

/-- A tick source that keeps running as far as the poll loop can tell: from
every state and start time, the elapsed-time test succeeds after finitely many
read-backs. -/
def TickLive (E : Env W) : Prop :=
  ∀ (address st : Nat) (h : Hw W), st < 256 → ∃ n, tickWithin E address n st h = true

/-- Every `ispDelay` returns: the timer keeps running as far as the delay loop
can tell. -/
def DelayLive (E : Env W) : Prop :=
  ∀ h : Hw W, ∃ n, (ispDelay E n h).isSome = true

/-! ## Reference behaviour -/

/-- Reference run: `n` single-byte reads (`ispReadFlash` when `flash`, else
`ispReadEEPROM`) at `A`, `A+1`, ... in 32 bit arithmetic, one after the other. -/
def readSeq (E : Env W) (flash : Bool) : Nat → Nat → Hw W → List Nat × Hw W
  | _, 0, h => ([], h)
  | A, n + 1, h =>
    let r := if flash then ispReadFlash E A h else ispReadEEPROM E A h
    let rest := readSeq E flash ((A + 1) % 4294967296) n r.2
    (r.1 :: rest.1, rest.2)

/-- The call marker of the read operation of a session at address `a`. -/
def readCall (flash : Bool) (a : Nat) : IspCall :=
  if flash then IspCall.readFlash a else IspCall.readEEPROM (a % 65536)

/-- The calls `ispWriteFlash(A, b0, 0)`, `ispWriteFlash(A+1, b1, 0)`, ... of a
paged transfer of the bytes `b0, b1, ...` starting at address `A`. -/
def pagedWrites : Nat → List Nat → List IspCall
  | _, [] => []
  | A, b :: bs => IspCall.writeFlash A (b % 256) 0 :: pagedWrites ((A + 1) % 4294967296) bs

/-- The programming calls of a paged transfer of `m` whole pages of `p` bytes
from address `A`: for each page the `ispWriteFlash(.., 0)` of its bytes, then
one `ispFlushPage` with the address and the value of the page's last byte. -/
def pageBlocks (p : Nat) : Nat → Nat → List Nat → List IspCall
  | 0, _, _ => []
  | m + 1, A, bytes =>
    pagedWrites A (bytes.take p) ++
      [IspCall.flushPage ((A + p - 1) % 4294967296) ((bytes.take p).getD (p - 1) 0 % 256)] ++
      pageBlocks p m ((A + p) % 4294967296) (bytes.drop p)

/-- What a finished poll phase looks like: `evs` are the events it produced, `r`
its result and `retries` its budget. Either all read-backs returned `busy`, the
budget was counted down to 0 and the result is 1; or the read-backs are `k`
times `busy` followed by one other value `v`, the exchange that received `v` is
the last event, fewer than `retries` decrements happened and the result is 0. -/
def PollOutcome (busy a retries : Nat) (evs : List Event) (r : Nat) : Prop :=
  (∀ c ∈ callsOf evs, c = IspCall.readFlash a) ∧
  ((r = 1 ∧ (∀ v ∈ readBacks evs, v = busy) ∧
      retriesOf evs = (List.range retries).reverse) ∨
   (r = 0 ∧ ∃ k v pre, readBacks evs = List.replicate k busy ++ [v] ∧ v ≠ busy ∧
      evs = pre ++ [Event.xchg 0 v] ∧ (retriesOf evs).length < retries))

/-- The session a WriteFlash command record leaves behind. -/
def writeFlashSession (data : List Nat) (s : Session) : Session :=
  { s with
    prog_address := if s.prog_address_newmode = 0 then legacyAddress data else s.prog_address,
    prog_pagesize := (byteAt data 4 + ((byteAt data 5 &&& 0xF0) <<< 4) % 65536) % 65536,
    prog_blockflags := byteAt data 5 &&& 0x0F,
    prog_pagecounter :=
      if (byteAt data 5 &&& 0x0F) &&& PROG_BLOCKFLAG_FIRST ≠ 0 then
        ((byteAt data 4 + ((byteAt data 5 &&& 0xF0) <<< 4) % 65536) % 65536) % 256
      else s.prog_pagecounter,
    prog_nbytes := transferLength data,
    prog_state := ProgState.writeFlash }

/-- The 8 bits of the byte `s`, most significant first. -/
def msbFirst (s : Nat) : List Bool := (List.range 8).map fun i => (s % 256).testBit (7 - i)

/-- The number whose binary digits, most significant first, are `bits`. -/
def ofMsbFirst (bits : List Bool) : Nat := bits.foldl (fun acc b => 2 * acc + b.toNat) 0

/-- The pin events of consecutive bit periods in which the levels `outs` are
driven on MOSI and the levels `ins` are sampled on MISO: per bit, the write to
MOSI, the sample, SCK high, SCK low. -/
def bitPeriods : List Bool → List Bool → List Event
  | o :: os, i :: is =>
    Event.ctl (if o then Ctl.mosiHigh else Ctl.mosiLow) :: Event.sample i ::
      Event.ctl Ctl.sckHigh :: Event.ctl Ctl.sckLow :: bitPeriods os is
  | _, _ => []

/-- The levels written to MOSI by the next `n` iterations of the loop of
`ispTransmit_sw` when `send_byte` holds `send`. -/
def topBits : Nat → Nat → List Bool
  | 0, _ => []
  | n + 1, send => decide (send &&& 0x80 ≠ 0) :: topBits n ((send <<< 1) % 256)

/-- The value of `rec_byte` after shifting in the samples `ins`, starting from `acc`. -/
def shiftIn (acc : Nat) (ins : List Bool) : Nat :=
  ins.foldl (fun a b => if b then ((a <<< 1) % 256 + 1) % 256 else (a <<< 1) % 256) acc

/-! ## The write handler without the hardware -/

/-- Session after the memory operation of one byte (`writeMem`). -/
def memSess (s : Session) : Session :=
  if s.prog_state = ProgState.writeFlash ∧ s.prog_pagesize ≠ 0 then
    { s with prog_pagecounter :=
        if (s.prog_pagecounter + 255) % 256 = 0 then s.prog_pagesize % 256
        else (s.prog_pagecounter + 255) % 256 }
  else s

/-- Programming calls of the memory operation of one byte (`writeMem`). -/
def memCalls (b : Nat) (s : Session) : List IspCall :=
  if s.prog_state = ProgState.writeFlash then
    if s.prog_pagesize = 0 then [IspCall.writeFlash s.prog_address b 1]
    else if (s.prog_pagecounter + 255) % 256 = 0 then
      [IspCall.writeFlash s.prog_address b 0, IspCall.flushPage s.prog_address b]
    else [IspCall.writeFlash s.prog_address b 0]
  else [IspCall.writeEEPROM (s.prog_address % 65536) b]

/-- New `retVal` and session after counting one byte (`writeCount`). -/
def countSess (retVal : Nat) (s : Session) : Nat × Session :=
  if (s.prog_nbytes + 65535) % 65536 = 0 then
    (1, { s with prog_nbytes := 0, prog_state := ProgState.idle,
                 prog_address := (s.prog_address + 1) % 4294967296 })
  else
    (retVal, { s with prog_nbytes := (s.prog_nbytes + 65535) % 65536,
                      prog_address := (s.prog_address + 1) % 4294967296 })

/-- Programming calls of counting one byte (`writeCount`): the forced flush. -/
def countCalls (b : Nat) (s : Session) : List IspCall :=
  if (s.prog_nbytes + 65535) % 65536 = 0 ∧ s.prog_blockflags &&& PROG_BLOCKFLAG_LAST ≠ 0 ∧
      s.prog_pagecounter ≠ s.prog_pagesize then
    [IspCall.flushPage s.prog_address b]
  else []

/-- The `for` loop of `usbFunctionWrite` without the hardware: programming calls,
`retVal` and session. -/
def loopPure : List Nat → Nat → Session → List IspCall × Nat × Session
  | [], rv, s => ([], rv, s)
  | b :: bs, rv, s =>
    let c := countSess rv (memSess s)
    let rest := loopPure bs c.1 c.2
    (memCalls (b % 256) s ++ countCalls (b % 256) (memSess s) ++ rest.1, rest.2)

/-- `usbFunctionWrite` without the hardware. -/
def writePure (data : List Nat) (s : Session) : List IspCall × Nat × Session :=
  if s.prog_state ≠ ProgState.writeFlash ∧ s.prog_state ≠ ProgState.writeEEPROM then
    ([], 0xff, s)
  else loopPure data 0 s

/-- `bulkWrite` without the hardware. -/
def bulkPure : List (List Nat) → Session → List IspCall × List Nat × Session
  | [], s => ([], [], s)
  | pkt :: pkts, s =>
    let r := writePure pkt s
    let rest := bulkPure pkts r.2.2
    (r.1 ++ rest.1, r.2.1 :: rest.2.1, rest.2.2)

/-! ## Concrete environments and inputs -/

/-- A target that answers every exchange with 0, with a timer stuck at 0. -/
def idleEnv : Env Unit where
  transmit_sw := fun _ w => (0, w)
  transmit_hw := fun _ w => (0, w)
  timer := fun w => (0, w)
  clockWait := fun _ w => w
  ctl := fun _ w => w
  speedPin := fun _ => true
  clock_T_320us := 60
  delayTicks := 12

/-- A target that always reads back the busy value 0x7F, with a timer stuck at 0. -/
def stuckEnv : Env Unit where
  transmit_sw := fun _ w => (0x7F, w)
  transmit_hw := fun _ w => (0x7F, w)
  timer := fun w => (0, w)
  clockWait := fun _ w => w
  ctl := fun _ w => w
  speedPin := fun _ => true
  clock_T_320us := 60
  delayTicks := 12

/-- A target that always reads back the busy value 0x7F, with a tick count (the
world) that advances by 256 between any two reads of the 8 bit timer register,
so that the register always shows the same value. -/
def aliasEnv : Env Nat where
  transmit_sw := fun _ w => (0x7F, w)
  transmit_hw := fun _ w => (0x7F, w)
  timer := fun w => (w, w + 256)
  clockWait := fun _ w => w
  ctl := fun _ w => w
  speedPin := fun _ => true
  clock_T_320us := 60
  delayTicks := 12

/-- A target that answers every exchange with `answer`, with a timer (the world
is the tick count) that has advanced by 100 ticks at every read. -/
def tickEnv (answer : Nat) : Env Nat where
  transmit_sw := fun _ w => (answer, w)
  transmit_hw := fun _ w => (answer, w)
  timer := fun w => (w, w + 100)
  clockWait := fun _ w => w
  ctl := fun _ w => w
  speedPin := fun _ => true
  clock_T_320us := 60
  delayTicks := 12

/-- The hardware state at start-up (`main` binds the hardware transport). -/
def hw0 : Hw Unit := { world := (), hwSpi := true, trace := [] }

/-- Start-up hardware state over the tick-count world. -/
def hwT : Hw Nat := { world := 0, hwSpi := true, trace := [] }

/-- The session at start-up. -/
def session0 : Session :=
  { prog_state := ProgState.idle, prog_address_newmode := 0, prog_address := 0,
    prog_nbytes := 0, prog_pagesize := 0, prog_blockflags := 0, prog_pagecounter := 0,
    replyBuffer := [0, 0, 0, 0, 0, 0, 0, 0] }

/-- A session in state ReadFlash with 3 bytes declared, at address 0. -/
def sessionRead3 : Session :=
  { session0 with prog_state := ProgState.readFlash, prog_nbytes := 3 }

/-- A session in state WriteFlash, unpaged, with 3 bytes declared. -/
def sessionWrite3 : Session :=
  { session0 with prog_state := ProgState.writeFlash, prog_nbytes := 3 }

/-- A paged session in state WriteFlash flagged as last block: page size 128,
page counter 100, 10 bytes declared, at address 0x100. -/
def sessionLast10 : Session :=
  { session0 with prog_state := ProgState.writeFlash, prog_address := 0x100,
                  prog_nbytes := 10, prog_pagesize := 128, prog_blockflags := 2,
                  prog_pagecounter := 100 }

/-- Pins with MISO wired to MOSI (the world is the MOSI level and a tick count
that advances by 100 at every read of the timer). -/
def loopEnv : Env (Bool × Nat) where
  transmit_sw := fun _ w => (0, w)
  transmit_hw := fun _ w => (0, w)
  timer := fun w => (w.2, (w.1, w.2 + 100))
  clockWait := fun _ w => w
  ctl := fun c w => match c with
    | Ctl.mosiHigh => (true, w.2)
    | Ctl.mosiLow => (false, w.2)
    | _ => w
  speedPin := fun _ => false
  clock_T_320us := 60
  delayTicks := 12

/-- The MISO level of `loopEnv`. -/
def loopMiso (w : Bool × Nat) : Bool := w.1

/-- Start-up state of the loop-back pins, with the bit-banged transport bound. -/
def hwLoop : Hw (Bool × Nat) := { world := (false, 0), hwSpi := false, trace := [] }

/-! ## Simulated target memory -/

/-- Modelled from the spec: the simulated target memory of the round-trip
property (a test fixture, not part of the sources). The target collects the
bytes of a four byte command in `pending`; `mem` maps a cell to its content. -/
structure SimTarget where
  mem : Nat → Nat
  pending : List Nat

/-- The flash cell a command selects: the word address in its two operand bytes
and the low/high byte bit (bit 3) of its opcode. -/
def cellIndex (op hi lo : Nat) : Nat := 2 * (256 * hi + lo) + (op / 8) % 2

/-- Modelled from the spec: one byte exchange with the simulated target. The
fourth byte of a flash load command (0x40, 0x48) is stored at the selected cell;
the fourth exchange of a flash read command (0x20, 0x28) returns the cell's
content; every other exchange returns 0. -/
def simXchg (b : Nat) (t : SimTarget) : Nat × SimTarget :=
  match t.pending with
  | [op, hi, lo] =>
    if op = 0x40 ∨ op = 0x48 then
      (0, { mem := fun c => if c = cellIndex op hi lo then b else t.mem c, pending := [] })
    else if op = 0x20 ∨ op = 0x28 then (t.mem (cellIndex op hi lo), { t with pending := [] })
    else (0, { t with pending := [] })
  | p => (0, { t with pending := p ++ [b] })

/-- The simulated target as hardware environment (timing plays no role). -/
def simEnv : Env SimTarget where
  transmit_sw := simXchg
  transmit_hw := simXchg
  timer := fun w => (0, w)
  clockWait := fun _ w => w
  ctl := fun _ w => w
  speedPin := fun _ => true
  clock_T_320us := 60
  delayTicks := 12

/-- The cell of the flash byte address `a`, as `ispReadFlash`/`ispWriteFlash`
encode it. -/
def cellOf (a : Nat) : Nat := cellIndex (8 * (a % 2)) ((a >>> 9) % 256) ((a >>> 1) % 256)

/-- The simulated target with an empty (all zero) memory, in sync. -/
def hwSim : Hw SimTarget := { world := { mem := fun _ => 0, pending := [] }, hwSpi := true, trace := [] }

/-- The simulated target holding 0xAA in the cell of byte address 0x8000 and 0x55
in every other cell. -/
def hwSimMarked : Hw SimTarget :=
  { world := { mem := fun c => if c = cellOf 0x8000 then 0xAA else 0x55, pending := [] },
    hwSpi := true, trace := [] }

/-! ## Trace lemmas for the read operations -/

@[simp] theorem callsOf_nil : callsOf [] = [] := rfl

@[simp] theorem callsOf_append (a b : List Event) : callsOf (a ++ b) = callsOf a ++ callsOf b := by
  simp [callsOf, List.filterMap_append]

@[simp] theorem callsOf_cons_call (c : IspCall) (t : List Event) :
    callsOf (Event.call c :: t) = c :: callsOf t := rfl

@[simp] theorem callsOf_cons_xchg (a b : Nat) (t : List Event) :
    callsOf (Event.xchg a b :: t) = callsOf t := rfl

@[simp] theorem callsOf_cons_clockWait (n : Nat) (t : List Event) :
    callsOf (Event.clockWait n :: t) = callsOf t := rfl

@[simp] theorem callsOf_cons_retry (n : Nat) (t : List Event) :
    callsOf (Event.retry n :: t) = callsOf t := rfl

@[simp] theorem callsOf_cons_ctl (c : Ctl) (t : List Event) :
    callsOf (Event.ctl c :: t) = callsOf t := rfl

@[simp] theorem xchgsOf_nil : xchgsOf [] = [] := rfl

@[simp] theorem xchgsOf_append (a b : List Event) : xchgsOf (a ++ b) = xchgsOf a ++ xchgsOf b := by
  simp [xchgsOf, List.filterMap_append]

@[simp] theorem xchgsOf_cons_call (c : IspCall) (t : List Event) :
    xchgsOf (Event.call c :: t) = xchgsOf t := rfl

@[simp] theorem xchgsOf_cons_xchg (a b : Nat) (t : List Event) :
    xchgsOf (Event.xchg a b :: t) = (a, b) :: xchgsOf t := rfl

@[simp] theorem xchgsOf_cons_clockWait (n : Nat) (t : List Event) :
    xchgsOf (Event.clockWait n :: t) = xchgsOf t := rfl

@[simp] theorem xchgsOf_cons_retry (n : Nat) (t : List Event) :
    xchgsOf (Event.retry n :: t) = xchgsOf t := rfl

@[simp] theorem xchgsOf_cons_ctl (c : Ctl) (t : List Event) :
    xchgsOf (Event.ctl c :: t) = xchgsOf t := rfl

theorem ispTransmit_trace (E : Env W) (b : Nat) (h : Hw W) :
    (ispTransmit E b h).2.trace = h.trace ++ [Event.xchg (b % 256) (ispTransmit E b h).1] := rfl

@[simp] theorem ispTransmit_hwSpi (E : Env W) (b : Nat) (h : Hw W) :
    (ispTransmit E b h).2.hwSpi = h.hwSpi := rfl

theorem ispTransmit_lt (E : Env W) (b : Nat) (h : Hw W) : (ispTransmit E b h).1 < 256 :=
  Nat.mod_lt _ (by decide)

theorem ispReadFlash_calls (E : Env W) (a : Nat) (h : Hw W) :
    callsOf (ispReadFlash E a h).2.trace = callsOf h.trace ++ [IspCall.readFlash a] := by
  simp [ispReadFlash, ispTransmit_trace, emit]

theorem ispReadEEPROM_calls (E : Env W) (a : Nat) (h : Hw W) :
    callsOf (ispReadEEPROM E a h).2.trace = callsOf h.trace ++ [IspCall.readEEPROM (a % 65536)] := by
  simp [ispReadEEPROM, ispTransmit_trace, emit]

theorem ispReadFlash_xchgs_length (E : Env W) (a : Nat) (h : Hw W) :
    (xchgsOf (ispReadFlash E a h).2.trace).length = (xchgsOf h.trace).length + 4 := by
  simp [ispReadFlash, ispTransmit_trace, emit]

theorem ispReadEEPROM_xchgs_length (E : Env W) (a : Nat) (h : Hw W) :
    (xchgsOf (ispReadEEPROM E a h).2.trace).length = (xchgsOf h.trace).length + 4 := by
  simp [ispReadEEPROM, ispTransmit_trace, emit]

theorem readFill_eq (E : Env W) (n : Nat) (s : Session) (h : Hw W) :
    readFill E n s h =
      ((readSeq E (decide (s.prog_state = ProgState.readFlash)) s.prog_address n h).1,
       { s with prog_address := if n = 0 then s.prog_address
                                else (s.prog_address + n) % 4294967296 },
       (readSeq E (decide (s.prog_state = ProgState.readFlash)) s.prog_address n h).2) := by
  induction n generalizing s h with
  | zero => simp [readFill, readSeq]
  | succ n ih =>
    rw [readFill, ih]
    by_cases hs : s.prog_state = ProgState.readFlash
    · simp only [hs, readSeq, if_true, decide_True]
      refine Prod.ext rfl (Prod.ext ?_ rfl)
      by_cases hn : n = 0
      · simp [hn]
      · simp only [hn, if_false, Nat.succ_ne_zero]
        congr 1
        omega
    · simp only [hs, readSeq, if_false, decide_False]
      refine Prod.ext rfl (Prod.ext ?_ rfl)
      by_cases hn : n = 0
      · simp [hn]
      · simp only [hn, if_false, Nat.succ_ne_zero]
        congr 1
        omega

theorem readSeq_length (E : Env W) (f : Bool) (A n : Nat) (h : Hw W) :
    (readSeq E f A n h).1.length = n := by
  induction n generalizing A h with
  | zero => simp [readSeq]
  | succ n ih => simp [readSeq, ih]

theorem readSeq_calls (E : Env W) (f : Bool) (A n : Nat) (h : Hw W) (hA : A < 4294967296) :
    callsOf (readSeq E f A n h).2.trace =
      callsOf h.trace ++ (List.range n).map fun k => readCall f ((A + k) % 4294967296) := by
  induction n generalizing A h with
  | zero => simp [readSeq]
  | succ n ih =>
    have hM : (A + 1) % 4294967296 < 4294967296 := Nat.mod_lt _ (by decide)
    simp only [readSeq]
    rw [ih _ _ hM, List.range_succ_eq_map, List.map_cons, List.map_map]
    have h0 : (A + 0) % 4294967296 = A := by omega
    have hf : (fun k => readCall f (((A + 1) % 4294967296 + k) % 4294967296)) =
        ((fun k => readCall f ((A + k) % 4294967296)) ∘ Nat.succ) := by
      funext k
      simp only [Function.comp]
      congr 1
      omega
    rw [hf, h0]
    cases f with
    | true => simp [ispReadFlash_calls, readCall]
    | false => simp [ispReadEEPROM_calls, readCall]

theorem readSeq_add (E : Env W) (f : Bool) (A m n : Nat) (h : Hw W) (hA : A < 4294967296) :
    readSeq E f A (m + n) h =
      ((readSeq E f A m h).1 ++ (readSeq E f ((A + m) % 4294967296) n (readSeq E f A m h).2).1,
       (readSeq E f ((A + m) % 4294967296) n (readSeq E f A m h).2).2) := by
  induction m generalizing A h with
  | zero =>
    have h0 : A % 4294967296 = A := Nat.mod_eq_of_lt hA
    simp [readSeq, h0]
  | succ m ih =>
    have hM : (A + 1) % 4294967296 < 4294967296 := Nat.mod_lt _ (by decide)
    have e : m + 1 + n = (m + n) + 1 := by omega
    have e2 : ((A + 1) % 4294967296 + m) % 4294967296 = (A + (m + 1)) % 4294967296 := by omega
    rw [e]
    simp only [readSeq]
    rw [ih _ _ hM, e2]
    simp

theorem usbFunctionRead_reading (E : Env W) (len : Nat) (s : Session) (h : Hw W)
    (hs : s.reading) (hA : s.prog_address < 4294967296) :
    usbFunctionRead E len s h =
      (len, (readSeq E (decide (s.prog_state = ProgState.readFlash)) s.prog_address len h).1,
       { s with prog_address := (s.prog_address + len) % 4294967296,
                prog_state := if len < 8 then ProgState.idle else s.prog_state },
       (readSeq E (decide (s.prog_state = ProgState.readFlash)) s.prog_address len h).2) := by
  have hne : ¬ (s.prog_state ≠ ProgState.readFlash ∧ s.prog_state ≠ ProgState.readEEPROM) := by
    rcases hs with hs | hs <;> simp [hs]
  rw [usbFunctionRead, if_neg hne, readFill_eq]
  have h0 : s.prog_address % 4294967296 = s.prog_address := Nat.mod_eq_of_lt hA
  by_cases hn : len = 0
  · subst hn; simp [h0]
  · by_cases h8 : len < 8 <;> simp [hn, h8]

theorem bulkRead_full (E : Env W) (j : Nat) (s : Session) (h : Hw W)
    (hs : s.reading) (hA : s.prog_address < 4294967296) :
    bulkRead E (List.replicate j 8) s h =
      (((bulkRead E (List.replicate j 8) s h).1),
       { s with prog_address := (s.prog_address + 8 * j) % 4294967296 },
       (readSeq E (decide (s.prog_state = ProgState.readFlash)) s.prog_address (8 * j) h).2) ∧
    (bulkRead E (List.replicate j 8) s h).1.flatten =
      (readSeq E (decide (s.prog_state = ProgState.readFlash)) s.prog_address (8 * j) h).1 ∧
    (bulkRead E (List.replicate j 8) s h).1.map List.length = List.replicate j 8 := by
  induction j generalizing s h with
  | zero =>
    have h0 : s.prog_address % 4294967296 = s.prog_address := Nat.mod_eq_of_lt hA
    simp [bulkRead, readSeq, h0]
  | succ j ih =>
    have e : 8 * (j + 1) = 8 + 8 * j := by omega
    have hs1 : Session.reading { s with prog_address := (s.prog_address + 8) % 4294967296 } := hs
    have hA1 : (s.prog_address + 8) % 4294967296 < 4294967296 := Nat.mod_lt _ (by decide)
    have e3 : ((s.prog_address + 8) % 4294967296 + 8 * j) % 4294967296
        = (s.prog_address + (8 + 8 * j)) % 4294967296 := by omega
    have key := ih { s with prog_address := (s.prog_address + 8) % 4294967296 }
      (readSeq E (decide (s.prog_state = ProgState.readFlash)) s.prog_address 8 h).2 hs1 hA1
    simp only [List.replicate_succ, bulkRead, usbFunctionRead_reading E 8 s h hs hA,
      Nat.lt_irrefl, if_false, e, readSeq_add E _ _ 8 (8 * j) h hA] at key ⊢
    obtain ⟨k1, k2, k3⟩ := key
    refine ⟨?_, ?_, ?_⟩
    · refine Prod.ext rfl (Prod.ext ?_ ?_)
      · rw [k1]; simp [e3]
      · rw [k1]
    · simp [k2]
    · simp [k3, readSeq_length]

theorem bulkRead_append (E : Env W) (l1 l2 : List Nat) (s : Session) (h : Hw W) :
    bulkRead E (l1 ++ l2) s h =
      ((bulkRead E l1 s h).1 ++
          (bulkRead E l2 (bulkRead E l1 s h).2.1 (bulkRead E l1 s h).2.2).1,
       (bulkRead E l2 (bulkRead E l1 s h).2.1 (bulkRead E l1 s h).2.2).2) := by
  induction l1 generalizing s h with
  | nil => simp [bulkRead]
  | cons a l ih => simp [bulkRead, ih]

/-! ## C3, C4: the read side -/

/-- C3: a read transfer of `N` bytes from a session in a read state at address
`A`, fetched as `N / 8` packets of 8 bytes and a final packet of `N % 8` bytes,
delivers in order the results of the single-byte reads at `A`, `A+1`, ...,
`A+N-1` and performs nothing else on the target; the ISP calls made are exactly
those reads; the address afterwards is `A+N`; the state is unchanged after each
8 byte packet and Idle after the final packet. Addresses are those of the 32 bit
`prog_address`: sums are taken modulo 2^32, which changes nothing as long as
`A + N < 2^32` (last two parts). -/
theorem C3_read_transfer (E : Env W) (s : Session) (h : Hw W) (N : Nat)
    (hs : s.reading) (hA : s.prog_address < 4294967296) :
    (bulkRead E (List.replicate (N / 8) 8 ++ [N % 8]) s h).1.flatten =
      (readSeq E (decide (s.prog_state = ProgState.readFlash)) s.prog_address N h).1 ∧
    (bulkRead E (List.replicate (N / 8) 8 ++ [N % 8]) s h).1.map List.length =
      List.replicate (N / 8) 8 ++ [N % 8] ∧
    (bulkRead E (List.replicate (N / 8) 8 ++ [N % 8]) s h).2.2 =
      (readSeq E (decide (s.prog_state = ProgState.readFlash)) s.prog_address N h).2 ∧
    callsOf (bulkRead E (List.replicate (N / 8) 8 ++ [N % 8]) s h).2.2.trace =
      callsOf h.trace ++ (List.range N).map (fun k =>
        readCall (decide (s.prog_state = ProgState.readFlash))
          ((s.prog_address + k) % 4294967296)) ∧
    (bulkRead E (List.replicate (N / 8) 8 ++ [N % 8]) s h).2.1.prog_address =
      (s.prog_address + N) % 4294967296 ∧
    (∀ j, j ≤ N / 8 →
      (bulkRead E (List.replicate j 8) s h).2.1.prog_state = s.prog_state) ∧
    (bulkRead E (List.replicate (N / 8) 8 ++ [N % 8]) s h).2.1.prog_state = ProgState.idle ∧
    (s.prog_address + N < 4294967296 →
      (bulkRead E (List.replicate (N / 8) 8 ++ [N % 8]) s h).2.1.prog_address =
        s.prog_address + N) ∧
    (s.prog_address + N < 4294967296 →
      callsOf (bulkRead E (List.replicate (N / 8) 8 ++ [N % 8]) s h).2.2.trace =
        callsOf h.trace ++ (List.range N).map (fun k =>
          readCall (decide (s.prog_state = ProgState.readFlash)) (s.prog_address + k))) := by
  have hfull := fun j => bulkRead_full E j s h hs hA
  obtain ⟨f1, f2, f3⟩ := hfull (N / 8)
  have hs1 : Session.reading
      { s with prog_address := (s.prog_address + 8 * (N / 8)) % 4294967296 } := hs
  have hA1 : (s.prog_address + 8 * (N / 8)) % 4294967296 < 4294967296 :=
    Nat.mod_lt _ (by decide)
  have hN : 8 * (N / 8) + N % 8 = N := Nat.div_add_mod N 8
  have hr : N % 8 < 8 := Nat.mod_lt _ (by decide)
  have e2 : ((s.prog_address + 8 * (N / 8)) % 4294967296 + N % 8) % 4294967296
      = (s.prog_address + N) % 4294967296 := by omega
  have hseq := readSeq_add E (decide (s.prog_state = ProgState.readFlash)) s.prog_address
    (8 * (N / 8)) (N % 8) h hA
  rw [hN] at hseq
  have hrun : bulkRead E (List.replicate (N / 8) 8 ++ [N % 8]) s h =
      ((bulkRead E (List.replicate (N / 8) 8) s h).1 ++
        [(readSeq E (decide (s.prog_state = ProgState.readFlash))
          ((s.prog_address + 8 * (N / 8)) % 4294967296) (N % 8)
          (readSeq E (decide (s.prog_state = ProgState.readFlash)) s.prog_address
            (8 * (N / 8)) h).2).1],
       { s with prog_address := (s.prog_address + N) % 4294967296,
                prog_state := ProgState.idle },
       (readSeq E (decide (s.prog_state = ProgState.readFlash)) s.prog_address N h).2) := by
    rw [bulkRead_append]
    conv_lhs => rw [f1]
    simp only [bulkRead, usbFunctionRead_reading E (N % 8) _ _ hs1 hA1, hr, if_true, e2, hseq]
  refine ⟨?_, ?_, ?_, ?_, ?_, ?_, ?_, ?_, ?_⟩
  · rw [hrun, hseq]; simp [f2]
  · rw [hrun]; simp [f3, readSeq_length]
  · rw [hrun]
  · rw [hrun]; exact readSeq_calls E _ _ _ h hA
  · rw [hrun]
  · intro j _
    rw [(hfull j).1]
  · rw [hrun]
  · intro hw
    rw [hrun]
    exact Nat.mod_eq_of_lt hw
  · intro hw
    rw [hrun]
    show callsOf (readSeq E _ s.prog_address N h).2.trace = _
    rw [readSeq_calls E _ _ _ h hA]
    congr 1
    apply List.map_congr_left
    intro k hk
    have hk' : k < N := List.mem_range.mp hk
    rw [Nat.mod_eq_of_lt (by omega)]

/-- C3 at a concrete input: 10 bytes from address 0 against the idle target. -/
theorem C3_read_transfer_witness :
    sessionRead3.reading ∧ sessionRead3.prog_address < 4294967296 ∧
    (bulkRead idleEnv (List.replicate (10 / 8) 8 ++ [10 % 8]) sessionRead3 hw0).2.1.prog_state
      = ProgState.idle :=
  ⟨by decide, by decide,
   (C3_read_transfer idleEnv sessionRead3 hw0 10 (by decide) (by decide)).2.2.2.2.2.2.1⟩

/-- C4 as stated fails: with 3 bytes remaining a request for 8 bytes returns 8,
not `min 8 3`. -/
theorem C4_counterexample :
    sessionRead3.reading ∧ sessionRead3.prog_nbytes = 3 ∧
    (usbFunctionRead idleEnv 8 sessionRead3 hw0).1 ≠ min 8 sessionRead3.prog_nbytes ∧
    (usbFunctionRead idleEnv 8 sessionRead3 hw0).2.1.length ≠ min 8 sessionRead3.prog_nbytes := by
  decide

/-- C4 (amended): in a read state `usbFunctionRead` produces exactly `len` bytes
whatever the remaining count is: it returns `len`, fills `len` bytes, performs
exactly `len` target read operations (at consecutive addresses), advances the
address by `len` (in 32 bit arithmetic) and leaves the remaining count
untouched. This is `min len remaining` bytes exactly when the request does not
exceed the remaining count. -/
theorem C4_read_produces_len (E : Env W) (len : Nat) (s : Session) (h : Hw W)
    (hs : s.reading) (hA : s.prog_address < 4294967296) :
    (usbFunctionRead E len s h).1 = len ∧
    (usbFunctionRead E len s h).2.1.length = len ∧
    callsOf (usbFunctionRead E len s h).2.2.2.trace =
      callsOf h.trace ++ (List.range len).map (fun k =>
        readCall (decide (s.prog_state = ProgState.readFlash))
          ((s.prog_address + k) % 4294967296)) ∧
    (usbFunctionRead E len s h).2.2.1.prog_address = (s.prog_address + len) % 4294967296 ∧
    (usbFunctionRead E len s h).2.2.1.prog_nbytes = s.prog_nbytes ∧
    ((usbFunctionRead E len s h).1 = min len s.prog_nbytes ↔ len ≤ s.prog_nbytes) := by
  rw [usbFunctionRead_reading E len s h hs hA]
  exact ⟨rfl, readSeq_length _ _ _ _ _, readSeq_calls E _ _ _ h hA, rfl, rfl,
    by show len = min len s.prog_nbytes ↔ len ≤ s.prog_nbytes; omega⟩

/-- C4 (amended) at a concrete input. -/
theorem C4_read_produces_len_witness :
    sessionRead3.reading ∧ sessionRead3.prog_address < 4294967296 ∧
    (usbFunctionRead idleEnv 8 sessionRead3 hw0).1 = 8 :=
  ⟨by decide, by decide,
   (C4_read_produces_len idleEnv 8 sessionRead3 hw0 (by decide) (by decide)).1⟩

/-! ## Fuel: more iterations never change a result -/

theorem ispDelayLoop_mono (E : Env W) (st : Nat) {n m : Nat} {h x : Hw W}
    (hx : ispDelayLoop E st n h = some x) (hnm : n ≤ m) : ispDelayLoop E st m h = some x := by
  induction n generalizing m h with
  | zero => simp [ispDelayLoop] at hx
  | succ n ih =>
    obtain ⟨m, rfl⟩ : ∃ k, m = k + 1 := ⟨m - 1, by omega⟩
    simp only [ispDelayLoop] at hx ⊢
    split
    · rename_i hc
      rw [if_pos hc] at hx
      exact ih hx (by omega)
    · rename_i hc
      rw [if_neg hc] at hx
      exact hx

theorem ispDelay_mono (E : Env W) {n m : Nat} {h x : Hw W}
    (hx : ispDelay E n h = some x) (hnm : n ≤ m) : ispDelay E m h = some x :=
  ispDelayLoop_mono E _ hx hnm

theorem pollFlash_mono (E : Env W) (busy a : Nat) {n m : Nat} {r st : Nat} {h : Hw W}
    {x : Nat × Hw W} (hx : pollFlash E busy a n r st h = some x) (hnm : n ≤ m) :
    pollFlash E busy a m r st h = some x := by
  induction n generalizing m r st h with
  | zero => simp [pollFlash] at hx
  | succ n ih =>
    obtain ⟨m, rfl⟩ : ∃ k, m = k + 1 := ⟨m - 1, by omega⟩
    simp only [pollFlash] at hx ⊢
    by_cases h1 : r = 0
    · simpa [h1] using hx
    · rw [if_neg h1] at hx ⊢
      by_cases h2 : (ispReadFlash E a h).1 ≠ busy
      · rw [if_pos h2] at hx ⊢; exact hx
      · rw [if_neg h2] at hx ⊢
        split
        · rename_i hc
          rw [if_pos hc] at hx
          exact ih hx (by omega)
        · rename_i hc
          rw [if_neg hc] at hx
          exact ih hx (by omega)

theorem ispWriteFlash_mono (E : Env W) {n m : Nat} (a d p : Nat) {h : Hw W}
    {x : Nat × Hw W} (hx : ispWriteFlash E n a d p h = some x) (hnm : n ≤ m) :
    ispWriteFlash E m a d p h = some x := by
  simp only [ispWriteFlash] at hx ⊢
  by_cases h1 : p = 0
  · simpa [h1] using hx
  · rw [if_neg h1] at hx ⊢
    by_cases h2 : d = 0x7F
    · simpa [h2] using hx
    · rw [if_neg h2] at hx ⊢
      exact pollFlash_mono E _ _ hx hnm

theorem ispFlushPage_mono (E : Env W) {n m : Nat} (a v : Nat) {h : Hw W}
    {x : Nat × Hw W} (hx : ispFlushPage E n a v h = some x) (hnm : n ≤ m) :
    ispFlushPage E m a v h = some x := by
  simp only [ispFlushPage] at hx ⊢
  by_cases h2 : v = 0xFF
  · simpa [h2] using hx
  · rw [if_neg h2] at hx ⊢
    exact pollFlash_mono E _ _ hx hnm

theorem writeMem_mono (E : Env W) {n m : Nat} (b : Nat) {s : Session} {h : Hw W}
    {x : Session × Hw W} (hx : writeMem E n b s h = some x) (hnm : n ≤ m) :
    writeMem E m b s h = some x := by
  simp only [writeMem] at hx ⊢
  by_cases h1 : s.prog_state = ProgState.writeFlash
  · rw [if_pos h1] at hx ⊢
    by_cases h2 : s.prog_pagesize = 0
    · rw [if_pos h2] at hx ⊢
      cases hw : ispWriteFlash E n s.prog_address b 1 h with
      | none => simp [hw] at hx
      | some r =>
        rw [ispWriteFlash_mono E _ _ _ hw hnm]
        simpa [hw] using hx
    · rw [if_neg h2] at hx ⊢
      cases hw : ispWriteFlash E n s.prog_address b 0 h with
      | none => simp [hw] at hx
      | some r =>
        rw [ispWriteFlash_mono E _ _ _ hw hnm]
        simp only [hw, Option.some_bind] at hx ⊢
        split
        · rename_i hc
          rw [if_pos hc] at hx
          cases hf : ispFlushPage E n s.prog_address b r.2 with
          | none => simp [hf] at hx
          | some f =>
            rw [ispFlushPage_mono E _ _ hf hnm]
            simpa [hf] using hx
        · rename_i hc
          rw [if_neg hc] at hx
          exact hx
  · rw [if_neg h1] at hx ⊢
    exact hx

theorem writeCount_mono (E : Env W) {n m : Nat} (b rv : Nat) {s : Session} {h : Hw W}
    {x : Nat × Session × Hw W} (hx : writeCount E n b rv s h = some x) (hnm : n ≤ m) :
    writeCount E m b rv s h = some x := by
  simp only [writeCount] at hx ⊢
  split
  · rename_i hc
    rw [if_pos hc] at hx
    split
    · rename_i hd
      rw [if_pos hd] at hx
      cases hf : ispFlushPage E n s.prog_address b h with
      | none => simp [hf] at hx
      | some f =>
        rw [ispFlushPage_mono E _ _ hf hnm]
        simpa [hf] using hx
    · rename_i hd
      rw [if_neg hd] at hx
      exact hx
  · rename_i hc
    rw [if_neg hc] at hx
    exact hx

theorem writeLoop_mono (E : Env W) {n m : Nat} (data : List Nat) {rv : Nat} {s : Session}
    {h : Hw W} {x : Nat × Session × Hw W} (hx : writeLoop E n data rv s h = some x)
    (hnm : n ≤ m) : writeLoop E m data rv s h = some x := by
  induction data generalizing rv s h with
  | nil => simpa [writeLoop] using hx
  | cons b bs ih =>
    simp only [writeLoop] at hx ⊢
    cases hm : writeMem E n (b % 256) s h with
    | none => simp [hm] at hx
    | some r =>
      rw [writeMem_mono E _ hm hnm]
      simp only [hm, Option.some_bind] at hx ⊢
      cases hc : writeCount E n (b % 256) rv r.1 r.2 with
      | none => simp [hc] at hx
      | some c =>
        rw [writeCount_mono E _ _ hc hnm]
        simp only [hc, Option.some_bind] at hx ⊢
        exact ih hx

theorem usbFunctionWrite_mono (E : Env W) {n m : Nat} (data : List Nat) {s : Session}
    {h : Hw W} {x : Nat × Session × Hw W} (hx : usbFunctionWrite E n data s h = some x)
    (hnm : n ≤ m) : usbFunctionWrite E m data s h = some x := by
  simp only [usbFunctionWrite] at hx ⊢
  split
  · rename_i hc
    rw [if_pos hc] at hx
    exact hx
  · rename_i hc
    rw [if_neg hc] at hx
    exact writeLoop_mono E data hx hnm

/-! ## The flash poll loop -/

@[simp] theorem retriesOf_nil : retriesOf [] = [] := rfl

@[simp] theorem retriesOf_append (a b : List Event) :
    retriesOf (a ++ b) = retriesOf a ++ retriesOf b := by
  simp [retriesOf, List.filterMap_append]

@[simp] theorem retriesOf_cons_call (c : IspCall) (t : List Event) :
    retriesOf (Event.call c :: t) = retriesOf t := rfl

@[simp] theorem retriesOf_cons_xchg (a b : Nat) (t : List Event) :
    retriesOf (Event.xchg a b :: t) = retriesOf t := rfl

@[simp] theorem retriesOf_cons_retry (n : Nat) (t : List Event) :
    retriesOf (Event.retry n :: t) = n :: retriesOf t := rfl

@[simp] theorem readTimer_trace (E : Env W) (h : Hw W) : (readTimer E h).2.trace = h.trace := rfl

@[simp] theorem readTimer_hwSpi (E : Env W) (h : Hw W) : (readTimer E h).2.hwSpi = h.hwSpi := rfl

theorem readTimer_lt (E : Env W) (h : Hw W) : (readTimer E h).1 < 256 :=
  Nat.mod_lt _ (by decide)

theorem ispReadFlash_trace (E : Env W) (a : Nat) (h : Hw W) :
    ∃ r1 r2 r3, (ispReadFlash E a h).2.trace =
      h.trace ++ readFlashEvents a r1 r2 r3 (ispReadFlash E a h).1 := by
  let h0 := emit (Event.call (IspCall.readFlash a)) h
  let x1 := ispTransmit E (0x20 ||| ((a &&& 1) <<< 3)) h0
  let x2 := ispTransmit E (a >>> 9) x1.2
  let x3 := ispTransmit E (a >>> 1) x2.2
  refine ⟨x1.1, x2.1, x3.1, ?_⟩
  simp only [ispReadFlash, ispTransmit_trace, emit, readFlashEvents, List.append_assoc,
    List.singleton_append, Nat.zero_mod, x1, x2, x3, h0]
  rfl

@[simp] theorem ispReadFlash_hwSpi (E : Env W) (a : Nat) (h : Hw W) :
    (ispReadFlash E a h).2.hwSpi = h.hwSpi := rfl

theorem ispReadFlash_lt (E : Env W) (a : Nat) (h : Hw W) : (ispReadFlash E a h).1 < 256 :=
  ispTransmit_lt _ _ _

theorem pollFlash_terminates (E : Env W) (hlive : TickLive E) (busy a : Nat) :
    ∀ (retries st : Nat) (h : Hw W), st < 256 →
      ∃ n, (pollFlash E busy a n retries st h).isSome = true := by
  intro retries
  induction retries with
  | zero =>
    intro st h _
    exact ⟨1, by simp [pollFlash]⟩
  | succ r ihr =>
    intro st h hst
    obtain ⟨n0, hn0⟩ := hlive a st h hst
    induction n0 generalizing h with
    | zero => simp [tickWithin] at hn0
    | succ n0 ih0 =>
      simp only [tickWithin, Bool.or_eq_true, decide_eq_true_eq] at hn0
      by_cases h2 : (ispReadFlash E a h).1 ≠ busy
      · exact ⟨1, by simp [pollFlash, h2]⟩
      · by_cases hc : ((readTimer E (ispReadFlash E a h).2).1 + 256 - st) % 256 >
            E.clock_T_320us % 256
        · obtain ⟨n, hn⟩ := ihr (readTimer E (readTimer E (ispReadFlash E a h).2).2).1
            (emit (Event.retry r) (readTimer E (readTimer E (ispReadFlash E a h).2).2).2)
            (readTimer_lt _ _)
          refine ⟨n + 1, ?_⟩
          simp only [pollFlash, Nat.succ_ne_zero, if_false, h2, hc, if_true,
            Nat.add_sub_cancel]
          exact hn
        · rcases hn0 with hn0 | hn0
          · exact absurd hn0 hc
          · obtain ⟨n, hn⟩ := ih0 _ hn0
            refine ⟨n + 1, ?_⟩
            simp only [pollFlash, Nat.succ_ne_zero, if_false, h2, hc]
            exact hn

theorem readBacks_readFlashEvents (a r1 r2 r3 v : Nat) (rest : List Event) :
    readBacks (readFlashEvents a r1 r2 r3 v ++ rest) = v :: readBacks rest := by
  simp only [readBacks, readFlashEvents, List.cons_append, List.nil_append, xchgsOf_cons_call,
    xchgsOf_cons_xchg, fourth]
  rfl

theorem readBacks_retry (k : Nat) (rest : List Event) :
    readBacks (Event.retry k :: rest) = readBacks rest := by
  simp only [readBacks, xchgsOf_cons_retry]

theorem pollFlash_outcome (E : Env W) (busy a : Nat) :
    ∀ (n retries st : Nat) (h : Hw W) (r : Nat) (h' : Hw W),
      pollFlash E busy a n retries st h = some (r, h') →
      h'.hwSpi = h.hwSpi ∧
      ∃ evs, h'.trace = h.trace ++ evs ∧ PollOutcome busy a retries evs r := by
  intro n
  induction n with
  | zero => intro retries st h r h' hx; simp [pollFlash] at hx
  | succ n ih =>
    intro retries st h r h' hx
    simp only [pollFlash] at hx
    by_cases h1 : retries = 0
    · rw [if_pos h1] at hx
      simp only [Option.some.injEq, Prod.mk.injEq] at hx
      obtain ⟨rfl, rfl⟩ := hx
      refine ⟨rfl, [], by simp, by simp, Or.inl ⟨rfl, by simp [readBacks, fourth], by simp [h1]⟩⟩
    · rw [if_neg h1] at hx
      obtain ⟨r1, r2, r3, htr⟩ := ispReadFlash_trace E a h
      by_cases h2 : (ispReadFlash E a h).1 ≠ busy
      · rw [if_pos h2] at hx
        simp only [Option.some.injEq, Prod.mk.injEq] at hx
        obtain ⟨rfl, rfl⟩ := hx
        refine ⟨rfl, _, htr, by simp [readFlashEvents], Or.inr ⟨rfl, 0, (ispReadFlash E a h).1,
          [Event.call (IspCall.readFlash a),
           Event.xchg ((0x20 ||| ((a &&& 1) <<< 3)) % 256) r1,
           Event.xchg ((a >>> 9) % 256) r2,
           Event.xchg ((a >>> 1) % 256) r3], ?_, h2, ?_, ?_⟩⟩
        · simp [readBacks, fourth, readFlashEvents]
        · simp [readFlashEvents]
        · simp only [readFlashEvents, retriesOf_cons_call, retriesOf_cons_xchg, retriesOf_nil,
            List.length_nil]
          omega
      · rw [if_neg h2] at hx
        have hb : (ispReadFlash E a h).1 = busy := by simpa using h2
        by_cases hc : ((readTimer E (ispReadFlash E a h).2).1 + 256 - st) % 256 >
            E.clock_T_320us % 256
        · rw [if_pos hc] at hx
          obtain ⟨hsp, evs, he, hcalls, ho⟩ := ih _ _ _ _ _ hx
          refine ⟨by simpa [emit] using hsp,
            readFlashEvents a r1 r2 r3 busy ++ Event.retry (retries - 1) :: evs, ?_, ?_, ?_⟩
          · rw [he]; simp [emit, htr, hb]
          · intro c hcm
            simp only [readFlashEvents, List.cons_append, List.nil_append, callsOf_cons_call,
              callsOf_cons_xchg, callsOf_cons_retry, List.mem_cons] at hcm
            rcases hcm with rfl | hcm
            · rfl
            · exact hcalls c hcm
          · rcases ho with ⟨hr, hall, hret⟩ | ⟨hr, k, v, pre, hrb, hv, hpre, hlen⟩
            · refine Or.inl ⟨hr, ?_, ?_⟩
              · intro v hv
                rw [readBacks_readFlashEvents, readBacks_retry] at hv
                rcases List.mem_cons.mp hv with rfl | hv
                · rfl
                · exact hall v hv
              · obtain ⟨q, rfl⟩ : ∃ q, retries = q + 1 := ⟨retries - 1, by omega⟩
                simp only [Nat.add_sub_cancel] at hret ⊢
                simp [readFlashEvents, hret, List.range_succ]
            · refine Or.inr ⟨hr, k + 1, v, readFlashEvents a r1 r2 r3 busy ++
                Event.retry (retries - 1) :: pre, ?_, hv, ?_, ?_⟩
              · rw [readBacks_readFlashEvents, readBacks_retry, hrb]
                simp [List.replicate_succ]
              · rw [hpre]; simp
              · simp only [readFlashEvents, List.cons_append, List.nil_append,
                  retriesOf_cons_call, retriesOf_cons_xchg, retriesOf_cons_retry,
                  List.length_cons]
                omega
        · rw [if_neg hc] at hx
          obtain ⟨hsp, evs, he, hcalls, ho⟩ := ih _ _ _ _ _ hx
          refine ⟨by simpa using hsp, readFlashEvents a r1 r2 r3 busy ++ evs, ?_, ?_, ?_⟩
          · rw [he]; simp [htr, hb]
          · intro c hcm
            simp only [readFlashEvents, List.cons_append, List.nil_append, callsOf_cons_call,
              callsOf_cons_xchg, List.mem_cons] at hcm
            rcases hcm with rfl | hcm
            · rfl
            · exact hcalls c hcm
          · rcases ho with ⟨hr, hall, hret⟩ | ⟨hr, k, v, pre, hrb, hv, hpre, hlen⟩
            · refine Or.inl ⟨hr, ?_, ?_⟩
              · intro v hv
                rw [readBacks_readFlashEvents] at hv
                rcases List.mem_cons.mp hv with rfl | hv
                · rfl
                · exact hall v hv
              · simp [readFlashEvents, hret]
            · refine Or.inr ⟨hr, k + 1, v, readFlashEvents a r1 r2 r3 busy ++ pre, ?_, hv, ?_, ?_⟩
              · rw [readBacks_readFlashEvents, hrb]
                simp [List.replicate_succ]
              · rw [hpre]; simp
              · simpa [readFlashEvents] using hlen

/-! ## C6: termination and outcome of the poll loops -/

theorem pollFlash_stuck (fuel : Nat) (h : Hw Unit) :
    pollFlash stuckEnv 0x7F 0 fuel 30 0 h = none := by
  induction fuel generalizing h with
  | zero => rfl
  | succ n ih =>
    have hv : (ispReadFlash stuckEnv 0 h).1 = 0x7F := by
      simp [ispReadFlash, ispTransmit, stuckEnv]
    have ht : ∀ k : Hw Unit, (readTimer stuckEnv k).1 = 0 := fun k => rfl
    simp only [pollFlash, hv, ht]
    exact ih _

theorem ispReadFlash_tickEnv_world (ans a : Nat) (h : Hw Nat) :
    (ispReadFlash (tickEnv ans) a h).2.world = h.world := by
  simp [ispReadFlash, ispTransmit, tickEnv, emit]

theorem tickEnv_live (ans : Nat) : TickLive (tickEnv ans) := by
  intro a st h hst
  refine ⟨2, ?_⟩
  simp only [tickWithin, Bool.or_false, Bool.or_eq_true, decide_eq_true_eq]
  have e1 : (readTimer (tickEnv ans) (ispReadFlash (tickEnv ans) a h).2).1 = h.world % 256 := by
    simp only [readTimer, ispReadFlash_tickEnv_world]; rfl
  have e2 : (readTimer (tickEnv ans) (ispReadFlash (tickEnv ans) a
      (readTimer (tickEnv ans) (ispReadFlash (tickEnv ans) a h).2).2).2).1
      = (h.world + 100) % 256 := by
    simp only [readTimer, ispReadFlash_tickEnv_world]; rfl
  rw [e1, e2]
  have e3 : (tickEnv ans).clock_T_320us % 256 = 60 := rfl
  rw [e3]
  omega

theorem pollFlash_alias (fuel st : Nat) (h : Hw Nat) (hst : h.world % 256 = st) :
    pollFlash aliasEnv 0x7F 0 fuel 30 st h = none := by
  induction fuel generalizing h with
  | zero => rfl
  | succ n ih =>
    have hv : (ispReadFlash aliasEnv 0 h).1 = 0x7F := by
      simp [ispReadFlash, ispTransmit, aliasEnv]
    have hw : (ispReadFlash aliasEnv 0 h).2.world = h.world := by
      simp [ispReadFlash, ispTransmit, aliasEnv, emit]
    have ht : (readTimer aliasEnv (ispReadFlash aliasEnv 0 h).2).1 = st := by
      simp only [readTimer, hw]; exact hst
    have hc : ¬ ((st + 256 - st) % 256 > aliasEnv.clock_T_320us % 256) := by
      have : aliasEnv.clock_T_320us % 256 = 60 := rfl
      omega
    simp only [pollFlash, hv, ht]
    rw [if_neg (by decide), if_neg (by decide), if_neg hc]
    apply ih
    have hw2 : (readTimer aliasEnv (ispReadFlash aliasEnv 0 h).2).2.world = h.world + 256 := by
      simp only [readTimer, hw]; rfl
    rw [hw2]
    omega

/-- C6 as stated fails: with a target that always reads back 0x7F the poll loop of
`ispWriteFlash(0, 0, 1)` never ends, whatever the bound on its iterations, both
on a tick source that does not advance and on one that advances by a multiple
of 256 ticks between the reads of the timer register. -/
theorem C6_counterexample :
    (¬ ∃ fuel, (ispWriteFlash stuckEnv fuel 0 0 1 hw0).isSome = true) ∧
    (¬ ∃ fuel, (ispWriteFlash aliasEnv fuel 0 0 1 hwT).isSome = true) := by
  constructor
  · rintro ⟨fuel, hf⟩
    have h0 : ispWriteFlash stuckEnv fuel 0 0 1 hw0 = none := by
      simp only [ispWriteFlash]
      exact pollFlash_stuck fuel _
    simp [h0] at hf
  · rintro ⟨fuel, hf⟩
    have h0 : ispWriteFlash aliasEnv fuel 0 0 1 hwT = none := by
      simp only [ispWriteFlash]
      exact pollFlash_alias fuel _ _ rfl
    simp [h0] at hf

theorem ispWriteFlash_spec (E : Env W) (fuel a d p : Nat) (h : Hw W) (r : Nat) (h' : Hw W)
    (hx : ispWriteFlash E fuel a d p h = some (r, h')) :
    h'.hwSpi = h.hwSpi ∧
    ∃ x1 x2 x3 x4 evs, h'.trace = h.trace ++ writeFlashEvents a d p x1 x2 x3 x4 ++ evs ∧
      (∀ c ∈ callsOf evs, c = IspCall.readFlash a) ∧
      (p = 0 → evs = [] ∧ r = 0) ∧
      (p ≠ 0 → d = 0x7F → evs = [Event.clockWait 15] ∧ r = 0) ∧
      (p ≠ 0 → d ≠ 0x7F → PollOutcome 0x7F a 30 evs r) := by
  let h0 := emit (Event.call (IspCall.writeFlash a d p)) h
  let y1 := ispTransmit E (0x40 ||| ((a &&& 1) <<< 3)) h0
  let y2 := ispTransmit E (a >>> 9) y1.2
  let y3 := ispTransmit E (a >>> 1) y2.2
  let y4 := ispTransmit E d y3.2
  have ht : y4.2.trace = h.trace ++ writeFlashEvents a d p y1.1 y2.1 y3.1 y4.1 := by
    simp only [ispTransmit_trace, emit, writeFlashEvents, List.append_assoc,
      List.singleton_append, y1, y2, y3, y4, h0]
    rfl
  have hsp : y4.2.hwSpi = h.hwSpi := rfl
  simp only [ispWriteFlash] at hx
  by_cases h1 : p = 0
  · rw [if_pos h1] at hx
    simp only [Option.some.injEq, Prod.mk.injEq] at hx
    obtain ⟨rfl, rfl⟩ := hx
    exact ⟨hsp, y1.1, y2.1, y3.1, y4.1, [], by rw [List.append_nil]; exact ht, by simp,
      fun _ => ⟨rfl, rfl⟩, fun hp => absurd h1 hp, fun hp => absurd h1 hp⟩
  · rw [if_neg h1] at hx
    by_cases h2 : d = 0x7F
    · rw [if_pos h2] at hx
      simp only [Option.some.injEq, Prod.mk.injEq] at hx
      obtain ⟨rfl, rfl⟩ := hx
      refine ⟨hsp, y1.1, y2.1, y3.1, y4.1, [Event.clockWait 15], ?_, by simp,
        fun hp => absurd hp h1, fun _ _ => ⟨rfl, rfl⟩, fun _ hd => absurd h2 hd⟩
      show y4.2.trace ++ [Event.clockWait 15] = _
      rw [ht]
    · rw [if_neg h2] at hx
      obtain ⟨hs, evs, he, ho⟩ := pollFlash_outcome E _ _ _ _ _ _ _ _ hx
      refine ⟨by simpa using hs.trans hsp, y1.1, y2.1, y3.1, y4.1, evs, ?_, ho.1,
        fun hp => absurd hp h1, fun _ hd => absurd hd h2, fun _ _ => ho⟩
      rw [he, readTimer_trace]
      show y4.2.trace ++ evs = _
      rw [ht]

theorem ispFlushPage_spec (E : Env W) (fuel a v : Nat) (h : Hw W) (r : Nat) (h' : Hw W)
    (hx : ispFlushPage E fuel a v h = some (r, h')) :
    h'.hwSpi = h.hwSpi ∧
    ∃ x1 x2 x3 x4 evs, h'.trace = h.trace ++ flushPageEvents a v x1 x2 x3 x4 ++ evs ∧
      (∀ c ∈ callsOf evs, c = IspCall.readFlash a) ∧
      (v = 0xFF → evs = [Event.clockWait 15] ∧ r = 0) ∧
      (v ≠ 0xFF → PollOutcome 0xFF a 30 evs r) := by
  let h0 := emit (Event.call (IspCall.flushPage a v)) h
  let y1 := ispTransmit E 0x4C h0
  let y2 := ispTransmit E (a >>> 9) y1.2
  let y3 := ispTransmit E (a >>> 1) y2.2
  let y4 := ispTransmit E 0 y3.2
  have ht : y4.2.trace = h.trace ++ flushPageEvents a v y1.1 y2.1 y3.1 y4.1 := by
    simp only [ispTransmit_trace, emit, flushPageEvents, List.append_assoc,
      List.singleton_append, y1, y2, y3, y4, h0]
    rfl
  have hsp : y4.2.hwSpi = h.hwSpi := rfl
  simp only [ispFlushPage] at hx
  by_cases h2 : v = 0xFF
  · rw [if_pos h2] at hx
    simp only [Option.some.injEq, Prod.mk.injEq] at hx
    obtain ⟨rfl, rfl⟩ := hx
    refine ⟨hsp, y1.1, y2.1, y3.1, y4.1, [Event.clockWait 15], ?_, by simp,
      fun _ => ⟨rfl, rfl⟩, fun hd => absurd h2 hd⟩
    show y4.2.trace ++ [Event.clockWait 15] = _
    rw [ht]
  · rw [if_neg h2] at hx
    obtain ⟨hs, evs, he, ho⟩ := pollFlash_outcome E _ _ _ _ _ _ _ _ hx
    refine ⟨by simpa using hs.trans hsp, y1.1, y2.1, y3.1, y4.1, evs, ?_, ho.1,
      fun hd => absurd hd h2, fun _ => ho⟩
    rw [he, readTimer_trace]
    show y4.2.trace ++ evs = _
    rw [ht]

theorem ispWriteFlash_terminates (E : Env W) (hlive : TickLive E) (a d p : Nat) (h : Hw W) :
    ∃ fuel, (ispWriteFlash E fuel a d p h).isSome = true := by
  by_cases h1 : p = 0
  · exact ⟨0, by simp [ispWriteFlash, h1]⟩
  · by_cases h2 : d = 0x7F
    · exact ⟨0, by simp [ispWriteFlash, h1, h2]⟩
    · obtain ⟨n, hn⟩ := pollFlash_terminates E hlive 0x7F a 30 _ _ (readTimer_lt E
        (ispTransmit E d (ispTransmit E (a >>> 1) (ispTransmit E (a >>> 9)
          (ispTransmit E (0x40 ||| ((a &&& 1) <<< 3))
            (emit (Event.call (IspCall.writeFlash a d p)) h)).2).2).2).2)
      exact ⟨n, by simpa [ispWriteFlash, h1, h2] using hn⟩

theorem ispFlushPage_terminates (E : Env W) (hlive : TickLive E) (a v : Nat) (h : Hw W) :
    ∃ fuel, (ispFlushPage E fuel a v h).isSome = true := by
  by_cases h2 : v = 0xFF
  · exact ⟨0, by simp [ispFlushPage, h2]⟩
  · obtain ⟨n, hn⟩ := pollFlash_terminates E hlive 0xFF a 30 _ _ (readTimer_lt E
      (ispTransmit E 0 (ispTransmit E (a >>> 1) (ispTransmit E (a >>> 9)
        (ispTransmit E 0x4C (emit (Event.call (IspCall.flushPage a v)) h)).2).2).2).2)
    exact ⟨n, by simpa [ispFlushPage, h2] using hn⟩

theorem pollVerdict_of_outcome {busy a retries : Nat} {evs : List Event} {r : Nat}
    (ho : PollOutcome busy a retries evs r) :
    ((∀ x ∈ readBacks evs, x = busy) →
      r = 1 ∧ retriesOf evs = (List.range retries).reverse) ∧
    ((∃ x ∈ readBacks evs, x ≠ busy) →
      r = 0 ∧ ∃ k x pre, readBacks evs = List.replicate k busy ++ [x] ∧ x ≠ busy ∧
        evs = pre ++ [Event.xchg 0 x]) := by
  obtain ⟨_, ho⟩ := ho
  rcases ho with ⟨hr, hall, hret⟩ | ⟨hr, k, v, pre, hrb, hv, hpre, _⟩
  · refine ⟨fun _ => ⟨hr, hret⟩, ?_⟩
    rintro ⟨x, hx, hne⟩
    exact absurd (hall x hx) hne
  · refine ⟨fun hall => ?_, fun _ => ⟨hr, k, v, pre, hrb, hv, hpre⟩⟩
    exact absurd (hall v (by rw [hrb]; simp)) hv

/-- C6 (amended): for `ispWriteFlash` with polling enabled and `data != 0x7F`, and
for `ispFlushPage` with `pollvalue != 0xFF`, against every target: on every tick
source on which the elapsed-time test eventually succeeds (`TickLive`) the call
returns (for some bound on the loop iterations). Whenever it returns, on any
tick source, with `evs` the events after the call marker and the four command
exchanges: if every read-back returned the busy value (0x7F resp. 0xFF) the
result is 1 and the retry budget was counted down 29, 28, ..., 0; if some
read-back returned another value the result is 0, that read-back is the first
such one and its fourth exchange is the last event. -/
theorem C6_poll_bounded (E : Env W) (a d v : Nat) (h : Hw W)
    (_hd : d < 256) (hd7 : d ≠ 0x7F) (_hv : v < 256) (hvF : v ≠ 0xFF) :
    (TickLive E → ∃ fuel, (ispWriteFlash E fuel a d 1 h).isSome = true) ∧
    (TickLive E → ∃ fuel, (ispFlushPage E fuel a v h).isSome = true) ∧
    (∀ fuel r h', ispWriteFlash E fuel a d 1 h = some (r, h') →
      ∃ x1 x2 x3 x4 evs, h'.trace = h.trace ++ writeFlashEvents a d 1 x1 x2 x3 x4 ++ evs ∧
        ((∀ x ∈ readBacks evs, x = 0x7F) →
          r = 1 ∧ retriesOf evs = (List.range 30).reverse) ∧
        ((∃ x ∈ readBacks evs, x ≠ 0x7F) →
          r = 0 ∧ ∃ k x pre, readBacks evs = List.replicate k 0x7F ++ [x] ∧ x ≠ 0x7F ∧
            evs = pre ++ [Event.xchg 0 x])) ∧
    (∀ fuel r h', ispFlushPage E fuel a v h = some (r, h') →
      ∃ x1 x2 x3 x4 evs, h'.trace = h.trace ++ flushPageEvents a v x1 x2 x3 x4 ++ evs ∧
        ((∀ x ∈ readBacks evs, x = 0xFF) →
          r = 1 ∧ retriesOf evs = (List.range 30).reverse) ∧
        ((∃ x ∈ readBacks evs, x ≠ 0xFF) →
          r = 0 ∧ ∃ k x pre, readBacks evs = List.replicate k 0xFF ++ [x] ∧ x ≠ 0xFF ∧
            evs = pre ++ [Event.xchg 0 x])) := by
  refine ⟨fun hlive => ispWriteFlash_terminates E hlive a d 1 h,
    fun hlive => ispFlushPage_terminates E hlive a v h, ?_, ?_⟩
  · intro fuel r h' hx
    obtain ⟨_, x1, x2, x3, x4, evs, he, _, _, _, ho⟩ := ispWriteFlash_spec E fuel a d 1 h r h' hx
    have hv := pollVerdict_of_outcome (ho (by decide) hd7)
    exact ⟨x1, x2, x3, x4, evs, he, hv.1, hv.2⟩
  · intro fuel r h' hx
    obtain ⟨_, x1, x2, x3, x4, evs, he, _, _, ho⟩ := ispFlushPage_spec E fuel a v h r h' hx
    have hv := pollVerdict_of_outcome (ho hvF)
    exact ⟨x1, x2, x3, x4, evs, he, hv.1, hv.2⟩

/-- C6 (amended) at a concrete input: a target that always reads back 0x7F, under
a running timer; the write poll ends. -/
theorem C6_poll_bounded_witness :
    (0 : Nat) < 256 ∧ (0 : Nat) ≠ 0x7F ∧ (0 : Nat) ≠ 0xFF ∧ TickLive (tickEnv 0x7F) ∧
    ∃ fuel, (ispWriteFlash (tickEnv 0x7F) fuel 0 0 1 hwT).isSome = true :=
  ⟨by decide, by decide, by decide, tickEnv_live 0x7F,
   (C6_poll_bounded (tickEnv 0x7F) 0 0 0 hwT (by decide) (by decide) (by decide)
      (by decide)).1 (tickEnv_live 0x7F)⟩

/-! ## The write side: session bookkeeping and programming calls -/

@[simp] theorem progCalls_nil : progCalls [] = [] := rfl

@[simp] theorem progCalls_append (a b : List Event) :
    progCalls (a ++ b) = progCalls a ++ progCalls b := by
  simp [progCalls]

theorem progCalls_of_reads {a : Nat} {evs : List Event}
    (h : ∀ c ∈ callsOf evs, c = IspCall.readFlash a) : progCalls evs = [] := by
  simp only [progCalls, List.filter_eq_nil_iff]
  intro c hc
  rw [h c hc]
  simp [isProg]

theorem progCalls_writeFlashEvents (a d p x1 x2 x3 x4 : Nat) :
    progCalls (writeFlashEvents a d p x1 x2 x3 x4) = [IspCall.writeFlash a d p] := by
  simp [progCalls, writeFlashEvents, isProg]

theorem progCalls_flushPageEvents (a v x1 x2 x3 x4 : Nat) :
    progCalls (flushPageEvents a v x1 x2 x3 x4) = [IspCall.flushPage a v] := by
  simp [progCalls, flushPageEvents, isProg]

theorem ispWriteFlash_progCalls (E : Env W) {fuel a d p : Nat} {h : Hw W} {x : Nat × Hw W}
    (hx : ispWriteFlash E fuel a d p h = some x) :
    progCalls x.2.trace = progCalls h.trace ++ [IspCall.writeFlash a d p] := by
  obtain ⟨_, x1, x2, x3, x4, evs, he, hc, _⟩ := ispWriteFlash_spec E fuel a d p h x.1 x.2 hx
  rw [he, progCalls_append, progCalls_append, progCalls_writeFlashEvents, progCalls_of_reads hc]
  simp

theorem ispFlushPage_progCalls (E : Env W) {fuel a v : Nat} {h : Hw W} {x : Nat × Hw W}
    (hx : ispFlushPage E fuel a v h = some x) :
    progCalls x.2.trace = progCalls h.trace ++ [IspCall.flushPage a v] := by
  obtain ⟨_, x1, x2, x3, x4, evs, he, hc, _⟩ := ispFlushPage_spec E fuel a v h x.1 x.2 hx
  rw [he, progCalls_append, progCalls_append, progCalls_flushPageEvents, progCalls_of_reads hc]
  simp

theorem ispWriteEEPROM_progCalls (E : Env W) (a d : Nat) (h : Hw W) :
    progCalls (ispWriteEEPROM E a d h).2.trace =
      progCalls h.trace ++ [IspCall.writeEEPROM (a % 65536) d] := by
  simp [ispWriteEEPROM, ispTransmit_trace, emit, clockWait, progCalls, isProg]

theorem writeMem_sess (E : Env W) {fuel b : Nat} {s : Session} {h : Hw W}
    {x : Session × Hw W} (hx : writeMem E fuel b s h = some x) :
    x.1 = memSess s ∧ progCalls x.2.trace = progCalls h.trace ++ memCalls b s := by
  simp only [writeMem] at hx
  by_cases h1 : s.prog_state = ProgState.writeFlash
  · rw [if_pos h1] at hx
    by_cases h2 : s.prog_pagesize = 0
    · rw [if_pos h2] at hx
      cases hw : ispWriteFlash E fuel s.prog_address b 1 h with
      | none => simp [hw] at hx
      | some r =>
        simp only [hw, Option.some_bind, Option.some.injEq] at hx
        subst hx
        exact ⟨by simp [memSess, h2], by simp [memCalls, h1, h2, ispWriteFlash_progCalls E hw]⟩
    · rw [if_neg h2] at hx
      cases hw : ispWriteFlash E fuel s.prog_address b 0 h with
      | none => simp [hw] at hx
      | some r =>
        simp only [hw, Option.some_bind] at hx
        by_cases hc : (s.prog_pagecounter + 255) % 256 = 0
        · rw [if_pos hc] at hx
          cases hf : ispFlushPage E fuel s.prog_address b r.2 with
          | none => simp [hf] at hx
          | some f =>
            simp only [hf, Option.some_bind, Option.some.injEq] at hx
            subst hx
            exact ⟨by simp [memSess, h1, h2, hc],
              by simp [memCalls, h1, h2, hc, ispFlushPage_progCalls E hf,
                ispWriteFlash_progCalls E hw]⟩
        · rw [if_neg hc] at hx
          simp only [Option.some.injEq] at hx
          subst hx
          exact ⟨by simp [memSess, h1, h2, hc],
            by simp [memCalls, h1, h2, hc, ispWriteFlash_progCalls E hw]⟩
  · rw [if_neg h1] at hx
    simp only [Option.some.injEq] at hx
    subst hx
    exact ⟨by simp [memSess, h1], by simp [memCalls, h1, ispWriteEEPROM_progCalls]⟩

theorem writeCount_sess (E : Env W) {fuel b rv : Nat} {s : Session} {h : Hw W}
    {x : Nat × Session × Hw W} (hx : writeCount E fuel b rv s h = some x) :
    (x.1, x.2.1) = countSess rv s ∧
    progCalls x.2.2.trace = progCalls h.trace ++ countCalls b s := by
  simp only [writeCount] at hx
  by_cases hc : (s.prog_nbytes + 65535) % 65536 = 0
  · rw [if_pos hc] at hx
    by_cases hd : s.prog_blockflags &&& PROG_BLOCKFLAG_LAST ≠ 0 ∧
        s.prog_pagecounter ≠ s.prog_pagesize
    · rw [if_pos hd] at hx
      cases hf : ispFlushPage E fuel s.prog_address b h with
      | none => simp [hf] at hx
      | some f =>
        simp only [hf, Option.some_bind, Option.some.injEq] at hx
        subst hx
        exact ⟨by simp [countSess, hc], by simp [countCalls, hc, hd, ispFlushPage_progCalls E hf]⟩
    · rw [if_neg hd] at hx
      simp only [Option.some.injEq] at hx
      subst hx
      refine ⟨by simp [countSess, hc], ?_⟩
      have : ¬ ((s.prog_nbytes + 65535) % 65536 = 0 ∧
          s.prog_blockflags &&& PROG_BLOCKFLAG_LAST ≠ 0 ∧
          s.prog_pagecounter ≠ s.prog_pagesize) := fun hh => hd hh.2
      simp [countCalls, this]
  · rw [if_neg hc] at hx
    simp only [Option.some.injEq] at hx
    subst hx
    refine ⟨by simp [countSess, hc], ?_⟩
    have : ¬ ((s.prog_nbytes + 65535) % 65536 = 0 ∧
        s.prog_blockflags &&& PROG_BLOCKFLAG_LAST ≠ 0 ∧
        s.prog_pagecounter ≠ s.prog_pagesize) := fun hh => hc hh.1
    simp [countCalls, this]

theorem writeLoop_pure (E : Env W) {fuel : Nat} (data : List Nat) {rv : Nat} {s : Session}
    {h : Hw W} {x : Nat × Session × Hw W} (hx : writeLoop E fuel data rv s h = some x) :
    (x.1, x.2.1) = (loopPure data rv s).2 ∧
    progCalls x.2.2.trace = progCalls h.trace ++ (loopPure data rv s).1 := by
  induction data generalizing rv s h with
  | nil =>
    simp only [writeLoop, Option.some.injEq] at hx
    subst hx
    simp [loopPure]
  | cons b bs ih =>
    simp only [writeLoop] at hx
    cases hm : writeMem E fuel (b % 256) s h with
    | none => simp [hm] at hx
    | some m =>
      simp only [hm, Option.some_bind] at hx
      cases hc : writeCount E fuel (b % 256) rv m.1 m.2 with
      | none => simp [hc] at hx
      | some c =>
        simp only [hc, Option.some_bind] at hx
        obtain ⟨m1, m2⟩ := writeMem_sess E hm
        obtain ⟨c1, c2⟩ := writeCount_sess E hc
        obtain ⟨i1, i2⟩ := ih hx
        rw [m1] at c1 c2
        have e1 : c.1 = (countSess rv (memSess s)).1 := by rw [← c1]
        have e2 : c.2.1 = (countSess rv (memSess s)).2 := by rw [← c1]
        rw [e1, e2] at i1 i2
        refine ⟨by simpa [loopPure] using i1, ?_⟩
        rw [i2, c2, m2]
        simp [loopPure]

theorem usbFunctionWrite_pure (E : Env W) {fuel : Nat} (data : List Nat) {s : Session}
    {h : Hw W} {x : Nat × Session × Hw W} (hx : usbFunctionWrite E fuel data s h = some x) :
    (x.1, x.2.1) = (writePure data s).2 ∧
    progCalls x.2.2.trace = progCalls h.trace ++ (writePure data s).1 := by
  simp only [usbFunctionWrite] at hx
  by_cases hc : s.prog_state ≠ ProgState.writeFlash ∧ s.prog_state ≠ ProgState.writeEEPROM
  · rw [if_pos hc] at hx
    simp only [Option.some.injEq] at hx
    subst hx
    simp [writePure, hc]
  · rw [if_neg hc] at hx
    simpa [writePure, hc] using writeLoop_pure E data hx

theorem writeMem_terminates (E : Env W) (hlive : TickLive E) (b : Nat) (s : Session)
    (h : Hw W) : ∃ fuel, (writeMem E fuel b s h).isSome = true := by
  by_cases h1 : s.prog_state = ProgState.writeFlash
  · by_cases h2 : s.prog_pagesize = 0
    · obtain ⟨n, hn⟩ := ispWriteFlash_terminates E hlive s.prog_address b 1 h
      obtain ⟨r, hr⟩ := Option.isSome_iff_exists.mp hn
      exact ⟨n, by simp [writeMem, h1, h2, hr]⟩
    · obtain ⟨n, hn⟩ := ispWriteFlash_terminates E hlive s.prog_address b 0 h
      obtain ⟨r, hr⟩ := Option.isSome_iff_exists.mp hn
      by_cases hc : (s.prog_pagecounter + 255) % 256 = 0
      · obtain ⟨k, hk⟩ := ispFlushPage_terminates E hlive s.prog_address b r.2
        obtain ⟨f, hf⟩ := Option.isSome_iff_exists.mp hk
        refine ⟨max n k, ?_⟩
        simp only [writeMem, h1, h2, if_true, if_false, hc,
          ispWriteFlash_mono E _ _ _ hr (Nat.le_max_left n k), Option.some_bind,
          ispFlushPage_mono E _ _ hf (Nat.le_max_right n k), Option.isSome_some]
      · exact ⟨n, by simp only [writeMem, h1, h2, if_true, if_false, hc, hr,
          Option.some_bind, Option.isSome_some]⟩
  · exact ⟨0, by simp only [writeMem, h1, if_false, Option.isSome_some]⟩

theorem writeCount_terminates (E : Env W) (hlive : TickLive E) (b rv : Nat) (s : Session)
    (h : Hw W) : ∃ fuel, (writeCount E fuel b rv s h).isSome = true := by
  by_cases hc : (s.prog_nbytes + 65535) % 65536 = 0
  · by_cases hd : s.prog_blockflags &&& PROG_BLOCKFLAG_LAST ≠ 0 ∧
        s.prog_pagecounter ≠ s.prog_pagesize
    · obtain ⟨k, hk⟩ := ispFlushPage_terminates E hlive s.prog_address b h
      obtain ⟨f, hf⟩ := Option.isSome_iff_exists.mp hk
      refine ⟨k, ?_⟩
      simp only [writeCount, hc, if_true]
      rw [if_pos hd, hf]
      rfl
    · refine ⟨0, ?_⟩
      simp only [writeCount, hc, if_true]
      rw [if_neg hd]
      rfl
  · exact ⟨0, by simp only [writeCount, hc, if_false, Option.isSome_some]⟩

theorem writeLoop_terminates (E : Env W) (hlive : TickLive E) (data : List Nat) (rv : Nat)
    (s : Session) (h : Hw W) : ∃ fuel, (writeLoop E fuel data rv s h).isSome = true := by
  induction data generalizing rv s h with
  | nil => exact ⟨0, rfl⟩
  | cons b bs ih =>
    obtain ⟨n1, h1⟩ := writeMem_terminates E hlive (b % 256) s h
    obtain ⟨m, hm⟩ := Option.isSome_iff_exists.mp h1
    obtain ⟨n2, h2⟩ := writeCount_terminates E hlive (b % 256) rv m.1 m.2
    obtain ⟨c, hc⟩ := Option.isSome_iff_exists.mp h2
    obtain ⟨n3, h3⟩ := ih c.1 c.2.1 c.2.2
    obtain ⟨x, hx⟩ := Option.isSome_iff_exists.mp h3
    refine ⟨max n1 (max n2 n3), ?_⟩
    have l1 : n1 ≤ max n1 (max n2 n3) := Nat.le_max_left _ _
    have l2 : n2 ≤ max n1 (max n2 n3) :=
      Nat.le_trans (Nat.le_max_left _ _) (Nat.le_max_right _ _)
    have l3 : n3 ≤ max n1 (max n2 n3) :=
      Nat.le_trans (Nat.le_max_right _ _) (Nat.le_max_right _ _)
    simp only [writeLoop, writeMem_mono E _ hm l1, Option.some_bind,
      writeCount_mono E _ _ hc l2, writeLoop_mono E bs hx l3, Option.isSome_some]

theorem usbFunctionWrite_terminates (E : Env W) (hlive : TickLive E) (data : List Nat)
    (s : Session) (h : Hw W) : ∃ fuel, (usbFunctionWrite E fuel data s h).isSome = true := by
  by_cases hc : s.prog_state ≠ ProgState.writeFlash ∧ s.prog_state ≠ ProgState.writeEEPROM
  · refine ⟨0, ?_⟩
    rw [usbFunctionWrite, if_pos hc]
    rfl
  · obtain ⟨n, hx⟩ := writeLoop_terminates E hlive data 0 s h
    refine ⟨n, ?_⟩
    rw [usbFunctionWrite, if_neg hc]
    exact hx

/-! ## C10, C9: return value of the write handler, misuse -/

theorem countSess_ret (rv : Nat) (s : Session) :
    (countSess rv s).1 = if (s.prog_nbytes + 65535) % 65536 = 0 then 1 else rv := by
  unfold countSess
  split <;> rfl

theorem countSess_nbytes (rv : Nat) (s : Session) :
    (countSess rv s).2.prog_nbytes = (s.prog_nbytes + 65535) % 65536 := by
  unfold countSess
  split
  · rename_i h; simp [h]
  · rfl

theorem memSess_nbytes (s : Session) : (memSess s).prog_nbytes = s.prog_nbytes := by
  unfold memSess
  split <;> rfl

theorem loopPure_ret (data : List Nat) (rv : Nat) (s : Session)
    (hn : s.prog_nbytes < 65536) (hl : data.length < 65536) :
    (loopPure data rv s).2.1 =
      if 1 ≤ s.prog_nbytes ∧ s.prog_nbytes ≤ data.length then 1 else rv := by
  induction data generalizing rv s with
  | nil =>
    have : ¬ (1 ≤ s.prog_nbytes ∧ s.prog_nbytes ≤ ([] : List Nat).length) := by
      simp only [List.length_nil]; omega
    rw [if_neg this]
    rfl
  | cons b bs ih =>
    simp only [List.length_cons] at hl ⊢
    have hn2 : (countSess rv (memSess s)).2.prog_nbytes < 65536 := by
      rw [countSess_nbytes]; exact Nat.mod_lt _ (by decide)
    simp only [loopPure]
    rw [ih _ _ hn2 (by omega), countSess_nbytes, countSess_ret, memSess_nbytes]
    by_cases h0 : s.prog_nbytes = 0
    · have e : (s.prog_nbytes + 65535) % 65536 = 65535 := by omega
      have c1 : ¬ (1 ≤ 65535 ∧ 65535 ≤ bs.length) := by omega
      have c2 : ¬ (1 ≤ s.prog_nbytes ∧ s.prog_nbytes ≤ bs.length + 1) := by omega
      rw [e, if_neg c1, if_neg c2]
      simp
    · by_cases h1 : s.prog_nbytes = 1
      · have e : (s.prog_nbytes + 65535) % 65536 = 0 := by omega
        have c2 : 1 ≤ s.prog_nbytes ∧ s.prog_nbytes ≤ bs.length + 1 := by omega
        rw [e, if_pos c2]
        simp
      · have e : (s.prog_nbytes + 65535) % 65536 = s.prog_nbytes - 1 := by omega
        have e0 : ¬ (s.prog_nbytes - 1 = 0) := by omega
        rw [e]
        simp only [e0, if_false]
        by_cases c : 1 ≤ s.prog_nbytes ∧ s.prog_nbytes ≤ bs.length + 1
        · have c' : 1 ≤ s.prog_nbytes - 1 ∧ s.prog_nbytes - 1 ≤ bs.length := by omega
          rw [if_pos c, if_pos c']
        · have c' : ¬ (1 ≤ s.prog_nbytes - 1 ∧ s.prog_nbytes - 1 ≤ bs.length) := by omega
          rw [if_neg c, if_neg c']

/-- C10: a call of `usbFunctionWrite` in a write state (packet length a `uchar`,
remaining count an `unsigned int`) returns under a running tick source; whenever
it returns, its return value is 1 if and only if the remaining count at entry is
between 1 and the packet length (the count reaches 0 at one of the bytes of the
packet), and 0 otherwise. -/
theorem C10_write_return (E : Env W) (data : List Nat) (s : Session)
    (h : Hw W) (hs : s.writing) (hn : s.prog_nbytes < 65536) (hl : data.length < 256) :
    (TickLive E → ∃ fuel, (usbFunctionWrite E fuel data s h).isSome = true) ∧
    ∀ fuel x, usbFunctionWrite E fuel data s h = some x →
      (x.1 = 1 ↔ (1 ≤ s.prog_nbytes ∧ s.prog_nbytes ≤ data.length)) ∧
      (x.1 = 1 ∨ x.1 = 0) := by
  refine ⟨fun hlive => usbFunctionWrite_terminates E hlive data s h, ?_⟩
  intro fuel x hx
  have hp := (usbFunctionWrite_pure E data hx).1
  have hne : ¬ (s.prog_state ≠ ProgState.writeFlash ∧ s.prog_state ≠ ProgState.writeEEPROM) := by
    rcases hs with hs | hs <;> simp [hs]
  have hr : x.1 = (loopPure data 0 s).2.1 := by
    have := congrArg Prod.fst hp
    simpa [writePure, hne] using this
  rw [hr, loopPure_ret data 0 s hn (by omega)]
  by_cases c : 1 ≤ s.prog_nbytes ∧ s.prog_nbytes ≤ data.length
  · simp [c]
  · simp [c]

/-- C10 at a concrete input: 3 bytes remaining, a packet of 3 bytes. -/
theorem C10_write_return_witness :
    sessionWrite3.writing ∧ sessionWrite3.prog_nbytes < 65536 ∧
    [1, 2, 3].length < 256 ∧ TickLive (tickEnv 0) ∧
    ∃ fuel, (usbFunctionWrite (tickEnv 0) fuel [1, 2, 3] sessionWrite3 hwT).isSome = true :=
  ⟨by decide, by decide, by decide, tickEnv_live 0,
   (C10_write_return (tickEnv 0) [1, 2, 3] sessionWrite3 hwT
      (by decide) (by decide) (by decide)).1 (tickEnv_live 0)⟩

theorem readFill_length (E : Env W) (n : Nat) (s : Session) (h : Hw W) :
    (readFill E n s h).1.length = n ∧
    (xchgsOf (readFill E n s h).2.2.trace).length = (xchgsOf h.trace).length + 4 * n := by
  induction n generalizing s h with
  | zero => simp [readFill]
  | succ n ih =>
    simp only [readFill, List.length_cons]
    refine ⟨by rw [(ih _ _).1], ?_⟩
    rw [(ih _ _).2]
    split
    · rw [ispReadFlash_xchgs_length]; omega
    · rw [ispReadEEPROM_xchgs_length]; omega

theorem loopPure_ret_cases (data : List Nat) (rv : Nat) (s : Session) :
    (loopPure data rv s).2.1 = rv ∨ (loopPure data rv s).2.1 = 1 := by
  induction data generalizing rv s with
  | nil => exact Or.inl rfl
  | cons b bs ih =>
    simp only [loopPure]
    rcases ih (countSess rv (memSess s)).1 (countSess rv (memSess s)).2 with h | h
    · rw [h, countSess_ret]
      split
      · exact Or.inr rfl
      · exact Or.inl rfl
    · exact Or.inr h

/-- C9: outside the read states `usbFunctionRead` returns 0xFF, and outside the
write states `usbFunctionWrite` returns 0xFF, for every packet and length,
leaving the whole session and the hardware (world and trace, hence no exchange)
as they were. In a read state `usbFunctionRead` instead returns `len` after
filling `len` bytes with `4 * len` exchanges, and in a write state
`usbFunctionWrite` returns 0 or 1, never the sentinel. -/
theorem C9_misuse (E : Env W) (fuel len : Nat) (data : List Nat) (s : Session) (h : Hw W) :
    (¬ s.reading → usbFunctionRead E len s h = (0xff, [], s, h)) ∧
    (¬ s.writing → usbFunctionWrite E fuel data s h = some (0xff, s, h)) ∧
    (s.reading →
      (usbFunctionRead E len s h).1 = len ∧ (usbFunctionRead E len s h).2.1.length = len ∧
      (xchgsOf (usbFunctionRead E len s h).2.2.2.trace).length =
        (xchgsOf h.trace).length + 4 * len) ∧
    (s.writing → ∀ x, usbFunctionWrite E fuel data s h = some x → x.1 = 0 ∨ x.1 = 1) := by
  refine ⟨?_, ?_, ?_, ?_⟩
  · intro hs
    have hc : s.prog_state ≠ ProgState.readFlash ∧ s.prog_state ≠ ProgState.readEEPROM :=
      ⟨fun e => hs (Or.inl e), fun e => hs (Or.inr e)⟩
    rw [usbFunctionRead, if_pos hc]
  · intro hs
    have hc : s.prog_state ≠ ProgState.writeFlash ∧ s.prog_state ≠ ProgState.writeEEPROM :=
      ⟨fun e => hs (Or.inl e), fun e => hs (Or.inr e)⟩
    rw [usbFunctionWrite, if_pos hc]
  · intro hs
    have hne : ¬ (s.prog_state ≠ ProgState.readFlash ∧
        s.prog_state ≠ ProgState.readEEPROM) := by
      rcases hs with hs | hs <;> simp [hs]
    rw [usbFunctionRead, if_neg hne]
    exact ⟨rfl, (readFill_length E len s h).1, (readFill_length E len s h).2⟩
  · intro hs x hx
    have hne : ¬ (s.prog_state ≠ ProgState.writeFlash ∧
        s.prog_state ≠ ProgState.writeEEPROM) := by
      rcases hs with hs | hs <;> simp [hs]
    have hp := (usbFunctionWrite_pure E data hx).1
    have hr : x.1 = (loopPure data 0 s).2.1 := by
      have := congrArg Prod.fst hp
      simpa [writePure, hne] using this
    rw [hr]
    exact loopPure_ret_cases data 0 s

/-! ## Multi-packet write transfers -/

theorem bulkWrite_mono (E : Env W) {n m : Nat} (pkts : List (List Nat)) {s : Session}
    {h : Hw W} {x : List Nat × Session × Hw W} (hx : bulkWrite E n pkts s h = some x)
    (hnm : n ≤ m) : bulkWrite E m pkts s h = some x := by
  induction pkts generalizing s h x with
  | nil => simpa [bulkWrite] using hx
  | cons p ps ih =>
    simp only [bulkWrite] at hx ⊢
    cases hu : usbFunctionWrite E n p s h with
    | none => simp [hu] at hx
    | some r =>
      rw [usbFunctionWrite_mono E p hu hnm]
      simp only [hu, Option.some_bind] at hx ⊢
      cases hb : bulkWrite E n ps r.2.1 r.2.2 with
      | none => simp [hb] at hx
      | some rest =>
        rw [ih hb]
        simpa [hb] using hx

theorem bulkWrite_terminates (E : Env W) (hlive : TickLive E) (pkts : List (List Nat))
    (s : Session) (h : Hw W) : ∃ fuel, (bulkWrite E fuel pkts s h).isSome = true := by
  induction pkts generalizing s h with
  | nil => exact ⟨0, rfl⟩
  | cons p ps ih =>
    obtain ⟨n1, h1⟩ := usbFunctionWrite_terminates E hlive p s h
    obtain ⟨r, hr⟩ := Option.isSome_iff_exists.mp h1
    obtain ⟨n2, h2⟩ := ih r.2.1 r.2.2
    obtain ⟨x, hx⟩ := Option.isSome_iff_exists.mp h2
    refine ⟨max n1 n2, ?_⟩
    simp only [bulkWrite, usbFunctionWrite_mono E p hr (Nat.le_max_left n1 n2),
      Option.some_bind, bulkWrite_mono E ps hx (Nat.le_max_right n1 n2), Option.isSome_some]

theorem bulkWrite_pure (E : Env W) {fuel : Nat} (pkts : List (List Nat)) {s : Session}
    {h : Hw W} {x : List Nat × Session × Hw W} (hx : bulkWrite E fuel pkts s h = some x) :
    x.1 = (bulkPure pkts s).2.1 ∧ x.2.1 = (bulkPure pkts s).2.2 ∧
    progCalls x.2.2.trace = progCalls h.trace ++ (bulkPure pkts s).1 := by
  induction pkts generalizing s h x with
  | nil =>
    simp only [bulkWrite, Option.some.injEq] at hx
    subst hx
    simp [bulkPure]
  | cons p ps ih =>
    simp only [bulkWrite] at hx
    cases hu : usbFunctionWrite E fuel p s h with
    | none => simp [hu] at hx
    | some r =>
      simp only [hu, Option.some_bind] at hx
      cases hb : bulkWrite E fuel ps r.2.1 r.2.2 with
      | none => simp [hb] at hx
      | some rest =>
        simp only [hb, Option.some_bind, Option.some.injEq] at hx
        subst hx
        obtain ⟨u1, u2⟩ := usbFunctionWrite_pure E p hu
        have e1 : r.1 = (writePure p s).2.1 := by rw [← u1]
        have e2 : r.2.1 = (writePure p s).2.2 := by rw [← u1]
        obtain ⟨i1, i2, i3⟩ := ih hb
        rw [e2] at i1 i2 i3
        refine ⟨?_, ?_, ?_⟩
        · simp only [bulkPure]; rw [e1, i1]
        · simp only [bulkPure]; rw [i2]
        · simp only [bulkPure]; rw [i3, u2]; simp

theorem countSess_snd (rv rv' : Nat) (s : Session) : (countSess rv s).2 = (countSess rv' s).2 := by
  unfold countSess
  split <;> rfl

theorem loopPure_rv (data : List Nat) (rv rv' : Nat) (s : Session) :
    (loopPure data rv s).1 = (loopPure data rv' s).1 ∧
    (loopPure data rv s).2.2 = (loopPure data rv' s).2.2 := by
  induction data generalizing rv rv' s with
  | nil => exact ⟨rfl, rfl⟩
  | cons b bs ih =>
    simp only [loopPure]
    rw [countSess_snd rv rv' (memSess s)]
    exact ⟨by rw [(ih _ (countSess rv' (memSess s)).1 _).1],
      (ih _ (countSess rv' (memSess s)).1 _).2⟩

theorem loopPure_append (d1 d2 : List Nat) (rv : Nat) (s : Session) :
    loopPure (d1 ++ d2) rv s =
      ((loopPure d1 rv s).1 ++ (loopPure d2 (loopPure d1 rv s).2.1 (loopPure d1 rv s).2.2).1,
       (loopPure d2 (loopPure d1 rv s).2.1 (loopPure d1 rv s).2.2).2) := by
  induction d1 generalizing rv s with
  | nil => simp [loopPure]
  | cons b bs ih => simp [loopPure, ih]

theorem memSess_state (s : Session) : (memSess s).prog_state = s.prog_state := by
  unfold memSess
  split <;> rfl

theorem countSess_state (rv : Nat) (s : Session) (h : (s.prog_nbytes + 65535) % 65536 ≠ 0) :
    (countSess rv s).2.prog_state = s.prog_state := by
  unfold countSess
  rw [if_neg h]

/-- While fewer bytes than the remaining count are written, the state is kept
and the count goes down by the number of bytes. -/
theorem loopPure_keep (data : List Nat) (rv : Nat) (s : Session)
    (hn : s.prog_nbytes < 65536) (hl : data.length < s.prog_nbytes) :
    (loopPure data rv s).2.2.prog_state = s.prog_state ∧
    (loopPure data rv s).2.2.prog_nbytes = s.prog_nbytes - data.length := by
  induction data generalizing rv s with
  | nil => exact ⟨rfl, rfl⟩
  | cons b bs ih =>
    simp only [List.length_cons] at hl
    have e : ((memSess s).prog_nbytes + 65535) % 65536 = s.prog_nbytes - 1 := by
      rw [memSess_nbytes]; omega
    have e0 : ((memSess s).prog_nbytes + 65535) % 65536 ≠ 0 := by rw [e]; omega
    have hn2 : (countSess rv (memSess s)).2.prog_nbytes = s.prog_nbytes - 1 := by
      rw [countSess_nbytes, e]
    obtain ⟨i1, i2⟩ := ih (countSess rv (memSess s)).1 (countSess rv (memSess s)).2
      (by rw [hn2]; omega) (by rw [hn2]; omega)
    simp only [loopPure, List.length_cons]
    refine ⟨?_, ?_⟩
    · rw [i1, countSess_state _ _ e0, memSess_state]
    · rw [i2, hn2]; omega

theorem bulkPure_empty (pkts : List (List Nat)) (s : Session) (he : ∀ p ∈ pkts, p = []) :
    (bulkPure pkts s).1 = [] ∧ (bulkPure pkts s).2.2 = s := by
  induction pkts generalizing s with
  | nil => exact ⟨rfl, rfl⟩
  | cons p ps ih =>
    have hp : p = [] := he p (List.mem_cons_self _ _)
    subst hp
    have hw : (writePure [] s).1 = [] ∧ (writePure [] s).2.2 = s := by
      unfold writePure
      split <;> exact ⟨rfl, rfl⟩
    obtain ⟨i1, i2⟩ := ih (writePure [] s).2.2 (fun q hq => he q (List.mem_cons_of_mem _ hq))
    simp only [bulkPure]
    exact ⟨by rw [hw.1, i1]; rfl, by rw [i2, hw.2]⟩

/-- In a write state, as long as the packets hold no more bytes than the
remaining count, driving the packets one by one does to the session and the
target what a single loop over all their bytes does. -/
theorem bulkPure_flatten (pkts : List (List Nat)) (s : Session) (hs : s.writing)
    (hn : s.prog_nbytes < 65536) (hl : pkts.flatten.length ≤ s.prog_nbytes) :
    (bulkPure pkts s).1 = (loopPure pkts.flatten 0 s).1 ∧
    (bulkPure pkts s).2.2 = (loopPure pkts.flatten 0 s).2.2 := by
  induction pkts generalizing s with
  | nil => exact ⟨rfl, rfl⟩
  | cons p ps ih =>
    have hne : ¬ (s.prog_state ≠ ProgState.writeFlash ∧
        s.prog_state ≠ ProgState.writeEEPROM) := by
      rcases hs with hs | hs <;> simp [hs]
    have hw : writePure p s = loopPure p 0 s := by rw [writePure, if_neg hne]
    simp only [List.flatten_cons, List.length_append] at hl
    simp only [bulkPure, List.flatten_cons, loopPure_append, hw]
    by_cases hlt : p.length < s.prog_nbytes
    · obtain ⟨k1, k2⟩ := loopPure_keep p 0 s hn hlt
      have hs1 : Session.writing (loopPure p 0 s).2.2 := by
        unfold Session.writing; rw [k1]; exact hs
      obtain ⟨i1, i2⟩ := ih (loopPure p 0 s).2.2 hs1 (by rw [k2]; omega) (by rw [k2]; omega)
      obtain ⟨r1, r2⟩ := loopPure_rv ps.flatten (loopPure p 0 s).2.1 0 (loopPure p 0 s).2.2
      exact ⟨by rw [i1, r1], by rw [i2, r2]⟩
    · have hz : ps.flatten.length = 0 := by omega
      have hnil : ps.flatten = [] := List.length_eq_zero.mp hz
      have hall : ∀ q ∈ ps, q = [] := by
        intro q hq
        have := List.flatten_eq_nil_iff.mp hnil
        exact this q hq
      obtain ⟨b1, b2⟩ := bulkPure_empty ps (loopPure p 0 s).2.2 hall
      rw [hnil]
      exact ⟨by rw [b1]; rfl, by rw [b2]; rfl⟩

theorem flushCount_append (a b : List IspCall) :
    flushCount (a ++ b) = flushCount a + flushCount b := by
  simp [flushCount]

theorem flushCount_pagedWrites (A : Nat) (bytes : List Nat) :
    flushCount (pagedWrites A bytes) = 0 := by
  induction bytes generalizing A with
  | nil => rfl
  | cons b bs ih =>
    have := ih ((A + 1) % 4294967296)
    simp only [flushCount] at this
    simp [pagedWrites, flushCount, this]

theorem flushCount_pageBlocks (p m A : Nat) (bytes : List Nat) :
    flushCount (pageBlocks p m A bytes) = m := by
  induction m generalizing A bytes with
  | zero => rfl
  | succ m ih =>
    simp only [pageBlocks, flushCount_append, flushCount_pagedWrites, ih]
    simp [flushCount]
    omega

/-! ## C2: the forced flush at the end of a last block -/

theorem loopPure_forced (data : List Nat) (rv : Nat) (s : Session)
    (hst : s.prog_state = ProgState.writeFlash) (hps : s.prog_pagesize ≠ 0)
    (hlast : s.prog_blockflags &&& PROG_BLOCKFLAG_LAST ≠ 0)
    (hn : s.prog_nbytes < 65536) (hL : data.length = s.prog_nbytes)
    (h1 : 1 ≤ s.prog_nbytes) (hpc : s.prog_pagecounter < 256)
    (hA : s.prog_address < 4294967296)
    (hnz : ∀ k, 1 ≤ k → k ≤ s.prog_nbytes → (s.prog_pagecounter + 256 - k % 256) % 256 ≠ 0)
    (hend : (s.prog_pagecounter + 256 - s.prog_nbytes % 256) % 256 ≠ s.prog_pagesize) :
    ∃ init last, data = init ++ [last] ∧
      (loopPure data rv s).1 = pagedWrites s.prog_address data ++
        [IspCall.flushPage ((s.prog_address + s.prog_nbytes - 1) % 4294967296) (last % 256)] := by
  induction data generalizing rv s with
  | nil => simp only [List.length_nil] at hL; omega
  | cons b bs ih =>
    have hc1 : (s.prog_pagecounter + 255) % 256 ≠ 0 := by
      have := hnz 1 (le_refl 1) h1
      omega
    have hmem : memSess s = { s with prog_pagecounter := (s.prog_pagecounter + 255) % 256 } := by
      simp [memSess, hst, hps, hc1]
    have hmc : memCalls (b % 256) s = [IspCall.writeFlash s.prog_address (b % 256) 0] := by
      simp [memCalls, hst, hps, hc1]
    simp only [List.length_cons] at hL
    simp only [loopPure, hmc, pagedWrites]
    rw [hmem]
    cases bs with
    | nil =>
      simp only [List.length_nil] at hL
      have hn1 : s.prog_nbytes = 1 := by omega
      have hcc : countCalls (b % 256)
          { s with prog_pagecounter := (s.prog_pagecounter + 255) % 256 } =
          [IspCall.flushPage s.prog_address (b % 256)] := by
        have c1 : (s.prog_nbytes + 65535) % 65536 = 0 := by omega
        have c2 : (s.prog_pagecounter + 255) % 256 ≠ s.prog_pagesize := by
          rw [hn1] at hend; omega
        simp [countCalls, c1, hlast, c2]
      refine ⟨[], b, rfl, ?_⟩
      have ea : (s.prog_address + s.prog_nbytes - 1) % 4294967296 = s.prog_address := by omega
      rw [hcc, ea]
      simp [loopPure, pagedWrites]
    | cons c cs =>
      simp only [List.length_cons] at hL
      have c1 : (s.prog_nbytes + 65535) % 65536 = s.prog_nbytes - 1 := by omega
      have c0 : ¬ (s.prog_nbytes - 1 = 0) := by omega
      have hcc : countCalls (b % 256)
          { s with prog_pagecounter := (s.prog_pagecounter + 255) % 256 } = [] := by
        simp [countCalls, c1, c0]
      have hcs : (countSess rv { s with prog_pagecounter := (s.prog_pagecounter + 255) % 256 }).2
          = { s with prog_pagecounter := (s.prog_pagecounter + 255) % 256,
                     prog_nbytes := s.prog_nbytes - 1,
                     prog_address := (s.prog_address + 1) % 4294967296 } := by
        simp [countSess, c1, c0]
      obtain ⟨r1, _⟩ := loopPure_rv (c :: cs)
        (countSess rv { s with prog_pagecounter := (s.prog_pagecounter + 255) % 256 }).1 0
        (countSess rv { s with prog_pagecounter := (s.prog_pagecounter + 255) % 256 }).2
      rw [hcc, r1, hcs]
      obtain ⟨init, last, hd, hcalls⟩ := ih 0
        { s with prog_pagecounter := (s.prog_pagecounter + 255) % 256,
                 prog_nbytes := s.prog_nbytes - 1,
                 prog_address := (s.prog_address + 1) % 4294967296 }
        hst hps hlast (by show s.prog_nbytes - 1 < 65536; omega)
        (by show (c :: cs).length = s.prog_nbytes - 1; simp only [List.length_cons]; omega)
        (by show 1 ≤ s.prog_nbytes - 1; omega)
        (Nat.mod_lt _ (by decide)) (Nat.mod_lt _ (by decide))
        (by
          intro k hk1 hk2
          show ((s.prog_pagecounter + 255) % 256 + 256 - k % 256) % 256 ≠ 0
          have hk2' : k ≤ s.prog_nbytes - 1 := hk2
          have := hnz (k + 1) (by omega) (by omega)
          omega)
        (by
          show ((s.prog_pagecounter + 255) % 256 + 256 - (s.prog_nbytes - 1) % 256) % 256
            ≠ s.prog_pagesize
          omega)
      refine ⟨b :: init, last, by rw [hd]; rfl, ?_⟩
      rw [hcalls]
      have ea : ((s.prog_address + 1) % 4294967296 + (s.prog_nbytes - 1) - 1) % 4294967296
          = (s.prog_address + s.prog_nbytes - 1) % 4294967296 := by omega
      simp only [ea]
      simp

/-- C2: a paged WriteFlash transfer (`prog_pagesize != 0`) with the last-block flag
set and `L >= 1` bytes declared, delivered in packets holding `L` bytes in all,
in which the page counter never reaches 0 (counting down from its value at the
start) and differs from the page size after the last byte: under a running tick
source the transfer completes; whenever it completes, the programming calls made
are the `ispWriteFlash(.., 0)` of the `L` bytes in order followed by exactly one
`ispFlushPage`, with the address and the value of the last byte. -/
theorem C2_forced_flush (E : Env W) (pkts : List (List Nat))
    (s : Session) (h : Hw W)
    (hst : s.prog_state = ProgState.writeFlash) (hps : s.prog_pagesize ≠ 0)
    (hlast : s.prog_blockflags &&& PROG_BLOCKFLAG_LAST ≠ 0)
    (h1 : 1 ≤ s.prog_nbytes) (hn : s.prog_nbytes < 65536)
    (hL : pkts.flatten.length = s.prog_nbytes)
    (hpc : s.prog_pagecounter < 256) (hA : s.prog_address < 4294967296)
    (hnz : ∀ k, 1 ≤ k → k ≤ s.prog_nbytes → (s.prog_pagecounter + 256 - k % 256) % 256 ≠ 0)
    (hend : (s.prog_pagecounter + 256 - s.prog_nbytes % 256) % 256 ≠ s.prog_pagesize) :
    (TickLive E → ∃ fuel, (bulkWrite E fuel pkts s h).isSome = true) ∧
    ∀ fuel x, bulkWrite E fuel pkts s h = some x →
      ∃ init last, pkts.flatten = init ++ [last] ∧
        progCalls x.2.2.trace = progCalls h.trace ++
          (pagedWrites s.prog_address pkts.flatten ++
            [IspCall.flushPage ((s.prog_address + s.prog_nbytes - 1) % 4294967296)
              (last % 256)]) ∧
        flushCount (pagedWrites s.prog_address pkts.flatten ++
            [IspCall.flushPage ((s.prog_address + s.prog_nbytes - 1) % 4294967296)
              (last % 256)]) = 1 := by
  refine ⟨fun hlive => bulkWrite_terminates E hlive pkts s h, ?_⟩
  intro fuel x hx
  obtain ⟨_, _, p3⟩ := bulkWrite_pure E pkts hx
  obtain ⟨f1, _⟩ := bulkPure_flatten pkts s (Or.inl hst) hn (by omega)
  obtain ⟨init, last, hd, hc⟩ := loopPure_forced pkts.flatten 0 s hst hps hlast hn hL h1 hpc hA
    hnz hend
  refine ⟨init, last, hd, by rw [p3, f1, hc], ?_⟩
  rw [flushCount_append, flushCount_pagedWrites]
  rfl

/-- C2 at a concrete input: 10 bytes in two packets, page counter 100, page size
128. -/
theorem C2_forced_flush_witness :
    sessionLast10.prog_state = ProgState.writeFlash ∧
    sessionLast10.prog_pagesize ≠ 0 ∧
    sessionLast10.prog_blockflags &&& PROG_BLOCKFLAG_LAST ≠ 0 ∧
    [[1, 2, 3, 4, 5, 6, 7, 8], [9, 10]].flatten.length = sessionLast10.prog_nbytes ∧
    (∀ k, 1 ≤ k → k ≤ sessionLast10.prog_nbytes →
      (sessionLast10.prog_pagecounter + 256 - k % 256) % 256 ≠ 0) ∧
    TickLive (tickEnv 0) ∧
    ∃ fuel, (bulkWrite (tickEnv 0) fuel [[1, 2, 3, 4, 5, 6, 7, 8], [9, 10]]
      sessionLast10 hwT).isSome = true :=
  ⟨by decide, by decide, by decide, by decide,
   (by
      intro k _ hk
      have hk' : k ≤ 10 := hk
      show (100 + 256 - k % 256) % 256 ≠ 0
      omega),
   tickEnv_live 0,
   (C2_forced_flush (tickEnv 0) [[1, 2, 3, 4, 5, 6, 7, 8], [9, 10]]
      sessionLast10 hwT (by decide) (by decide) (by decide) (by decide) (by decide)
      (by decide) (by decide) (by decide)
      (by
        intro k _ hk
        have hk' : k ≤ 10 := hk
        show (100 + 256 - k % 256) % 256 ≠ 0
        omega)
      (by decide)).1 (tickEnv_live 0)⟩

/-! ## C5: the program-enable handshake -/

theorem ispDelayLoop_frame (E : Env W) (st : Nat) {n : Nat} {h x : Hw W}
    (hx : ispDelayLoop E st n h = some x) : x.trace = h.trace ∧ x.hwSpi = h.hwSpi := by
  induction n generalizing h with
  | zero => simp [ispDelayLoop] at hx
  | succ n ih =>
    simp only [ispDelayLoop] at hx
    split at hx
    · obtain ⟨i1, i2⟩ := ih hx
      exact ⟨i1, i2⟩
    · simp only [Option.some.injEq] at hx
      subst hx
      exact ⟨rfl, rfl⟩

theorem ispDelay_frame (E : Env W) {n : Nat} {h x : Hw W} (hx : ispDelay E n h = some x) :
    x.trace = h.trace ∧ x.hwSpi = h.hwSpi := by
  have := ispDelayLoop_frame E (readTimer E h).1 (h := (readTimer E h).2) hx
  simpa using this

theorem enterLoop_mono (E : Env W) {n m : Nat} (count : Nat) {h : Hw W} {x : Nat × Hw W}
    (hx : enterLoop E n count h = some x) (hnm : n ≤ m) : enterLoop E m count h = some x := by
  induction count generalizing h with
  | zero => simpa [enterLoop] using hx
  | succ c ih =>
    simp only [enterLoop] at hx ⊢
    split
    · rename_i hc
      rw [if_pos hc] at hx
      exact hx
    · rename_i hc
      rw [if_neg hc] at hx
      cases h7 : ispDelay E n (ctl E Ctl.sckHigh (ctl E Ctl.spiHWdisable
          (ispTransmit E 0 (ispTransmit E 0 (ispTransmit E 0x53
            (ispTransmit E 0xAC h).2).2).2).2)) with
      | none => simp [h7] at hx
      | some y7 =>
        rw [ispDelay_mono E h7 hnm]
        simp only [h7, Option.some_bind] at hx ⊢
        cases h9 : ispDelay E n (ctl E Ctl.sckLow y7) with
        | none => simp [h9] at hx
        | some y9 =>
          rw [ispDelay_mono E h9 hnm]
          simp only [h9, Option.some_bind] at hx ⊢
          exact ih hx

theorem enterLoop_terminates (E : Env W) (hdelay : DelayLive E) (count : Nat) (h : Hw W) :
    ∃ fuel, (enterLoop E fuel count h).isSome = true := by
  induction count generalizing h with
  | zero => exact ⟨0, rfl⟩
  | succ c ih =>
    by_cases hc : (ispTransmit E 0 (ispTransmit E 0x53 (ispTransmit E 0xAC h).2).2).1 = 0x53
    · exact ⟨0, by simp only [enterLoop, hc, if_true, Option.isSome_some]⟩
    · obtain ⟨n1, d1⟩ := hdelay (ctl E Ctl.sckHigh (ctl E Ctl.spiHWdisable
          (ispTransmit E 0 (ispTransmit E 0 (ispTransmit E 0x53
            (ispTransmit E 0xAC h).2).2).2).2))
      obtain ⟨y7, h7⟩ := Option.isSome_iff_exists.mp d1
      obtain ⟨n2, d2⟩ := hdelay (ctl E Ctl.sckLow y7)
      obtain ⟨y9, h9⟩ := Option.isSome_iff_exists.mp d2
      obtain ⟨n3, d3⟩ := ih (if y9.hwSpi then ctl E Ctl.spiHWenable y9 else y9)
      obtain ⟨x, hx⟩ := Option.isSome_iff_exists.mp d3
      refine ⟨max n1 (max n2 n3), ?_⟩
      have l1 : n1 ≤ max n1 (max n2 n3) := Nat.le_max_left _ _
      have l2 : n2 ≤ max n1 (max n2 n3) :=
        Nat.le_trans (Nat.le_max_left _ _) (Nat.le_max_right _ _)
      have l3 : n3 ≤ max n1 (max n2 n3) :=
        Nat.le_trans (Nat.le_max_right _ _) (Nat.le_max_right _ _)
      simp only [enterLoop, hc, if_false, ispDelay_mono E h7 l1, Option.some_bind,
        ispDelay_mono E h9 l2, enterLoop_mono E c hx l3, Option.isSome_some]

theorem third_cons4 (a b c d : Nat × Nat) (rest : List (Nat × Nat)) :
    third (a :: b :: c :: d :: rest) = c.2 :: third rest := rfl

theorem enterLoop_spec (E : Env W) (fuel count : Nat) (h : Hw W) (r : Nat) (h' : Hw W)
    (hx : enterLoop E fuel count h = some (r, h')) :
    ∃ evs fails, h'.trace = h.trace ++ evs ∧ callsOf evs = [] ∧
      third (xchgsOf evs) = fails ++ (if r = 0 then [0x53] else []) ∧
      (∀ t ∈ fails, t ≠ 0x53) ∧
      (xchgsOf evs).map Prod.fst =
        (List.replicate (third (xchgsOf evs)).length [0xAC, 0x53, 0, 0]).flatten ∧
      (third (xchgsOf evs)).length ≤ count ∧
      (r = 0 ∨ (r = 1 ∧ fails.length = count)) ∧
      (r = 0 → ∃ pre y, evs = pre ++ [Event.xchg 0 y]) := by
  induction count generalizing h with
  | zero =>
    simp only [enterLoop, Option.some.injEq, Prod.mk.injEq] at hx
    obtain ⟨rfl, rfl⟩ := hx
    exact ⟨[], [], by simp, rfl, by simp [third], by simp, by simp [third], by simp [third],
      Or.inr ⟨rfl, rfl⟩, fun h => absurd h (by decide)⟩
  | succ c ih =>
    simp only [enterLoop] at hx
    let y1 := ispTransmit E 0xAC h
    let y2 := ispTransmit E 0x53 y1.2
    let y3 := ispTransmit E 0 y2.2
    let y4 := ispTransmit E 0 y3.2
    have ht : y4.2.trace = h.trace ++ [Event.xchg 0xAC y1.1, Event.xchg 0x53 y2.1,
        Event.xchg 0 y3.1, Event.xchg 0 y4.1] := by
      simp only [ispTransmit_trace, List.append_assoc, List.singleton_append, y1, y2, y3, y4]
      rfl
    by_cases hc : y3.1 = 0x53
    · rw [if_pos hc] at hx
      simp only [Option.some.injEq, Prod.mk.injEq] at hx
      obtain ⟨rfl, rfl⟩ := hx
      refine ⟨_, [], ht, by simp, ?_, by simp, ?_, ?_, Or.inl rfl,
        fun _ => ⟨[Event.xchg 0xAC y1.1, Event.xchg 0x53 y2.1, Event.xchg 0 y3.1], y4.1, rfl⟩⟩
      · simp [third, hc]
      · simp [third]
      · simp [third]
    · rw [if_neg hc] at hx
      cases h7 : ispDelay E fuel (ctl E Ctl.sckHigh (ctl E Ctl.spiHWdisable y4.2)) with
      | none => simp only [y1, y2, y3, y4] at h7; simp [h7] at hx
      | some y7 =>
        have h7' := h7
        simp only [y1, y2, y3, y4] at h7'
        simp only [h7', Option.some_bind] at hx
        cases h9 : ispDelay E fuel (ctl E Ctl.sckLow y7) with
        | none => simp [h9] at hx
        | some y9 =>
          simp only [h9, Option.some_bind] at hx
          obtain ⟨f7, _⟩ := ispDelay_frame E h7
          obtain ⟨f9, _⟩ := ispDelay_frame E h9
          have t9 : y9.trace = h.trace ++ [Event.xchg 0xAC y1.1, Event.xchg 0x53 y2.1,
              Event.xchg 0 y3.1, Event.xchg 0 y4.1, Event.ctl Ctl.spiHWdisable,
              Event.ctl Ctl.sckHigh, Event.ctl Ctl.sckLow] := by
            rw [f9]
            show y7.trace ++ [Event.ctl Ctl.sckLow] = _
            rw [f7]
            show (y4.2.trace ++ [Event.ctl Ctl.spiHWdisable]) ++ [Event.ctl Ctl.sckHigh]
              ++ [Event.ctl Ctl.sckLow] = _
            rw [ht]
            simp
          obtain ⟨evs, fails, e1, e2, e3, e4, e5, e6, e7, e8⟩ := ih _ hx
          have t10 : ∃ C, (if y9.hwSpi = true then ctl E Ctl.spiHWenable y9 else y9).trace =
              h.trace ++ ([Event.xchg 0xAC y1.1, Event.xchg 0x53 y2.1,
              Event.xchg 0 y3.1, Event.xchg 0 y4.1] ++ C) ∧ xchgsOf C = [] ∧ callsOf C = [] := by
            by_cases hs : y9.hwSpi = true
            · refine ⟨[Event.ctl Ctl.spiHWdisable, Event.ctl Ctl.sckHigh,
                Event.ctl Ctl.sckLow, Event.ctl Ctl.spiHWenable], ?_, rfl, rfl⟩
              rw [if_pos hs]
              show y9.trace ++ [Event.ctl Ctl.spiHWenable] = _
              rw [t9]
              simp
            · refine ⟨[Event.ctl Ctl.spiHWdisable, Event.ctl Ctl.sckHigh,
                Event.ctl Ctl.sckLow], ?_, rfl, rfl⟩
              rw [if_neg hs, t9]
              simp
          obtain ⟨C, tC, xC, cC⟩ := t10
          have hx3 : xchgsOf ([Event.xchg 0xAC y1.1, Event.xchg 0x53 y2.1,
              Event.xchg 0 y3.1, Event.xchg 0 y4.1] ++ C ++ evs) =
              (0xAC, y1.1) :: (0x53, y2.1) :: (0, y3.1) :: (0, y4.1) :: xchgsOf evs := by
            simp [xC]
          refine ⟨[Event.xchg 0xAC y1.1, Event.xchg 0x53 y2.1,
              Event.xchg 0 y3.1, Event.xchg 0 y4.1] ++ C ++ evs, y3.1 :: fails,
              ?_, ?_, ?_, ?_, ?_, ?_, ?_, ?_⟩
          · rw [e1, tC]; simp
          · simp [cC, e2]
          · rw [hx3, third_cons4, e3]; rfl
          · intro t ht'
            rcases List.mem_cons.mp ht' with rfl | ht'
            · exact hc
            · exact e4 t ht'
          · rw [hx3, third_cons4]
            simp only [List.map_cons, List.length_cons, List.replicate_succ,
              List.flatten_cons, e5]
            rfl
          · rw [hx3, third_cons4]
            simp only [List.length_cons]
            omega
          · rcases e7 with e7 | ⟨e7, e7'⟩
            · exact Or.inl e7
            · exact Or.inr ⟨e7, by simp [e7']⟩
          · intro hr
            obtain ⟨pre, y, hp⟩ := e8 hr
            exact ⟨[Event.xchg 0xAC y1.1, Event.xchg 0x53 y2.1,
              Event.xchg 0 y3.1, Event.xchg 0 y4.1] ++ C ++ pre, y, by rw [hp]; simp⟩

theorem tickEnv_delayLive (ans : Nat) : DelayLive (tickEnv ans) := by
  intro h
  refine ⟨1, ?_⟩
  have hc : ¬ (((h.world + 100) % 256 + 256 - h.world % 256) % 256 < 12 % 256) := by omega
  simp only [ispDelay, ispDelayLoop, readTimer, tickEnv]
  rw [if_neg hc]
  rfl

/-- C5: for every target, `ispEnterProgrammingMode` returns provided its `ispDelay`
calls do (`DelayLive`). Whenever
it returns `r`, the events after its entry consist of `n <= 32` attempts of four
exchanges sending 0xAC, 0x53, 0, 0 (and port actions in between); `r = 0` if and
only if one of the third exchanges received 0x53, in which case that attempt is
the last (all earlier third exchanges received something else) and its fourth
exchange is the last event, so that a target answering 0x53 at once costs one
attempt; otherwise `r = 1` and exactly 32 attempts were made. -/
theorem C5_enter_programming (E : Env W) (h : Hw W) :
    (DelayLive E → ∃ fuel, (ispEnterProgrammingMode E fuel h).isSome = true) ∧
    ∀ fuel r h', ispEnterProgrammingMode E fuel h = some (r, h') →
      ∃ evs n, h'.trace = h.trace ++ Event.call IspCall.enterProgrammingMode :: evs ∧
        n ≤ 32 ∧
        (xchgsOf evs).map Prod.fst = (List.replicate n [0xAC, 0x53, 0, 0]).flatten ∧
        (third (xchgsOf evs)).length = n ∧
        (r = 0 ↔ 0x53 ∈ third (xchgsOf evs)) ∧
        (r = 0 → ∃ fails pre y, third (xchgsOf evs) = fails ++ [0x53] ∧
          (∀ t ∈ fails, t ≠ 0x53) ∧ evs = pre ++ [Event.xchg 0 y]) ∧
        (∀ rest, third (xchgsOf evs) = 0x53 :: rest → n = 1) ∧
        (r ≠ 0 → r = 1 ∧ n = 32) := by
  refine ⟨fun hdelay => enterLoop_terminates E hdelay 32 _, ?_⟩
  intro fuel r h' hx
  obtain ⟨evs, fails, e1, _, e3, e4, e5, e6, e7, e8⟩ := enterLoop_spec E fuel 32 _ r h' hx
  have hiff : r = 0 ↔ 0x53 ∈ third (xchgsOf evs) := by
    constructor
    · intro hr
      rw [e3, if_pos hr]
      simp
    · intro hm
      by_contra hr
      rw [e3, if_neg hr, List.append_nil] at hm
      exact e4 _ hm rfl
  refine ⟨evs, (third (xchgsOf evs)).length, ?_, e6, e5, rfl, hiff, ?_, ?_, ?_⟩
  · rw [e1]; simp [emit]
  · intro hr
    obtain ⟨pre, y, hp⟩ := e8 hr
    exact ⟨fails, pre, y, by rw [e3, if_pos hr], e4, hp⟩
  · intro rest hrest
    have hr : r = 0 := hiff.mpr (by rw [hrest]; simp)
    rw [e3, if_pos hr] at hrest
    cases fails with
    | nil => rw [e3, if_pos hr]; rfl
    | cons f fs =>
      simp only [List.cons_append, List.cons.injEq] at hrest
      exact absurd hrest.1 (e4 f (List.mem_cons_self _ _))
  · intro hr
    rcases e7 with e7 | ⟨e7, e7'⟩
    · exact absurd e7 hr
    · refine ⟨e7, ?_⟩
      rw [e3, if_neg hr, List.append_nil]
      exact e7'

/-- C5 at a concrete input: a target that answers 0x53 to every exchange. -/
theorem C5_enter_programming_witness :
    DelayLive (tickEnv 0x53) ∧
    ∃ fuel, (ispEnterProgrammingMode (tickEnv 0x53) fuel hwT).isSome = true :=
  ⟨tickEnv_delayLive 0x53, (C5_enter_programming (tickEnv 0x53) hwT).1 (tickEnv_delayLive 0x53)⟩

/-! ## C7: round trip against a simulated target memory -/

theorem opcode_or (base a : Nat) (hb : base = 0x20 ∨ base = 0x40) :
    (base ||| ((a &&& 1) <<< 3)) % 256 = base + 8 * (a % 2) := by
  rcases Nat.mod_two_eq_zero_or_one a with h | h <;> rcases hb with rfl | rfl <;>
    simp [Nat.and_one_is_mod, h]

theorem simTransmit (b : Nat) (h : Hw SimTarget) :
    (ispTransmit simEnv b h).1 = (simXchg (b % 256) h.world).1 % 256 ∧
    (ispTransmit simEnv b h).2.world = (simXchg (b % 256) h.world).2 ∧
    (ispTransmit simEnv b h).2.hwSpi = h.hwSpi := by
  cases hs : h.hwSpi <;> simp [ispTransmit, simEnv, hs]

/-- Four exchanges with the simulated target in sync: the received byte of the
fourth exchange and the target afterwards. -/
theorem sim_command (b0 b1 b2 b3 : Nat) (h : Hw SimTarget) (hp : h.world.pending = []) :
    (ispTransmit simEnv b3 (ispTransmit simEnv b2 (ispTransmit simEnv b1
      (ispTransmit simEnv b0 h).2).2).2).1 =
      (simXchg (b3 % 256) { mem := h.world.mem, pending := [b0 % 256, b1 % 256, b2 % 256] }).1
        % 256 ∧
    (ispTransmit simEnv b3 (ispTransmit simEnv b2 (ispTransmit simEnv b1
      (ispTransmit simEnv b0 h).2).2).2).2.world =
      (simXchg (b3 % 256) { mem := h.world.mem, pending := [b0 % 256, b1 % 256, b2 % 256] }).2 := by
  have e1 : (ispTransmit simEnv b0 h).2.world = { mem := h.world.mem, pending := [b0 % 256] } := by
    rw [(simTransmit b0 h).2.1]
    simp [simXchg, hp]
  have e2 : (ispTransmit simEnv b1 (ispTransmit simEnv b0 h).2).2.world =
      { mem := h.world.mem, pending := [b0 % 256, b1 % 256] } := by
    rw [(simTransmit b1 _).2.1, e1]
    simp [simXchg]
  have e3 : (ispTransmit simEnv b2 (ispTransmit simEnv b1 (ispTransmit simEnv b0 h).2).2).2.world =
      { mem := h.world.mem, pending := [b0 % 256, b1 % 256, b2 % 256] } := by
    rw [(simTransmit b2 _).2.1, e2]
    simp [simXchg]
  exact ⟨by rw [(simTransmit b3 _).1, e3], by rw [(simTransmit b3 _).2.1, e3]⟩

theorem sim_readFlash (a : Nat) (h : Hw SimTarget) (hp : h.world.pending = []) :
    (ispReadFlash simEnv a h).1 = h.world.mem (cellOf a) % 256 ∧
    (ispReadFlash simEnv a h).2.world = h.world := by
  have hc := sim_command (0x20 ||| ((a &&& 1) <<< 3)) (a >>> 9) (a >>> 1) 0
    (emit (Event.call (IspCall.readFlash a)) h) hp
  rw [opcode_or 0x20 a (Or.inl rfl)] at hc
  have hop : ¬ (0x20 + 8 * (a % 2) = 0x40 ∨ 0x20 + 8 * (a % 2) = 0x48) := by omega
  have hop2 : (0x20 + 8 * (a % 2) = 0x20 ∨ 0x20 + 8 * (a % 2) = 0x28) := by omega
  have hci : cellIndex (0x20 + 8 * (a % 2)) ((a >>> 9) % 256) ((a >>> 1) % 256) = cellOf a := by
    simp only [cellIndex, cellOf]; omega
  simp only [simXchg, if_neg hop, if_pos hop2, hci] at hc
  refine ⟨hc.1, ?_⟩
  rw [ispReadFlash, hc.2]
  cases hw : h.world
  simp only [emit, hw] at hp ⊢
  simp only [hp]

theorem sim_poll (busy a fuel retries st : Nat) (h : Hw SimTarget)
    (hp : h.world.pending = []) (hv : h.world.mem (cellOf a) % 256 ≠ busy) :
    ∃ h', pollFlash simEnv busy a (fuel + 1) (retries + 1) st h = some (0, h') ∧
      h'.world = h.world := by
  obtain ⟨r1, r2⟩ := sim_readFlash a h hp
  refine ⟨(ispReadFlash simEnv a h).2, ?_, r2⟩
  have hne : (ispReadFlash simEnv a h).1 ≠ busy := by rw [r1]; exact hv
  simp only [pollFlash, Nat.succ_ne_zero, if_false, hne, ne_eq, not_false_eq_true, if_true]

theorem sim_writeFlash (fuel a d : Nat) (h : Hw SimTarget) (hp : h.world.pending = [])
    (hd : d < 256) :
    ∃ h', ispWriteFlash simEnv (fuel + 1) a d 1 h = some (0, h') ∧
      h'.world = { mem := fun c => if c = cellOf a then d else h.world.mem c, pending := [] } := by
  have hc := sim_command (0x40 ||| ((a &&& 1) <<< 3)) (a >>> 9) (a >>> 1) d
    (emit (Event.call (IspCall.writeFlash a d 1)) h) hp
  rw [opcode_or 0x40 a (Or.inr rfl)] at hc
  have hop : (0x40 + 8 * (a % 2) = 0x40 ∨ 0x40 + 8 * (a % 2) = 0x48) := by omega
  have hci : cellIndex (0x40 + 8 * (a % 2)) ((a >>> 9) % 256) ((a >>> 1) % 256) = cellOf a := by
    simp only [cellIndex, cellOf]; omega
  simp only [simXchg, if_pos hop, hci, Nat.mod_eq_of_lt hd] at hc
  have hw : (ispTransmit simEnv d (ispTransmit simEnv (a >>> 1) (ispTransmit simEnv (a >>> 9)
      (ispTransmit simEnv (0x40 ||| ((a &&& 1) <<< 3))
        (emit (Event.call (IspCall.writeFlash a d 1)) h)).2).2).2).2.world =
      { mem := fun c => if c = cellOf a then d else h.world.mem c, pending := [] } := hc.2
  simp only [ispWriteFlash, if_neg (show (1 : Nat) ≠ 0 by decide)]
  generalize (ispTransmit simEnv d (ispTransmit simEnv (a >>> 1) (ispTransmit simEnv (a >>> 9)
      (ispTransmit simEnv (0x40 ||| ((a &&& 1) <<< 3))
        (emit (Event.call (IspCall.writeFlash a d 1)) h)).2).2).2).2 = H4 at hw ⊢
  by_cases h7 : d = 0x7F
  · rw [if_pos h7]
    exact ⟨_, rfl, hw⟩
  · rw [if_neg h7]
    have hw2 : (readTimer simEnv H4).2.world =
        { mem := fun c => if c = cellOf a then d else h.world.mem c, pending := [] } := hw
    obtain ⟨h', k1, k2⟩ := sim_poll 0x7F a fuel 29 (readTimer simEnv H4).1 (readTimer simEnv H4).2
      (by rw [hw2]) (by rw [hw2]; simp only [if_true, Nat.mod_eq_of_lt hd]; exact h7)
    exact ⟨h', k1, by rw [k2, hw2]⟩

theorem sim_flushPage (fuel a v : Nat) (h : Hw SimTarget) (hp : h.world.pending = [])
    (hv : h.world.mem (cellOf a) % 256 = v) :
    ∃ h', ispFlushPage simEnv (fuel + 1) a v h = some (0, h') ∧ h'.world = h.world := by
  have hc := sim_command 0x4C (a >>> 9) (a >>> 1) 0
    (emit (Event.call (IspCall.flushPage a v)) h) hp
  have hop : ¬ ((0x4C : Nat) % 256 = 0x40 ∨ (0x4C : Nat) % 256 = 0x48) := by decide
  have hop2 : ¬ ((0x4C : Nat) % 256 = 0x20 ∨ (0x4C : Nat) % 256 = 0x28) := by decide
  simp only [simXchg, if_neg hop, if_neg hop2] at hc
  have hw : (ispTransmit simEnv 0 (ispTransmit simEnv (a >>> 1) (ispTransmit simEnv (a >>> 9)
      (ispTransmit simEnv 0x4C (emit (Event.call (IspCall.flushPage a v)) h)).2).2).2).2.world =
      h.world := by
    rw [hc.2]
    cases hw : h.world
    simp only [emit, hw] at hp ⊢
    simp only [hp]
  simp only [ispFlushPage]
  generalize (ispTransmit simEnv 0 (ispTransmit simEnv (a >>> 1) (ispTransmit simEnv (a >>> 9)
      (ispTransmit simEnv 0x4C (emit (Event.call (IspCall.flushPage a v)) h)).2).2).2).2 = H4
    at hw ⊢
  by_cases hF : v = 0xFF
  · rw [if_pos hF]
    exact ⟨_, rfl, hw⟩
  · rw [if_neg hF]
    have hw2 : (readTimer simEnv H4).2.world = h.world := hw
    obtain ⟨h', k1, k2⟩ := sim_poll 0xFF a fuel 29 (readTimer simEnv H4).1 (readTimer simEnv H4).2
      (by rw [hw2]; exact hp) (by rw [hw2, hv]; exact hF)
    exact ⟨h', k1, by rw [k2, hw2]⟩

theorem flags_high_nibble : ∀ f, f < 16 → (f % 256 &&& 0xF0) <<< 4 = 0 := by decide

theorem setup_writeFlash (E : Env W) (fuel : Nat) (data : List Nat) (s : Session) (h : Hw W)
    (hc : byteAt data 1 = USBASP_FUNC_WRITEFLASH) :
    usbFunctionSetup E fuel data s h = some (0xff, writeFlashSession data s, h) := by
  simp only [usbFunctionSetup, hc, USBASP_FUNC_WRITEFLASH, USBASP_FUNC_CONNECT,
      USBASP_FUNC_DISCONNECT, USBASP_FUNC_TRANSMIT, USBASP_FUNC_READFLASH,
      USBASP_FUNC_READEEPROM, USBASP_FUNC_ENABLEPROG, if_true]
  simp only [writeFlashSession]
  by_cases hm : s.prog_address_newmode = 0 <;>
    by_cases hf : (byteAt data 5 &&& 0x0F) &&& PROG_BLOCKFLAG_FIRST ≠ 0 <;>
    simp [hm, hf]

theorem setup_writeFlash_unpaged (E : Env W) (fuel a f : Nat) (s : Session) (h : Hw W)
    (hf : f < 16) (hm : s.prog_address_newmode = 0) :
    ∃ s1, usbFunctionSetup E fuel [0, USBASP_FUNC_WRITEFLASH, a % 256, a / 256, 0, f, 1, 0] s h
        = some (0xff, s1, h) ∧
      s1.prog_state = ProgState.writeFlash ∧ s1.prog_pagesize = 0 ∧ s1.prog_nbytes = 1 ∧
      s1.prog_address_newmode = 0 ∧
      s1.prog_address = legacyAddress [0, USBASP_FUNC_WRITEFLASH, a % 256, a / 256, 0, f, 1, 0] := by
  have hz := flags_high_nibble f hf
  refine ⟨_, setup_writeFlash E fuel _ s h rfl, rfl, ?_, ?_, hm, ?_⟩
  · show (byteAt _ 4 + ((byteAt _ 5 &&& 0xF0) <<< 4) % 65536) % 65536 = 0
    simp only [byteAt, List.getD_cons_succ, List.getD_cons_zero, hz]
  · show transferLength _ = 1
    simp [transferLength, byteAt]
  · show (if s.prog_address_newmode = 0 then _ else _) = _
    rw [if_pos hm]

theorem setup_readFlash_legacy (E : Env W) (fuel : Nat) (data : List Nat) (s : Session)
    (h : Hw W) (hc : byteAt data 1 = USBASP_FUNC_READFLASH) (hm : s.prog_address_newmode = 0) :
    usbFunctionSetup E fuel data s h =
      some (0xff, { s with prog_address := legacyAddress data,
                           prog_nbytes := transferLength data,
                           prog_state := ProgState.readFlash }, h) := by
  simp only [usbFunctionSetup, hc, USBASP_FUNC_WRITEFLASH, USBASP_FUNC_CONNECT,
      USBASP_FUNC_DISCONNECT, USBASP_FUNC_TRANSMIT, USBASP_FUNC_READFLASH, hm, if_true]
  rfl

theorem loopPure_newmode (data : List Nat) (rv : Nat) (s : Session) :
    (loopPure data rv s).2.2.prog_address_newmode = s.prog_address_newmode := by
  induction data generalizing rv s with
  | nil => rfl
  | cons b bs ih =>
    simp only [loopPure]
    rw [ih]
    have h1 : (countSess rv (memSess s)).2.prog_address_newmode
        = (memSess s).prog_address_newmode := by
      unfold countSess; split <;> rfl
    have h2 : (memSess s).prog_address_newmode = s.prog_address_newmode := by
      unfold memSess; split <;> rfl
    rw [h1, h2]

theorem sim_write_one (fuel b : Nat) (s : Session) (h : Hw SimTarget) (hb : b < 256)
    (hst : s.prog_state = ProgState.writeFlash) (hps : s.prog_pagesize = 0)
    (hn : s.prog_nbytes = 1) (hp : h.world.pending = []) :
    ∃ x, usbFunctionWrite simEnv (fuel + 1) [b] s h = some x ∧
      x.2.1.prog_address_newmode = s.prog_address_newmode ∧
      x.2.2.world = { mem := fun c => if c = cellOf s.prog_address then b else h.world.mem c,
                      pending := [] } := by
  have hne : ¬ (s.prog_state ≠ ProgState.writeFlash ∧ s.prog_state ≠ ProgState.writeEEPROM) := by
    simp [hst]
  obtain ⟨hA, w1, w2⟩ := sim_writeFlash fuel s.prog_address b h hp hb
  have hmem : writeMem simEnv (fuel + 1) (b % 256) s h = some (s, hA) := by
    simp only [writeMem, hst, if_true, hps, Nat.mod_eq_of_lt hb, w1, Option.some_bind]
  have hcnt : ∃ c, writeCount simEnv (fuel + 1) (b % 256) 0 s hA = some c ∧
      c.2.2.world = hA.world := by
    have c1 : (s.prog_nbytes + 65535) % 65536 = 0 := by rw [hn]
    simp only [writeCount, c1, if_true]
    split
    · obtain ⟨hB, f1, f2⟩ := sim_flushPage fuel s.prog_address (b % 256) hA (by rw [w2])
        (by rw [w2]; simp)
      exact ⟨_, by rw [f1]; rfl, f2⟩
    · exact ⟨_, rfl, rfl⟩
  obtain ⟨c, hc1, hc2⟩ := hcnt
  have hrun : usbFunctionWrite simEnv (fuel + 1) [b] s h = some c := by
    simp only [usbFunctionWrite, if_neg hne, writeLoop, hmem, Option.some_bind, hc1]
  refine ⟨c, hrun, ?_, by rw [hc2, w2]⟩
  have hp2 := (usbFunctionWrite_pure simEnv [b] hrun).1
  have e2 : c.2.1 = (writePure [b] s).2.2 := by rw [← hp2]
  rw [e2, writePure, if_neg hne]
  exact loopPure_newmode [b] 0 s

/-- C7: against the simulated target memory, in sync and with extended
addressing off, for every byte `b`, every legacy address field `a` and every
block-flag nibble `f`: a WriteFlash command for `a` with page size 0 and length
1, the write packet `[b]`, a ReadFlash command for `a` and a one-byte read
packet deliver `[b]` to the host (for every bound of at least 1 on the poll
loop iterations). -/
theorem C7_round_trip (fuel a f b : Nat) (s : Session) (h : Hw SimTarget)
    (hb : b < 256) (hf : f < 16) (hm : s.prog_address_newmode = 0)
    (hp : h.world.pending = []) :
    roundTrip simEnv (fuel + 1) a f b s h = some [b] := by
  obtain ⟨s1, e1, st1, ps1, n1, m1, a1⟩ := setup_writeFlash_unpaged simEnv (fuel + 1) a f s h hf hm
  obtain ⟨x, e2, m2, w2⟩ := sim_write_one fuel b s1 h hb st1 ps1 n1 hp
  have e3 := setup_readFlash_legacy simEnv (fuel + 1)
    [0, USBASP_FUNC_READFLASH, a % 256, a / 256, 0, 0, 1, 0] x.2.1 x.2.2 rfl (by rw [m2, m1])
  have hA : legacyAddress [0, USBASP_FUNC_READFLASH, a % 256, a / 256, 0, 0, 1, 0]
      = s1.prog_address := by rw [a1]; rfl
  rw [hA] at e3
  simp only [roundTrip, e1, Option.some_bind, e2, e3]
  have hr := sim_readFlash s1.prog_address x.2.2 (by rw [w2])
  have hne : ¬ ((ProgState.readFlash : ProgState) ≠ ProgState.readFlash ∧
      (ProgState.readFlash : ProgState) ≠ ProgState.readEEPROM) := by simp
  simp only [usbFunctionRead, if_neg hne, readFill, if_true, hr.1, w2, Nat.mod_eq_of_lt hb]

/-- C7 at a concrete input: byte 0xA5 at address 0x1234. -/
theorem C7_round_trip_witness :
    (0xA5 : Nat) < 256 ∧ (0 : Nat) < 16 ∧ session0.prog_address_newmode = 0 ∧
    hwSim.world.pending = [] ∧ roundTrip simEnv 1 0x1234 0 0xA5 session0 hwSim = some [0xA5] :=
  ⟨by decide, by decide, rfl, rfl,
   C7_round_trip 0 0x1234 0 0xA5 session0 hwSim (by decide) (by decide) rfl rfl⟩

/-! ## C8: extended against legacy addressing -/

/-- C8 at the failing input `A = 0x8000`, `N = 1`, from the start-up session
(extended addressing off): the legacy command stores `0xFFFF8000` in
`prog_address` (sign extension of the 16 bit `int`), so the first operand byte
sent is 0xC0, where the extended run sends 0x40; against a target whose cell
0x8000 holds 0xAA the extended run delivers 0xAA and the legacy run 0x55. -/
theorem C8_failing_input :
    legacyAddress [0, USBASP_FUNC_READFLASH, 0x8000 % 256, 0x8000 / 256 % 256, 0, 0, 1, 0]
      = 0xFFFF8000 ∧
    sentBytes (readExtended idleEnv 0x8000 1 session0 hw0) = some [0x20, 0x40, 0x00, 0x00] ∧
    sentBytes (readLegacy idleEnv 0x8000 1 session0 hw0) = some [0x20, 0xC0, 0x00, 0x00] ∧
    (readExtended simEnv 0x8000 1 session0 hwSimMarked).map (fun x => x.1) = some [[0xAA]] ∧
    (readLegacy simEnv 0x8000 1 session0 hwSimMarked).map (fun x => x.1) = some [[0x55]] := by
  refine ⟨by decide, by decide, by decide, by decide, by decide⟩

theorem shl8_or (x y : Nat) (hy : y < 256) : (x <<< 8) ||| y = 256 * x + y := by
  have h := Nat.mul_add_lt_is_or (i := 8) (b := y) (by simpa using hy) x
  rw [Nat.shiftLeft_eq, Nat.mul_comm]
  exact h.symm

theorem byteAt_lt (data : List Nat) (i : Nat) : byteAt data i < 256 :=
  Nat.mod_lt _ (by decide)

theorem legacyAddress_eq (data : List Nat) :
    legacyAddress data =
      if 256 * byteAt data 3 + byteAt data 2 < 32768 then 256 * byteAt data 3 + byteAt data 2
      else 256 * byteAt data 3 + byteAt data 2 + 4294901760 := by
  have h2 := byteAt_lt data 2
  have h3 := byteAt_lt data 3
  have e : (256 * byteAt data 3 + byteAt data 2) % 65536 = 256 * byteAt data 3 + byteAt data 2 := by
    omega
  simp only [legacyAddress, shl8_or _ _ h2, e]

theorem transferLength_eq (data : List Nat) :
    transferLength data = 256 * byteAt data 7 + byteAt data 6 := by
  have h6 := byteAt_lt data 6
  have h7 := byteAt_lt data 7
  simp only [transferLength, shl8_or _ _ h6]
  omega

theorem setup_setLongAddress (E : Env W) (fuel : Nat) (data : List Nat) (s : Session)
    (h : Hw W) (hc : byteAt data 1 = USBASP_FUNC_SETLONGADDRESS) :
    usbFunctionSetup E fuel data s h =
      some (0, { s with prog_address_newmode := 1, prog_address := longAddress data }, h) := by
  simp only [usbFunctionSetup, hc, USBASP_FUNC_WRITEFLASH, USBASP_FUNC_CONNECT,
      USBASP_FUNC_DISCONNECT, USBASP_FUNC_TRANSMIT, USBASP_FUNC_READFLASH,
      USBASP_FUNC_READEEPROM, USBASP_FUNC_ENABLEPROG, USBASP_FUNC_WRITEEEPROM,
      USBASP_FUNC_SETLONGADDRESS, if_true]
  rfl

theorem setup_readFlash_extended (E : Env W) (fuel : Nat) (data : List Nat) (s : Session)
    (h : Hw W) (hc : byteAt data 1 = USBASP_FUNC_READFLASH) (hm : s.prog_address_newmode ≠ 0) :
    usbFunctionSetup E fuel data s h =
      some (0xff, { s with prog_nbytes := transferLength data,
                           prog_state := ProgState.readFlash }, h) := by
  simp only [usbFunctionSetup, hc, USBASP_FUNC_WRITEFLASH, USBASP_FUNC_CONNECT,
      USBASP_FUNC_DISCONNECT, USBASP_FUNC_TRANSMIT, USBASP_FUNC_READFLASH, hm, if_true, if_false]
  rfl

/-- The bytes a bulk read delivers and the state of the hardware after it depend
on the session only through its state and its address. -/
theorem bulkRead_congr (E : Env W) (lens : List Nat) (s s' : Session) (h : Hw W)
    (hst : s.prog_state = s'.prog_state) (ha : s.prog_address = s'.prog_address) :
    (bulkRead E lens s h).1 = (bulkRead E lens s' h).1 ∧
    (bulkRead E lens s h).2.2 = (bulkRead E lens s' h).2.2 := by
  induction lens generalizing s s' h with
  | nil => exact ⟨rfl, rfl⟩
  | cons len lens ih =>
    have hr : (usbFunctionRead E len s h).2.1 = (usbFunctionRead E len s' h).2.1 ∧
        (usbFunctionRead E len s h).2.2.2 = (usbFunctionRead E len s' h).2.2.2 ∧
        (usbFunctionRead E len s h).2.2.1.prog_state
          = (usbFunctionRead E len s' h).2.2.1.prog_state ∧
        (usbFunctionRead E len s h).2.2.1.prog_address
          = (usbFunctionRead E len s' h).2.2.1.prog_address := by
      simp only [usbFunctionRead, readFill_eq, hst, ha]
      split
      · exact ⟨rfl, rfl, hst, ha⟩
      · split <;> exact ⟨rfl, rfl, rfl, rfl⟩
    obtain ⟨r1, r2, r3, r4⟩ := hr
    obtain ⟨i1, i2⟩ := ih (usbFunctionRead E len s h).2.2.1 (usbFunctionRead E len s' h).2.2.1
      (usbFunctionRead E len s h).2.2.2 r3 r4
    simp only [bulkRead]
    rw [r1, i1, i2, r2]
    exact ⟨rfl, rfl⟩

/-- Extended and legacy addressing agree below 0x8000: for every address
`A < 0x8000`, every `N` and every target, starting with extended addressing off,
the two ways of reading `N` bytes deliver the same packets and leave the same
hardware state and trace (so the same bytes were exchanged with the target). -/
theorem extended_eq_legacy_below_8000 (E : Env W) (A N : Nat) (s : Session) (h : Hw W)
    (hA : A < 32768) (hm : s.prog_address_newmode = 0) :
    (readExtended E A N s h).map (fun x => (x.1, x.2.2)) =
      (readLegacy E A N s h).map (fun x => (x.1, x.2.2)) := by
  have e1 := setup_setLongAddress E 0 [0, USBASP_FUNC_SETLONGADDRESS, A % 256, A / 256 % 256,
    A / 65536 % 256, A / 16777216 % 256, 0, 0] s h rfl
  have e2 := setup_readFlash_extended E 0
    [0, USBASP_FUNC_READFLASH, 0, 0, 0, 0, N % 256, N / 256 % 256]
    { s with prog_address_newmode := 1,
             prog_address := longAddress [0, USBASP_FUNC_SETLONGADDRESS, A % 256, A / 256 % 256,
               A / 65536 % 256, A / 16777216 % 256, 0, 0] } h rfl
    (by show (1 : Nat) ≠ 0; decide)
  have e3 := setup_readFlash_legacy E 0
    [0, USBASP_FUNC_READFLASH, A % 256, A / 256 % 256, 0, 0, N % 256, N / 256 % 256] s h rfl hm
  have hl : longAddress [0, USBASP_FUNC_SETLONGADDRESS, A % 256, A / 256 % 256,
      A / 65536 % 256, A / 16777216 % 256, 0, 0] = A := by
    simp only [longAddress, byteAt, List.getD_cons_succ, List.getD_cons_zero]
    omega
  have hg : legacyAddress [0, USBASP_FUNC_READFLASH, A % 256, A / 256 % 256, 0, 0, N % 256,
      N / 256 % 256] = A := by
    rw [legacyAddress_eq]
    simp only [byteAt, List.getD_cons_succ, List.getD_cons_zero]
    have : 256 * (A / 256 % 256 % 256) + A % 256 % 256 = A := by omega
    rw [this, if_pos hA]
  rw [hl] at e1 e2
  rw [hg] at e3
  simp only [readExtended, readLegacy, e1, e2, e3, Option.some_bind, Option.map_some']
  have hc := bulkRead_congr E (List.replicate (N / 8) 8 ++ [N % 8])
    { s with prog_address_newmode := 1, prog_address := A,
             prog_nbytes := transferLength [0, USBASP_FUNC_READFLASH, 0, 0, 0, 0, N % 256,
               N / 256 % 256],
             prog_state := ProgState.readFlash }
    { s with prog_address := A,
             prog_nbytes := transferLength [0, USBASP_FUNC_READFLASH, A % 256, A / 256 % 256,
               0, 0, N % 256, N / 256 % 256],
             prog_state := ProgState.readFlash } h rfl rfl
  rw [hc.1, hc.2]

/-! ## C1: page boundaries -/

/-- C1 at the failing input: page size 257 (`data[4] = 1`, high nibble of
`data[5]` = 1), first-block flag set, length 257. The 8 bit `prog_pagecounter`
is loaded with `257 mod 256 = 1`, so every byte of the first packet is followed
by an `ispFlushPage`, where the first flush is due after byte 257. -/
theorem C1_failing_input :
    (usbFunctionSetup (tickEnv 0) 1 [0, USBASP_FUNC_WRITEFLASH, 0, 0, 1, 0x11, 1, 1]
        session0 hwT).map (fun r => (r.2.1.prog_pagesize, r.2.1.prog_pagecounter,
          r.2.1.prog_nbytes)) = some (257, 1, 257) ∧
    ((usbFunctionSetup (tickEnv 0) 1 [0, USBASP_FUNC_WRITEFLASH, 0, 0, 1, 0x11, 1, 1]
        session0 hwT).bind fun r =>
      (usbFunctionWrite (tickEnv 0) 1 [10, 11, 12] r.2.1 r.2.2).map fun x =>
        progCalls x.2.2.trace) =
      some [IspCall.writeFlash 0 10 0, IspCall.flushPage 0 10,
            IspCall.writeFlash 1 11 0, IspCall.flushPage 1 11,
            IspCall.writeFlash 2 12 0, IspCall.flushPage 2 12] := by
  refine ⟨by decide, by decide⟩

theorem loopPure_cons (b : Nat) (bs : List Nat) (rv : Nat) (s : Session) :
    loopPure (b :: bs) rv s =
      (memCalls (b % 256) s ++ countCalls (b % 256) (memSess s) ++
        (loopPure bs (countSess rv (memSess s)).1 (countSess rv (memSess s)).2).1,
       (loopPure bs (countSess rv (memSess s)).1 (countSess rv (memSess s)).2).2) := rfl

/-- One page: from a page counter equal to the number of bytes left in the page,
the writes of those bytes end with the flush at the page boundary, and nothing
else is flushed. -/
theorem loopPure_page (data : List Nat) (rv : Nat) (s : Session)
    (hst : s.prog_state = ProgState.writeFlash)
    (hps : s.prog_pagesize ≠ 0) (hps2 : s.prog_pagesize ≤ 255)
    (hlen : data.length = s.prog_pagecounter) (h1 : 1 ≤ s.prog_pagecounter)
    (hpc : s.prog_pagecounter ≤ 255)
    (hn : s.prog_nbytes < 65536) (hnl : data.length ≤ s.prog_nbytes)
    (hA : s.prog_address < 4294967296) :
    (loopPure data rv s).1 = pagedWrites s.prog_address data ++
      [IspCall.flushPage ((s.prog_address + data.length - 1) % 4294967296)
        (data.getD (data.length - 1) 0 % 256)] ∧
    (loopPure data rv s).2.2 =
      { s with prog_pagecounter := s.prog_pagesize,
               prog_nbytes := s.prog_nbytes - data.length,
               prog_address := (s.prog_address + data.length) % 4294967296,
               prog_state := if s.prog_nbytes = data.length then ProgState.idle
                             else s.prog_state } := by
  induction data generalizing rv s with
  | nil => simp only [List.length_nil] at hlen; omega
  | cons b bs ih =>
    simp only [List.length_cons] at hlen hnl
    cases bs with
    | nil =>
      simp only [List.length_nil] at hlen hnl
      have hc0 : (s.prog_pagecounter + 255) % 256 = 0 := by omega
      have hmem : memSess s = { s with prog_pagecounter := s.prog_pagesize } := by
        have : s.prog_pagesize % 256 = s.prog_pagesize := by omega
        simp [memSess, hst, hps, hc0, this]
      have hmc : memCalls (b % 256) s = [IspCall.writeFlash s.prog_address (b % 256) 0,
          IspCall.flushPage s.prog_address (b % 256)] := by
        simp [memCalls, hst, hps, hc0]
      have hcc : countCalls (b % 256) { s with prog_pagecounter := s.prog_pagesize } = [] := by
        simp [countCalls]
      have ea : (s.prog_address + 1 - 1) % 4294967296 = s.prog_address := by omega
      simp only [loopPure, hmc, hmem, hcc, pagedWrites, List.length_cons, List.length_nil,
        ea, List.getD_cons_zero]
      refine ⟨by simp, ?_⟩
      by_cases hn1 : s.prog_nbytes = 1
      · have c1 : (s.prog_nbytes + 65535) % 65536 = 0 := by omega
        simp [countSess, c1, hn1]
      · have c1 : (s.prog_nbytes + 65535) % 65536 = s.prog_nbytes - 1 := by omega
        have c0 : ¬ (s.prog_nbytes - 1 = 0) := by omega
        have c2 : ¬ (s.prog_nbytes = 0 + 1) := by omega
        simp [countSess, c1, c0, c2]
    | cons c cs =>
      simp only [List.length_cons] at hlen hnl
      have hc1 : (s.prog_pagecounter + 255) % 256 = s.prog_pagecounter - 1 := by omega
      have hc0 : ¬ (s.prog_pagecounter - 1 = 0) := by omega
      have hmem : memSess s = { s with prog_pagecounter := s.prog_pagecounter - 1 } := by
        simp [memSess, hst, hps, hc1, hc0]
      have hmc : memCalls (b % 256) s = [IspCall.writeFlash s.prog_address (b % 256) 0] := by
        simp [memCalls, hst, hps, hc1, hc0]
      have c1 : (s.prog_nbytes + 65535) % 65536 = s.prog_nbytes - 1 := by omega
      have c0 : ¬ (s.prog_nbytes - 1 = 0) := by omega
      have hcc : countCalls (b % 256)
          { s with prog_pagecounter := s.prog_pagecounter - 1 } = [] := by
        simp [countCalls, c1, c0]
      have hcs : (countSess rv { s with prog_pagecounter := s.prog_pagecounter - 1 }).2
          = { s with prog_pagecounter := s.prog_pagecounter - 1,
                     prog_nbytes := s.prog_nbytes - 1,
                     prog_address := (s.prog_address + 1) % 4294967296 } := by
        simp [countSess, c1, c0]
      obtain ⟨r1, r2⟩ := loopPure_rv (c :: cs)
        (countSess rv { s with prog_pagecounter := s.prog_pagecounter - 1 }).1 0
        (countSess rv { s with prog_pagecounter := s.prog_pagecounter - 1 }).2
      obtain ⟨i1, i2⟩ := ih 0
        { s with prog_pagecounter := s.prog_pagecounter - 1,
                 prog_nbytes := s.prog_nbytes - 1,
                 prog_address := (s.prog_address + 1) % 4294967296 }
        hst hps hps2
        (by show (c :: cs).length = s.prog_pagecounter - 1
            simp only [List.length_cons]; omega)
        (by show 1 ≤ s.prog_pagecounter - 1; omega)
        (by show s.prog_pagecounter - 1 ≤ 255; omega)
        (by show s.prog_nbytes - 1 < 65536; omega)
        (by show (c :: cs).length ≤ s.prog_nbytes - 1
            simp only [List.length_cons]; omega)
        (Nat.mod_lt _ (by decide))
      rw [loopPure_cons, hmc, hmem, hcc, r1, r2, hcs, i1, i2]
      simp only [pagedWrites, List.length_cons]
      have ea : ((s.prog_address + 1) % 4294967296 + (cs.length + 1) - 1) % 4294967296
          = (s.prog_address + (cs.length + 1 + 1) - 1) % 4294967296 := by omega
      have eb : ((s.prog_address + 1) % 4294967296 + (cs.length + 1)) % 4294967296
          = (s.prog_address + (cs.length + 1 + 1)) % 4294967296 := by omega
      have ec : (s.prog_nbytes - 1 = cs.length + 1) ↔ (s.prog_nbytes = cs.length + 1 + 1) := by
        omega
      have ed : s.prog_nbytes - 1 - (cs.length + 1) = s.prog_nbytes - (cs.length + 1 + 1) := by
        omega
      simp only [List.length_cons, ea, eb, ec, ed]
      refine ⟨by simp, trivial⟩

theorem loopPure_pages (p m : Nat) (data : List Nat) (rv : Nat) (s : Session)
    (hst : 0 < m → s.prog_state = ProgState.writeFlash)
    (hps : s.prog_pagesize = p) (hp1 : 1 ≤ p) (hp2 : p ≤ 255)
    (hpc : s.prog_pagecounter = p) (hlen : data.length = p * m)
    (hn : s.prog_nbytes = p * m) (hn2 : s.prog_nbytes < 65536)
    (hA : s.prog_address < 4294967296) :
    (loopPure data rv s).1 = pageBlocks p m s.prog_address data := by
  induction m generalizing data rv s with
  | zero =>
    have : data = [] := List.length_eq_zero.mp (by rw [hlen]; simp)
    subst this
    rfl
  | succ m ih =>
    have hmul : p * (m + 1) = p * m + p := by ring
    rw [hmul] at hlen hn
    have hst' := hst (Nat.succ_pos m)
    have hd : data = data.take p ++ data.drop p := (List.take_append_drop p data).symm
    have l1 : (data.take p).length = p := by rw [List.length_take]; omega
    have l2 : (data.drop p).length = p * m := by rw [List.length_drop]; omega
    obtain ⟨c1, c2⟩ := loopPure_page (data.take p) rv s hst' (by omega) (by omega)
      (by rw [l1, hpc]) (by omega) (by omega) hn2 (by rw [l1]; omega) hA
    have hrec := ih (data.drop p) (loopPure (data.take p) rv s).2.1 (loopPure (data.take p) rv s).2.2
      (by
        intro hm
        rw [c2]
        show (if s.prog_nbytes = (data.take p).length then ProgState.idle else s.prog_state) = _
        rw [l1, if_neg (by
          have : 0 < p * m := Nat.mul_pos (by omega) hm
          omega)]
        exact hst')
      (by rw [c2]; exact hps)
      (by rw [c2]; exact hps)
      l2
      (by rw [c2]; show s.prog_nbytes - (data.take p).length = p * m; rw [l1]; omega)
      (by rw [c2]; show s.prog_nbytes - (data.take p).length < 65536; omega)
      (by rw [c2]; exact Nat.mod_lt _ (by decide))
    have hadr : (loopPure (data.take p) rv s).2.2.prog_address
        = (s.prog_address + p) % 4294967296 := by
      rw [c2]; show (s.prog_address + (data.take p).length) % 4294967296 = _; rw [l1]
    rw [hadr] at hrec
    conv_lhs => rw [hd]
    rw [loopPure_append, hrec, c1, l1]
    rfl

/-- For page sizes that fit the 8 bit page counter the page-boundary property of
C1 holds: a WriteFlash command with the first-block flag set, page size
`1 <= p <= 255` and length `L = p * m`, followed by write packets holding `L`
bytes in all, completes (under a running tick source) with the programming calls
of `m` whole pages: the `p` writes of each page followed by one `ispFlushPage`
at the page's last byte, `m` flushes in all. -/
theorem paged_transfer_small_pages (E : Env W) (data : List Nat)
    (pkts : List (List Nat)) (s : Session) (h : Hw W) (m : Nat)
    (hcmd : byteAt data 1 = USBASP_FUNC_WRITEFLASH)
    (hfirst : (byteAt data 5 &&& 0x0F) &&& PROG_BLOCKFLAG_FIRST ≠ 0)
    (hp1 : 1 ≤ (writeFlashSession data s).prog_pagesize)
    (hp2 : (writeFlashSession data s).prog_pagesize ≤ 255)
    (hL : transferLength data = (writeFlashSession data s).prog_pagesize * m)
    (hbytes : pkts.flatten.length = transferLength data)
    (hA : (writeFlashSession data s).prog_address < 4294967296) :
    (TickLive E → ∃ fuel, ((usbFunctionSetup E fuel data s h).bind fun r =>
        bulkWrite E fuel pkts r.2.1 r.2.2).isSome = true) ∧
    ∀ fuel x, ((usbFunctionSetup E fuel data s h).bind fun r =>
        bulkWrite E fuel pkts r.2.1 r.2.2) = some x →
      progCalls x.2.2.trace = progCalls h.trace ++
        pageBlocks (writeFlashSession data s).prog_pagesize m
          (writeFlashSession data s).prog_address pkts.flatten ∧
      flushCount (pageBlocks (writeFlashSession data s).prog_pagesize m
          (writeFlashSession data s).prog_address pkts.flatten) = m := by
  have hset := fun fuel => setup_writeFlash E fuel data s h hcmd
  have hn : (writeFlashSession data s).prog_nbytes = transferLength data := rfl
  have hn2 : transferLength data < 65536 := Nat.mod_lt _ (by decide)
  have hst : (writeFlashSession data s).prog_state = ProgState.writeFlash := rfl
  have hpc : (writeFlashSession data s).prog_pagecounter
      = (writeFlashSession data s).prog_pagesize := by
    show (if (byteAt data 5 &&& 0x0F) &&& PROG_BLOCKFLAG_FIRST ≠ 0 then
      (writeFlashSession data s).prog_pagesize % 256 else s.prog_pagecounter) = _
    rw [if_pos hfirst]
    omega
  constructor
  · intro hlive
    obtain ⟨n, hn⟩ := bulkWrite_terminates E hlive pkts (writeFlashSession data s) h
    exact ⟨n, by rw [hset n]; exact hn⟩
  · intro fuel x hx
    rw [hset fuel] at hx
    obtain ⟨_, _, p3⟩ := bulkWrite_pure E pkts hx
    obtain ⟨f1, _⟩ := bulkPure_flatten pkts (writeFlashSession data s) (Or.inl hst)
      (by rw [hn]; exact hn2) (by rw [hn, hbytes])
    have hp := loopPure_pages (writeFlashSession data s).prog_pagesize m pkts.flatten 0
      (writeFlashSession data s) (fun _ => hst) rfl hp1 hp2 hpc (by rw [hbytes, hL])
      (by rw [hn, hL]) (by rw [hn]; exact hn2) hA
    exact ⟨by rw [p3, f1, hp], flushCount_pageBlocks _ _ _ _⟩

/-! ## C11: the reply of the command dispatcher -/

theorem ispConnect_terminates (E : Env W) (hdelay : DelayLive E) (h : Hw W) :
    ∃ fuel, (ispConnect E fuel h).isSome = true := by
  obtain ⟨n1, d1⟩ := hdelay (ctl E Ctl.sckLow (ctl E Ctl.rstLow (ctl E Ctl.ddrOut h)))
  obtain ⟨y4, h4⟩ := Option.isSome_iff_exists.mp d1
  obtain ⟨n2, d2⟩ := hdelay (ctl E Ctl.rstHigh y4)
  obtain ⟨y6, h6⟩ := Option.isSome_iff_exists.mp d2
  refine ⟨max n1 n2, ?_⟩
  simp only [ispConnect, ispDelay_mono E h4 (Nat.le_max_left _ _), Option.some_bind,
    ispDelay_mono E h6 (Nat.le_max_right _ _), Option.isSome_some]

theorem usbFunctionSetup_terminates (E : Env W) (hdelay : DelayLive E) (data : List Nat)
    (s : Session) (h : Hw W) : ∃ fuel, (usbFunctionSetup E fuel data s h).isSome = true := by
  by_cases c1 : byteAt data 1 = USBASP_FUNC_CONNECT
  · obtain ⟨n, hn⟩ := ispConnect_terminates E hdelay (ctl E Ctl.ledRedOn
      (if E.speedPin h.world = false then ispSetSCKOption ISP_SCK_SLOW h
       else ispSetSCKOption ISP_SCK_FAST h))
    obtain ⟨y, hy⟩ := Option.isSome_iff_exists.mp hn
    exact ⟨n, by simp only [usbFunctionSetup, if_pos c1, hy, Option.some_bind, Option.isSome_some]⟩
  · by_cases c5 : byteAt data 1 = USBASP_FUNC_ENABLEPROG
    · obtain ⟨n, hn⟩ := enterLoop_terminates E hdelay 32
        (emit (Event.call IspCall.enterProgrammingMode) h)
      obtain ⟨y, hy⟩ := Option.isSome_iff_exists.mp hn
      refine ⟨n, ?_⟩
      have hy' : ispEnterProgrammingMode E n h = some y := hy
      have e5 : byteAt data 1 = 5 := c5
      simp [usbFunctionSetup, e5, hy', USBASP_FUNC_CONNECT, USBASP_FUNC_DISCONNECT,
        USBASP_FUNC_TRANSMIT, USBASP_FUNC_READFLASH, USBASP_FUNC_READEEPROM,
        USBASP_FUNC_ENABLEPROG]
    · refine ⟨0, ?_⟩
      simp only [usbFunctionSetup, if_neg c1, if_neg c5]
      split_ifs <;> rfl

theorem enterProgramming_verdict (E : Env W) (fuel : Nat) (h : Hw W) (r : Nat) (h' : Hw W)
    (hx : ispEnterProgrammingMode E fuel h = some (r, h')) :
    ∃ evs, h'.trace = h.trace ++ Event.call IspCall.enterProgrammingMode :: evs ∧
      (r = 0 ↔ 0x53 ∈ third (xchgsOf evs)) ∧ (r = 0 ∨ r = 1) := by
  obtain ⟨evs, fails, e1, _, e3, e4, _, _, e7, _⟩ := enterLoop_spec E fuel 32 _ r h' hx
  refine ⟨evs, ?_, ?_, ?_⟩
  · rw [e1]; simp [emit]
  · constructor
    · intro hr
      rw [e3, if_pos hr]
      simp
    · intro hm
      by_contra hr
      rw [e3, if_neg hr, List.append_nil] at hm
      exact e4 _ hm rfl
  · rcases e7 with e7 | ⟨e7, _⟩
    · exact Or.inl e7
    · exact Or.inr e7

theorem take4_set4 (l : List Nat) (hl : l.length = 8) (a b c d : Nat) :
    ((((l.set 0 a).set 1 b).set 2 c).set 3 d).take 4 = [a, b, c, d] := by
  rcases l with _ | ⟨x0, _ | ⟨x1, _ | ⟨x2, _ | ⟨x3, t⟩⟩⟩⟩ <;> simp at hl ⊢

theorem take1_set1 (l : List Nat) (hl : l.length = 8) (a : Nat) :
    (l.set 0 a).take 1 = [a] := by
  rcases l with _ | ⟨x0, t⟩ <;> simp at hl ⊢

/-- C11: `usbFunctionSetup` returns for every command record, provided the
`ispDelay` calls of Connect and EnableProgramming do (`DelayLive`). Whenever it
returns `len`: for Transmit `len = 4`, the call performed exactly four
exchanges, sending bytes 2, 3, 4, 5 of the record in that order, and reply bytes
0..3 are the bytes received; for EnableProgramming `len = 1` and reply byte 0 is
the result of `ispEnterProgrammingMode`, which is 0 exactly when the third
exchange of an attempt echoed 0x53; for ReadFlash, WriteFlash, ReadEEPROM and
WriteEEPROM `len = 0xff` and the hardware is not touched; for every other code
(Connect, Disconnect, SetExtendedAddress, 0 and 10..255) `len = 0`; and for a
code outside 1..9 the session and the hardware state come back unchanged. The
reply buffer has its 8 bytes. -/
theorem C11_setup_reply (E : Env W) (data : List Nat) (s : Session) (h : Hw W)
    (hbuf : s.replyBuffer.length = 8) :
    (DelayLive E → ∃ fuel, (usbFunctionSetup E fuel data s h).isSome = true) ∧
    ∀ fuel len s' h', usbFunctionSetup E fuel data s h = some (len, s', h') →
      (byteAt data 1 = USBASP_FUNC_TRANSMIT →
        len = 4 ∧ ∃ r0 r1 r2 r3,
          h'.trace = h.trace ++ [Event.xchg (byteAt data 2) r0, Event.xchg (byteAt data 3) r1,
            Event.xchg (byteAt data 4) r2, Event.xchg (byteAt data 5) r3] ∧
          s'.replyBuffer.take 4 = [r0, r1, r2, r3]) ∧
      (byteAt data 1 = USBASP_FUNC_ENABLEPROG →
        len = 1 ∧ ∃ r evs, ispEnterProgrammingMode E fuel h = some (r, h') ∧
          s'.replyBuffer.take 1 = [r] ∧
          h'.trace = h.trace ++ Event.call IspCall.enterProgrammingMode :: evs ∧
          (r = 0 ↔ 0x53 ∈ third (xchgsOf evs))) ∧
      (byteAt data 1 = USBASP_FUNC_READFLASH ∨ byteAt data 1 = USBASP_FUNC_WRITEFLASH ∨
        byteAt data 1 = USBASP_FUNC_READEEPROM ∨ byteAt data 1 = USBASP_FUNC_WRITEEEPROM →
        len = 0xff ∧ h' = h) ∧
      (byteAt data 1 = USBASP_FUNC_CONNECT ∨ byteAt data 1 = USBASP_FUNC_DISCONNECT ∨
        byteAt data 1 = USBASP_FUNC_SETLONGADDRESS ∨ byteAt data 1 = 0 ∨ 9 < byteAt data 1 →
        len = 0) ∧
      (byteAt data 1 = 0 ∨ 9 < byteAt data 1 → s' = s ∧ h' = h) := by
  refine ⟨fun hd => usbFunctionSetup_terminates E hd data s h, ?_⟩
  intro fuel len s' h' hx
  simp only [USBASP_FUNC_CONNECT, USBASP_FUNC_DISCONNECT, USBASP_FUNC_TRANSMIT,
    USBASP_FUNC_READFLASH, USBASP_FUNC_READEEPROM, USBASP_FUNC_ENABLEPROG,
    USBASP_FUNC_WRITEFLASH, USBASP_FUNC_WRITEEEPROM, USBASP_FUNC_SETLONGADDRESS,
    usbFunctionSetup] at hx ⊢
  refine ⟨?_, ?_, ?_, ?_, ?_⟩
  · intro hc
    rw [hc] at hx
    simp only [show (3 : Nat) ≠ 1 by decide, show (3 : Nat) ≠ 2 by decide, if_false, if_true,
      Option.some.injEq, Prod.mk.injEq] at hx
    obtain ⟨rfl, rfl, rfl⟩ := hx
    refine ⟨rfl, _, _, _, _, ?_, take4_set4 _ hbuf _ _ _ _⟩
    simp only [ispTransmit_trace, List.append_assoc, List.singleton_append,
      Nat.mod_eq_of_lt (byteAt_lt _ _)]
    rfl
  · intro hc
    rw [hc] at hx
    simp only [show (5 : Nat) ≠ 1 by decide, show (5 : Nat) ≠ 2 by decide,
      show (5 : Nat) ≠ 3 by decide, show (5 : Nat) ≠ 4 by decide,
      show (5 : Nat) ≠ 7 by decide, if_false, if_true] at hx
    cases hr : ispEnterProgrammingMode E fuel h with
    | none => simp [hr] at hx
    | some r =>
      simp only [hr, Option.some_bind, Option.some.injEq, Prod.mk.injEq] at hx
      obtain ⟨rfl, rfl, rfl⟩ := hx
      obtain ⟨evs, e1, e2, _⟩ := enterProgramming_verdict E fuel h r.1 r.2 hr
      exact ⟨rfl, r.1, evs, rfl, take1_set1 _ hbuf _, e1, e2⟩
  · intro hc
    rcases hc with hc | hc | hc | hc <;> rw [hc] at hx <;>
      simp at hx <;> obtain ⟨rfl, _, rfl⟩ := hx <;> exact ⟨rfl, rfl⟩
  · intro hc
    rcases hc with hc | hc | hc | hc | hc
    · rw [hc] at hx
      simp only [if_true] at hx
      cases hr : ispConnect E fuel (ctl E Ctl.ledRedOn
          (if E.speedPin h.world = false then ispSetSCKOption ISP_SCK_SLOW h
           else ispSetSCKOption ISP_SCK_FAST h)) with
      | none => simp [hr] at hx
      | some y =>
        simp only [hr, Option.some_bind, Option.some.injEq, Prod.mk.injEq] at hx
        exact hx.1.symm
    · rw [hc] at hx
      simp at hx
      exact hx.1.symm
    · rw [hc] at hx
      simp at hx
      exact hx.1.symm
    · rw [hc] at hx
      simp at hx
      exact hx.1.symm
    · have : byteAt data 1 ≠ 1 ∧ byteAt data 1 ≠ 2 ∧ byteAt data 1 ≠ 3 ∧ byteAt data 1 ≠ 4 ∧
          byteAt data 1 ≠ 5 ∧ byteAt data 1 ≠ 6 ∧ byteAt data 1 ≠ 7 ∧ byteAt data 1 ≠ 8 ∧
          byteAt data 1 ≠ 9 := by omega
      obtain ⟨n1, n2, n3, n4, n5, n6, n7, n8, n9⟩ := this
      simp only [if_neg n1, if_neg n2, if_neg n3, if_neg n4, if_neg n5, if_neg n6, if_neg n7,
        if_neg n8, if_neg n9, Option.some.injEq, Prod.mk.injEq] at hx
      exact hx.1.symm
  · intro hc
    have : byteAt data 1 ≠ 1 ∧ byteAt data 1 ≠ 2 ∧ byteAt data 1 ≠ 3 ∧ byteAt data 1 ≠ 4 ∧
        byteAt data 1 ≠ 5 ∧ byteAt data 1 ≠ 6 ∧ byteAt data 1 ≠ 7 ∧ byteAt data 1 ≠ 8 ∧
        byteAt data 1 ≠ 9 := by omega
    obtain ⟨n1, n2, n3, n4, n5, n6, n7, n8, n9⟩ := this
    simp only [if_neg n1, if_neg n2, if_neg n3, if_neg n4, if_neg n5, if_neg n6, if_neg n7,
      if_neg n8, if_neg n9, Option.some.injEq, Prod.mk.injEq] at hx
    exact ⟨hx.2.1.symm, hx.2.2.symm⟩

/-- C11 at a concrete input: EnableProgramming from the start-up session, against a
target that answers 0x53 under a running timer. -/
theorem C11_setup_reply_witness :
    session0.replyBuffer.length = 8 ∧ DelayLive (tickEnv 0x53) ∧
    ∃ fuel, (usbFunctionSetup (tickEnv 0x53) fuel [0, USBASP_FUNC_ENABLEPROG, 0, 0, 0, 0, 0, 0]
      session0 hwT).isSome = true :=
  ⟨rfl, tickEnv_delayLive 0x53,
    (C11_setup_reply (tickEnv 0x53) [0, USBASP_FUNC_ENABLEPROG, 0, 0, 0, 0, 0, 0] session0 hwT
      rfl).1 (tickEnv_delayLive 0x53)⟩

/-! ## C12: the WriteFlash command -/

set_option maxRecDepth 100000 in
theorem high_nibble_shift : ∀ b, b < 256 → (b &&& 0xF0) <<< 4 = 256 * (b / 16) := by decide

set_option maxRecDepth 100000 in
theorem low_nibble : ∀ b, b < 256 → b &&& 0x0F = b % 16 := by decide

set_option maxRecDepth 100000 in
theorem first_flag :
    ∀ b, b < 256 → ((b &&& 0x0F) &&& PROG_BLOCKFLAG_FIRST ≠ 0 ↔ b % 2 = 1) := by decide

theorem writeFlashSession_pagesize (data : List Nat) (s : Session) :
    (writeFlashSession data s).prog_pagesize = byteAt data 4 + 256 * (byteAt data 5 / 16) := by
  have h4 := byteAt_lt data 4
  have h5 := byteAt_lt data 5
  show (byteAt data 4 + ((byteAt data 5 &&& 0xF0) <<< 4) % 65536) % 65536 = _
  rw [high_nibble_shift _ h5]
  omega

/-- The session a WriteFlash command record leaves behind, for every record,
session and target: `usbFunctionSetup` returns 0xff without touching the
hardware, the state is WriteFlash, `prog_pagesize = d[4] + 256 * (d[5] div 16)`
(at most 4095), `prog_blockflags = d[5] mod 16` and
`prog_nbytes = d[6] + 256 * d[7]`. When bit 0 of `d[5]` is set the `uchar` page
counter receives `prog_pagesize mod 256`, which is the page size for page sizes
up to 255; when bit 0 is clear it keeps its value. -/
theorem writeFlash_setup_fields (E : Env W) (fuel : Nat) (data : List Nat) (s : Session) (h : Hw W)
    (hc : byteAt data 1 = USBASP_FUNC_WRITEFLASH) :
    ∃ s', usbFunctionSetup E fuel data s h = some (0xff, s', h) ∧
      s'.prog_state = ProgState.writeFlash ∧
      s'.prog_pagesize = byteAt data 4 + 256 * (byteAt data 5 / 16) ∧
      s'.prog_pagesize ≤ 4095 ∧
      s'.prog_blockflags = byteAt data 5 % 16 ∧
      s'.prog_nbytes = byteAt data 6 + 256 * byteAt data 7 ∧
      (byteAt data 5 % 2 = 1 → s'.prog_pagecounter = s'.prog_pagesize % 256) ∧
      (byteAt data 5 % 2 = 1 → s'.prog_pagesize ≤ 255 →
        s'.prog_pagecounter = s'.prog_pagesize) ∧
      (byteAt data 5 % 2 = 0 → s'.prog_pagecounter = s.prog_pagecounter) := by
  have h4 := byteAt_lt data 4
  have h5 := byteAt_lt data 5
  have hps := writeFlashSession_pagesize data s
  have hpc : (writeFlashSession data s).prog_pagecounter =
      if byteAt data 5 % 2 = 1 then (writeFlashSession data s).prog_pagesize % 256
      else s.prog_pagecounter := by
    show (if (byteAt data 5 &&& 0x0F) &&& PROG_BLOCKFLAG_FIRST ≠ 0 then _ else _) = _
    by_cases hb : byteAt data 5 % 2 = 1
    · rw [if_pos ((first_flag _ h5).mpr hb), if_pos hb]
      rfl
    · rw [if_neg (fun hx => hb ((first_flag _ h5).mp hx)), if_neg hb]
  refine ⟨writeFlashSession data s, setup_writeFlash E fuel data s h hc, rfl, hps, ?_,
    low_nibble _ h5, ?_, ?_, ?_, ?_⟩
  · rw [hps]; omega
  · show transferLength data = _
    rw [transferLength_eq]; omega
  · intro hb
    rw [hpc, if_pos hb]
  · intro hb hsmall
    rw [hpc, if_pos hb]
    exact Nat.mod_eq_of_lt (by omega)
  · intro hb
    rw [hpc, if_neg (by omega)]

/-- A record with page size 128, first and last block, 16 bytes: the page counter
is loaded with 128. -/
theorem writeFlash_setup_fields_example :
    byteAt [0, USBASP_FUNC_WRITEFLASH, 0, 0, 128, 3, 16, 0] 1 = USBASP_FUNC_WRITEFLASH ∧
    ∃ s', usbFunctionSetup idleEnv 0 [0, USBASP_FUNC_WRITEFLASH, 0, 0, 128, 3, 16, 0]
        session0 hw0 = some (0xff, s', hw0) ∧ s'.prog_pagecounter = 128 := by
  obtain ⟨s', e, _, e3, _, _, _, _, e7, _⟩ :=
    writeFlash_setup_fields idleEnv 0 [0, USBASP_FUNC_WRITEFLASH, 0, 0, 128, 3, 16, 0]
      session0 hw0 rfl
  refine ⟨rfl, s', e, ?_⟩
  rw [e7 (by decide) (by rw [e3]; decide), e3]
  decide

/-- C12 at the failing input: the WriteFlash record with `d[4] = 1`, `d[5] = 0x11`
(page size 257, first-block flag set) leaves state WriteFlash, page size 257,
block flags 1 and remaining count 257 as the claim says, but the page counter is
1, not the page size: `prog_pagecounter` is a `uchar` and the assignment
`prog_pagecounter = prog_pagesize` keeps `257 mod 256`. Likewise page size 256
(`d[4] = 0`) loads the counter with 0. -/
theorem C12_failing_input :
    (usbFunctionSetup (tickEnv 0) 0 [0, USBASP_FUNC_WRITEFLASH, 0, 0, 1, 0x11, 1, 1]
        session0 hwT).map (fun r => (r.1, r.2.1.prog_state, r.2.1.prog_pagesize,
          r.2.1.prog_blockflags, r.2.1.prog_nbytes, r.2.1.prog_pagecounter)) =
      some (0xff, ProgState.writeFlash, 257, 1, 257, 1) ∧
    (usbFunctionSetup (tickEnv 0) 0 [0, USBASP_FUNC_WRITEFLASH, 0, 0, 0, 0x11, 0, 1]
        session0 hwT).map (fun r => (r.1, r.2.1.prog_state, r.2.1.prog_pagesize,
          r.2.1.prog_blockflags, r.2.1.prog_nbytes, r.2.1.prog_pagecounter)) =
      some (0xff, ProgState.writeFlash, 256, 1, 256, 0) := by
  refine ⟨by decide, by decide⟩

/-! ## C13: extended addressing -/

theorem readFill_newmode (E : Env W) (n : Nat) (s : Session) (h : Hw W) :
    (readFill E n s h).2.1.prog_address_newmode = s.prog_address_newmode := by
  induction n generalizing s h with
  | zero => rfl
  | succ n ih =>
    simp only [readFill]
    rw [ih]

theorem usbFunctionRead_newmode (E : Env W) (len : Nat) (s : Session) (h : Hw W) :
    (usbFunctionRead E len s h).2.2.1.prog_address_newmode = s.prog_address_newmode := by
  simp only [usbFunctionRead]
  split
  · rfl
  · split
    · exact readFill_newmode E len s h
    · exact readFill_newmode E len s h

theorem usbFunctionWrite_newmode (E : Env W) (fuel : Nat) (data : List Nat) (s : Session)
    (h : Hw W) (x : Nat × Session × Hw W) (hx : usbFunctionWrite E fuel data s h = some x) :
    x.2.1.prog_address_newmode = s.prog_address_newmode := by
  have hp := (usbFunctionWrite_pure E data hx).1
  have h2 : x.2.1 = (writePure data s).2.2 := congrArg Prod.snd hp
  rw [h2]
  simp only [writePure]
  split
  · rfl
  · exact loopPure_newmode data 0 s

/-- C13: `usbFunctionSetup` returns under `DelayLive`, and whenever it returns:
after SetExtendedAddress the address is
`b2 + 256 * b3 + 65536 * b4 + 16777216 * b5` and extended addressing is on
(`prog_address_newmode` is not 0); while it is on, a ReadFlash, WriteFlash,
ReadEEPROM or WriteEEPROM command leaves `prog_address` as it was, whatever the
record holds; Connect switches extended addressing off; every other command
leaves it on when it was on, and every command other than Connect and
SetExtendedAddress leaves the flag as it was. The read and write handlers never
change the flag. -/
theorem C13_extended_addressing (E : Env W) (data : List Nat) (s : Session) (h : Hw W) :
    (DelayLive E → ∃ fuel, (usbFunctionSetup E fuel data s h).isSome = true) ∧
    (∀ fuel len s' h', usbFunctionSetup E fuel data s h = some (len, s', h') →
      (byteAt data 1 = USBASP_FUNC_SETLONGADDRESS →
        s'.prog_address = byteAt data 2 + 256 * byteAt data 3 + 65536 * byteAt data 4 +
          16777216 * byteAt data 5 ∧ s'.prog_address_newmode ≠ 0) ∧
      (s.prog_address_newmode ≠ 0 →
        byteAt data 1 = USBASP_FUNC_READFLASH ∨ byteAt data 1 = USBASP_FUNC_WRITEFLASH ∨
          byteAt data 1 = USBASP_FUNC_READEEPROM ∨ byteAt data 1 = USBASP_FUNC_WRITEEEPROM →
        s'.prog_address = s.prog_address) ∧
      (byteAt data 1 = USBASP_FUNC_CONNECT → s'.prog_address_newmode = 0) ∧
      (byteAt data 1 ≠ USBASP_FUNC_CONNECT → s.prog_address_newmode ≠ 0 →
        s'.prog_address_newmode ≠ 0) ∧
      (byteAt data 1 ≠ USBASP_FUNC_CONNECT → byteAt data 1 ≠ USBASP_FUNC_SETLONGADDRESS →
        s'.prog_address_newmode = s.prog_address_newmode)) ∧
    (∀ len, (usbFunctionRead E len s h).2.2.1.prog_address_newmode = s.prog_address_newmode) ∧
    (∀ fuel pkt x, usbFunctionWrite E fuel pkt s h = some x →
      x.2.1.prog_address_newmode = s.prog_address_newmode) := by
  refine ⟨fun hd => usbFunctionSetup_terminates E hd data s h, ?_,
    fun len => usbFunctionRead_newmode E len s h,
    fun fuel pkt x hx => usbFunctionWrite_newmode E fuel pkt s h x hx⟩
  intro fuel len s' h' hx
  have key : (byteAt data 1 = USBASP_FUNC_CONNECT → s'.prog_address_newmode = 0) ∧
      (byteAt data 1 = USBASP_FUNC_SETLONGADDRESS →
        s'.prog_address = longAddress data ∧ s'.prog_address_newmode = 1) ∧
      (byteAt data 1 ≠ USBASP_FUNC_CONNECT → byteAt data 1 ≠ USBASP_FUNC_SETLONGADDRESS →
        s'.prog_address_newmode = s.prog_address_newmode ∧
        (s.prog_address_newmode ≠ 0 → s'.prog_address = s.prog_address)) := by
    simp only [USBASP_FUNC_CONNECT, USBASP_FUNC_DISCONNECT, USBASP_FUNC_TRANSMIT,
      USBASP_FUNC_READFLASH, USBASP_FUNC_READEEPROM, USBASP_FUNC_ENABLEPROG,
      USBASP_FUNC_WRITEFLASH, USBASP_FUNC_WRITEEEPROM, USBASP_FUNC_SETLONGADDRESS,
      usbFunctionSetup] at hx ⊢
    by_cases c1 : byteAt data 1 = 1
    · rw [if_pos c1] at hx
      cases hr : ispConnect E fuel (ctl E Ctl.ledRedOn
          (if E.speedPin h.world = false then ispSetSCKOption ISP_SCK_SLOW h
           else ispSetSCKOption ISP_SCK_FAST h)) with
      | none => simp [hr] at hx
      | some y =>
        simp only [hr, Option.some_bind, Option.some.injEq, Prod.mk.injEq] at hx
        obtain ⟨_, rfl, _⟩ := hx
        exact ⟨fun _ => rfl, fun c9 => by omega, fun c => absurd c1 c⟩
    · rw [if_neg c1] at hx
      refine ⟨fun c => absurd c c1, ?_⟩
      by_cases c2 : byteAt data 1 = 2
      · rw [if_pos c2] at hx
        simp only [Option.some.injEq, Prod.mk.injEq] at hx
        obtain ⟨_, rfl, _⟩ := hx
        exact ⟨fun c9 => by omega, fun _ _ => ⟨rfl, fun _ => rfl⟩⟩
      rw [if_neg c2] at hx
      by_cases c3 : byteAt data 1 = 3
      · rw [if_pos c3] at hx
        simp only [Option.some.injEq, Prod.mk.injEq] at hx
        obtain ⟨_, rfl, _⟩ := hx
        exact ⟨fun c9 => by omega, fun _ _ => ⟨rfl, fun _ => rfl⟩⟩
      rw [if_neg c3] at hx
      by_cases c4 : byteAt data 1 = 4
      · rw [if_pos c4] at hx
        simp only [Option.some.injEq, Prod.mk.injEq] at hx
        obtain ⟨_, rfl, _⟩ := hx
        refine ⟨fun c9 => by omega, fun _ _ => ?_⟩
        by_cases hm : s.prog_address_newmode = 0
        · simp [hm]
        · simp [hm]
      rw [if_neg c4] at hx
      by_cases c7 : byteAt data 1 = 7
      · rw [if_pos c7] at hx
        simp only [Option.some.injEq, Prod.mk.injEq] at hx
        obtain ⟨_, rfl, _⟩ := hx
        refine ⟨fun c9 => by omega, fun _ _ => ?_⟩
        by_cases hm : s.prog_address_newmode = 0
        · simp [hm]
        · simp [hm]
      rw [if_neg c7] at hx
      by_cases c5 : byteAt data 1 = 5
      · rw [if_pos c5] at hx
        cases hr : ispEnterProgrammingMode E fuel h with
        | none => simp [hr] at hx
        | some r =>
          simp only [hr, Option.some_bind, Option.some.injEq, Prod.mk.injEq] at hx
          obtain ⟨_, rfl, _⟩ := hx
          exact ⟨fun c9 => by omega, fun _ _ => ⟨rfl, fun _ => rfl⟩⟩
      rw [if_neg c5] at hx
      by_cases c6 : byteAt data 1 = 6
      · rw [if_pos c6] at hx
        simp only [Option.some.injEq, Prod.mk.injEq] at hx
        obtain ⟨_, rfl, _⟩ := hx
        refine ⟨fun c9 => by omega, fun _ _ => ?_⟩
        by_cases hm : s.prog_address_newmode = 0
        · simp [hm]
          split <;> rfl
        · simp [hm]
          split <;> simp [hm]
      rw [if_neg c6] at hx
      by_cases c8 : byteAt data 1 = 8
      · rw [if_pos c8] at hx
        simp only [Option.some.injEq, Prod.mk.injEq] at hx
        obtain ⟨_, rfl, _⟩ := hx
        refine ⟨fun c9 => by omega, fun _ _ => ?_⟩
        by_cases hm : s.prog_address_newmode = 0
        · simp [hm]
        · simp [hm]
      rw [if_neg c8] at hx
      by_cases c9 : byteAt data 1 = 9
      · rw [if_pos c9] at hx
        simp only [Option.some.injEq, Prod.mk.injEq] at hx
        obtain ⟨_, rfl, _⟩ := hx
        exact ⟨fun _ => ⟨rfl, rfl⟩, fun _ c => absurd c9 c⟩
      rw [if_neg c9] at hx
      simp only [Option.some.injEq, Prod.mk.injEq] at hx
      obtain ⟨_, rfl, _⟩ := hx
      exact ⟨fun c => absurd c c9, fun _ _ => ⟨rfl, fun _ => rfl⟩⟩
  obtain ⟨k1, k9, ko⟩ := key
  refine ⟨?_, ?_, k1, ?_, fun c1 c9 => (ko c1 c9).1⟩
  · intro c9
    obtain ⟨a, m⟩ := k9 c9
    exact ⟨a, by rw [m]; decide⟩
  · intro hm hc
    have c1 : byteAt data 1 ≠ USBASP_FUNC_CONNECT := by
      rcases hc with c | c | c | c <;> rw [c] <;> decide
    have c9 : byteAt data 1 ≠ USBASP_FUNC_SETLONGADDRESS := by
      rcases hc with c | c | c | c <;> rw [c] <;> decide
    exact (ko c1 c9).2 hm
  · intro c1 hm
    by_cases c9 : byteAt data 1 = USBASP_FUNC_SETLONGADDRESS
    · rw [(k9 c9).2]; decide
    · rw [(ko c1 c9).1]; exact hm

/-! ## C14: the remaining count of a write transfer -/

theorem loopPure_exact (data : List Nat) (rv : Nat) (s : Session)
    (hn : s.prog_nbytes < 65536) (h1 : 1 ≤ s.prog_nbytes) (hl : data.length = s.prog_nbytes) :
    (loopPure data rv s).2.2.prog_state = ProgState.idle ∧
    (loopPure data rv s).2.2.prog_nbytes = 0 := by
  have hne : data ≠ [] := by
    intro h0
    rw [h0] at hl
    simp at hl
    omega
  obtain ⟨init, last, rfl⟩ : ∃ init last, data = init ++ [last] :=
    ⟨data.dropLast, data.getLast hne, (List.dropLast_append_getLast hne).symm⟩
  simp only [List.length_append, List.length_singleton] at hl
  obtain ⟨_, k2⟩ := loopPure_keep init rv s hn (by omega)
  rw [loopPure_append]
  have e : ((memSess (loopPure init rv s).2.2).prog_nbytes + 65535) % 65536 = 0 := by
    rw [memSess_nbytes, k2]; omega
  refine ⟨?_, ?_⟩ <;> simp [loopPure, countSess, e]

/-- C14 as stated fails. In state WriteFlash with remaining count 0 (as a
WriteFlash command of length 0 leaves it) an empty packet leaves the session in
its write state although the remaining count is 0, and a one byte packet wraps
the 16 bit count to 65535, more than before. With remaining count 1 a packet of
two bytes ends in state Idle with remaining count 65535. -/
theorem C14_counterexample :
    ({ sessionWrite3 with prog_nbytes := 0 } : Session).writing ∧
    (usbFunctionWrite (tickEnv 0) 1 [] { sessionWrite3 with prog_nbytes := 0 } hwT).map
      (fun x => (x.2.1.prog_state, x.2.1.prog_nbytes)) = some (ProgState.writeFlash, 0) ∧
    (usbFunctionWrite (tickEnv 0) 1 [5] { sessionWrite3 with prog_nbytes := 0 } hwT).map
      (fun x => (x.2.1.prog_state, x.2.1.prog_nbytes)) = some (ProgState.writeFlash, 65535) ∧
    ({ sessionWrite3 with prog_nbytes := 1 } : Session).writing ∧
    (usbFunctionWrite (tickEnv 0) 1 [5, 6] { sessionWrite3 with prog_nbytes := 1 } hwT).map
      (fun x => (x.2.1.prog_state, x.2.1.prog_nbytes)) = some (ProgState.idle, 65535) := by
  decide

/-- C14 (amended): for a session in a write state with remaining count `r >= 1`
and a write packet of at most `r` bytes, `usbFunctionWrite` (which returns under
a running tick source) leaves the remaining count `r - len`, not greater than
`r`, and the session is Idle afterwards if and only if the remaining count is 0. -/
theorem C14_remaining_within_length (E : Env W) (data : List Nat) (s : Session) (h : Hw W)
    (hs : s.writing) (hn : s.prog_nbytes < 65536) (h1 : 1 ≤ s.prog_nbytes)
    (hl : data.length ≤ s.prog_nbytes) :
    (TickLive E → ∃ fuel, (usbFunctionWrite E fuel data s h).isSome = true) ∧
    ∀ fuel x, usbFunctionWrite E fuel data s h = some x →
      x.2.1.prog_nbytes = s.prog_nbytes - data.length ∧
      x.2.1.prog_nbytes ≤ s.prog_nbytes ∧
      (x.2.1.prog_state = ProgState.idle ↔ x.2.1.prog_nbytes = 0) := by
  refine ⟨fun hlive => usbFunctionWrite_terminates E hlive data s h, ?_⟩
  intro fuel x hx
  have hp := (usbFunctionWrite_pure E data hx).1
  have h2 : x.2.1 = (writePure data s).2.2 := congrArg Prod.snd hp
  have hw : writePure data s = loopPure data 0 s := by
    unfold writePure
    rw [if_neg]
    intro hc
    rcases hs with hs | hs
    · exact hc.1 hs
    · exact hc.2 hs
  rw [h2, hw]
  rcases Nat.lt_or_ge data.length s.prog_nbytes with hlt | hge
  · obtain ⟨k1, k2⟩ := loopPure_keep data 0 s hn hlt
    refine ⟨k2, by rw [k2]; omega, ?_⟩
    rw [k1, k2]
    constructor
    · intro hi
      rcases hs with hs | hs <;> rw [hs] at hi <;> exact absurd hi (by decide)
    · intro h0
      omega
  · have heq : data.length = s.prog_nbytes := Nat.le_antisymm hl hge
    obtain ⟨k1, k2⟩ := loopPure_exact data 0 s hn h1 heq
    refine ⟨by rw [k2]; omega, by rw [k2]; omega, ?_⟩
    rw [k1, k2]
    exact ⟨fun _ => rfl, fun _ => rfl⟩

/-- C14 (amended) at a concrete input: 3 bytes remaining, a packet of 3 bytes. -/
theorem C14_remaining_within_length_witness :
    sessionWrite3.writing ∧ sessionWrite3.prog_nbytes < 65536 ∧ 1 ≤ sessionWrite3.prog_nbytes ∧
    [1, 2, 3].length ≤ sessionWrite3.prog_nbytes ∧ TickLive (tickEnv 0) ∧
    ∃ fuel, (usbFunctionWrite (tickEnv 0) fuel [1, 2, 3] sessionWrite3 hwT).isSome = true :=
  ⟨by decide, by decide, by decide, by decide, tickEnv_live 0,
    (C14_remaining_within_length (tickEnv 0) [1, 2, 3] sessionWrite3 hwT (by decide) (by decide)
      (by decide) (by decide)).1 (tickEnv_live 0)⟩

/-! ## C15: the page counter after a flush -/

theorem flushCount_memCalls (b : Nat) (s : Session)
    (hst : s.prog_state = ProgState.writeFlash) (hps : s.prog_pagesize ≠ 0) :
    flushCount (memCalls b s) = if (s.prog_pagecounter + 255) % 256 = 0 then 1 else 0 := by
  simp only [memCalls, hst, if_true, if_neg hps]
  split <;> rfl

theorem flushCount_countCalls (b : Nat) (s : Session) :
    flushCount (countCalls b s) =
      if (s.prog_nbytes + 65535) % 65536 = 0 ∧ s.prog_blockflags &&& PROG_BLOCKFLAG_LAST ≠ 0 ∧
        s.prog_pagecounter ≠ s.prog_pagesize then 1 else 0 := by
  simp only [countCalls]
  split <;> rfl

theorem countSess_page (rv : Nat) (s : Session) :
    (countSess rv s).2.prog_pagecounter = s.prog_pagecounter ∧
    (countSess rv s).2.prog_pagesize = s.prog_pagesize := by
  unfold countSess
  split <;> exact ⟨rfl, rfl⟩

theorem memSess_pagesize (s : Session) : (memSess s).prog_pagesize = s.prog_pagesize := by
  unfold memSess
  split <;> rfl

/-- C15 as stated fails: page size 128, page counter 100, last-block flag set,
2 bytes remaining. The packet `[1, 2]` ends the transfer, the forced
`ispFlushPage` is the last operation of the call, and the page counter is 98
afterwards, not the page size 128. -/
theorem C15_counterexample :
    (usbFunctionWrite (tickEnv 0) 1 [1, 2] { sessionLast10 with prog_nbytes := 2 } hwT).map
      (fun x => (progCalls x.2.2.trace, x.2.1.prog_pagecounter, x.2.1.prog_pagesize)) =
      some ([IspCall.writeFlash 0x100 1 0, IspCall.writeFlash 0x101 2 0,
             IspCall.flushPage 0x101 2], 98, 128) := by
  decide

/-- C15 (amended): in a paged WriteFlash session with page size at most 255, at
every byte of the loop of `usbFunctionWrite`: the memory step (`writeMem`)
flushes exactly when the decremented page counter is 0, and then the page
counter equals the page size right after the flush; the counting step
(`writeCount`) changes neither page counter nor page size, and when it performs
the forced flush the page counter differs from the page size afterwards. Both
steps return under a running tick source. -/
theorem C15_counter_after_flush (E : Env W) (fuel b rv : Nat) (s : Session) (h : Hw W)
    (hst : s.prog_state = ProgState.writeFlash) (hps : s.prog_pagesize ≠ 0)
    (hsmall : s.prog_pagesize ≤ 255) :
    (TickLive E → ∃ n, (writeMem E n b s h).isSome = true) ∧
    (TickLive E → ∃ n, (writeCount E n b rv s h).isSome = true) ∧
    (∀ s1 h1, writeMem E fuel b s h = some (s1, h1) →
      s1.prog_pagesize = s.prog_pagesize ∧
      ((s.prog_pagecounter + 255) % 256 = 0 →
        flushCount (progCalls h1.trace) = flushCount (progCalls h.trace) + 1 ∧
        s1.prog_pagecounter = s1.prog_pagesize) ∧
      ((s.prog_pagecounter + 255) % 256 ≠ 0 →
        flushCount (progCalls h1.trace) = flushCount (progCalls h.trace))) ∧
    (∀ rv' s2 h2, writeCount E fuel b rv s h = some (rv', s2, h2) →
      s2.prog_pagesize = s.prog_pagesize ∧ s2.prog_pagecounter = s.prog_pagecounter ∧
      (flushCount (progCalls h2.trace) = flushCount (progCalls h.trace) ∨
        (flushCount (progCalls h2.trace) = flushCount (progCalls h.trace) + 1 ∧
          s2.prog_pagecounter ≠ s2.prog_pagesize))) := by
  refine ⟨fun hl => writeMem_terminates E hl b s h, fun hl => writeCount_terminates E hl b rv s h,
    ?_, ?_⟩
  · intro s1 h1 hx
    obtain ⟨e1, e2⟩ := writeMem_sess E hx
    simp only at e1 e2
    rw [e2, flushCount_append, flushCount_memCalls b s hst hps, e1, memSess_pagesize]
    refine ⟨rfl, ?_, ?_⟩
    · intro h0
      refine ⟨by rw [if_pos h0], ?_⟩
      simp only [memSess, hst, true_and, if_pos hps, h0, if_true]
      exact Nat.mod_eq_of_lt (by omega)
    · intro h0
      rw [if_neg h0]
      rfl
  · intro rv' s2 h2 hx
    obtain ⟨e1, e2⟩ := writeCount_sess E hx
    simp only at e1 e2
    have es : s2 = (countSess rv s).2 := congrArg Prod.snd e1
    obtain ⟨p1, p2⟩ := countSess_page rv s
    rw [e2, flushCount_append, flushCount_countCalls, es, p1, p2]
    refine ⟨rfl, rfl, ?_⟩
    split
    · rename_i hc
      exact Or.inr ⟨rfl, hc.2.2⟩
    · exact Or.inl rfl

/-- C15 (amended) at a concrete input: page size 128, page counter 100. -/
theorem C15_counter_after_flush_witness :
    sessionLast10.prog_state = ProgState.writeFlash ∧ sessionLast10.prog_pagesize ≠ 0 ∧
    sessionLast10.prog_pagesize ≤ 255 ∧ TickLive (tickEnv 0) ∧
    ∃ n, (writeMem (tickEnv 0) n 7 sessionLast10 hwT).isSome = true :=
  ⟨by decide, by decide, by decide, tickEnv_live 0,
    (C15_counter_after_flush (tickEnv 0) 1 7 0 sessionLast10 hwT (by decide) (by decide)
      (by decide)).1 (tickEnv_live 0)⟩

/-! ## C16: the write handler ignores the status of the target operations -/

/-- C16: two runs of `usbFunctionWrite` on the same session and the same packet,
against any two targets (of any kind, in any state, with any timer), both return
under a running tick source, and whenever both return they return the same
value and the same session (state, address, remaining count, page counter and
all other fields), having issued the same programming operations with the same
arguments: what the target answers, and so whether `ispWriteFlash` and
`ispFlushPage` succeed or time out, has no influence. -/
theorem C16_status_ignored {W1 W2 : Type} (E1 : Env W1) (E2 : Env W2) (data : List Nat)
    (s : Session) (h1 : Hw W1) (h2 : Hw W2) :
    (TickLive E1 → ∃ fuel, (usbFunctionWrite E1 fuel data s h1).isSome = true) ∧
    (TickLive E2 → ∃ fuel, (usbFunctionWrite E2 fuel data s h2).isSome = true) ∧
    ∀ fuel1 fuel2 x1 x2, usbFunctionWrite E1 fuel1 data s h1 = some x1 →
      usbFunctionWrite E2 fuel2 data s h2 = some x2 →
      x1.1 = x2.1 ∧ x1.2.1 = x2.2.1 ∧
      x1.2.1.prog_state = x2.2.1.prog_state ∧ x1.2.1.prog_address = x2.2.1.prog_address ∧
      x1.2.1.prog_nbytes = x2.2.1.prog_nbytes ∧
      x1.2.1.prog_pagecounter = x2.2.1.prog_pagecounter ∧
      ∃ calls, progCalls x1.2.2.trace = progCalls h1.trace ++ calls ∧
        progCalls x2.2.2.trace = progCalls h2.trace ++ calls := by
  refine ⟨fun hl => usbFunctionWrite_terminates E1 hl data s h1,
    fun hl => usbFunctionWrite_terminates E2 hl data s h2, ?_⟩
  intro fuel1 fuel2 x1 x2 hx1 hx2
  obtain ⟨p1, c1⟩ := usbFunctionWrite_pure E1 data hx1
  obtain ⟨p2, c2⟩ := usbFunctionWrite_pure E2 data hx2
  have e1 : x1.1 = x2.1 := by
    have := congrArg Prod.fst (p1.trans p2.symm)
    exact this
  have e2 : x1.2.1 = x2.2.1 := by
    have := congrArg Prod.snd (p1.trans p2.symm)
    exact this
  refine ⟨e1, e2, by rw [e2], by rw [e2], by rw [e2], by rw [e2], _, c1, c2⟩

/-- Two targets on which the operation status differs: polling a target that always reads back
the busy value 0x7F times out (`ispWriteFlash` returns 1), polling one that reads back 0
succeeds (returns 0); the write handler ends in the same session with the same return value. -/
theorem status_differs_example :
    (ispWriteFlash (tickEnv 0x7F) 200 0 5 1 hwT).map Prod.fst = some 1 ∧
    (ispWriteFlash (tickEnv 0) 200 0 5 1 hwT).map Prod.fst = some 0 ∧
    (usbFunctionWrite (tickEnv 0x7F) 200 [5] sessionWrite3 hwT).map (fun x => (x.1, x.2.1)) =
      (usbFunctionWrite (tickEnv 0) 200 [5] sessionWrite3 hwT).map (fun x => (x.1, x.2.1)) := by
  decide

/-! ## C17: the command bytes of the flash operations -/

theorem flash_opcode (base a : Nat) (hb : base = 0x20 ∨ base = 0x40) :
    (base ||| ((a &&& 1) <<< 3)) % 256 = if a % 2 = 0 then base else base + 8 := by
  rw [opcode_or base a hb]
  rcases Nat.mod_two_eq_zero_or_one a with h | h <;> simp [h]

theorem flash_operands (a : Nat) :
    (a >>> 9) % 256 = a / 512 % 256 ∧ (a >>> 1) % 256 = a / 2 % 256 ∧
    256 * (a / 512 % 256) + a / 2 % 256 = a / 2 % 65536 := by
  refine ⟨by rw [Nat.shiftRight_eq_div_pow], by rw [Nat.shiftRight_eq_div_pow], by omega⟩

/-- C17: `ispReadFlash(a)` performs exactly four exchanges: it sends 0x20 for
even `a` and 0x28 for odd `a`, then `hi = a div 512 mod 256` and
`lo = a div 2 mod 256`, then 0, and returns the byte received in the fourth
exchange; `256 * hi + lo = (a div 2) mod 65536`. `ispWriteFlash(a, d, p)`
(which returns under a running tick source) sends 0x40 resp. 0x48, the same two
operand bytes, then `d`; whatever follows are read-backs of its poll loop, and
nothing follows when `p = 0`. -/
theorem C17_flash_command_bytes (E : Env W) (a d p : Nat) (h : Hw W) :
    (∃ r1 r2 r3, (ispReadFlash E a h).2.trace = h.trace ++
        [Event.call (IspCall.readFlash a),
         Event.xchg (if a % 2 = 0 then 0x20 else 0x28) r1,
         Event.xchg (a / 512 % 256) r2, Event.xchg (a / 2 % 256) r3,
         Event.xchg 0 (ispReadFlash E a h).1]) ∧
    256 * (a / 512 % 256) + a / 2 % 256 = a / 2 % 65536 ∧
    (TickLive E → ∃ fuel, (ispWriteFlash E fuel a d p h).isSome = true) ∧
    (∀ fuel r h', ispWriteFlash E fuel a d p h = some (r, h') →
      ∃ x1 x2 x3 x4 evs, h'.trace = h.trace ++
        [Event.call (IspCall.writeFlash a d p),
         Event.xchg (if a % 2 = 0 then 0x40 else 0x48) x1,
         Event.xchg (a / 512 % 256) x2, Event.xchg (a / 2 % 256) x3,
         Event.xchg (d % 256) x4] ++ evs ∧
        (∀ c ∈ callsOf evs, c = IspCall.readFlash a) ∧ (p = 0 → evs = [])) := by
  obtain ⟨o1, o2, o3⟩ := flash_operands a
  refine ⟨?_, o3, fun hl => ispWriteFlash_terminates E hl a d p h, ?_⟩
  · obtain ⟨r1, r2, r3, e⟩ := ispReadFlash_trace E a h
    refine ⟨r1, r2, r3, ?_⟩
    rw [e]
    simp only [readFlashEvents, flash_opcode 0x20 a (Or.inl rfl), o1, o2]
  · intro fuel r h' hx
    obtain ⟨_, x1, x2, x3, x4, evs, e, ec, ep, _, _⟩ := ispWriteFlash_spec E fuel a d p h r h' hx
    refine ⟨x1, x2, x3, x4, evs, ?_, ec, fun hp => (ep hp).1⟩
    rw [e]
    simp only [writeFlashEvents, flash_opcode 0x40 a (Or.inr rfl), o1, o2]

/-! ## C18: the bit-banged exchange -/

theorem swLoop_mono (E : Env W) (miso : W → Bool) {f g : Nat} (hfg : f ≤ g) :
    ∀ (n send acc : Nat) (h : Hw W) (x : Nat × Hw W),
      swLoop E miso f n send acc h = some x → swLoop E miso g n send acc h = some x := by
  intro n
  induction n with
  | zero => intro send acc h x hx; exact hx
  | succ n ih =>
    intro send acc h x hx
    simp only [swLoop] at hx ⊢
    generalize (if send &&& 0x80 ≠ 0 then ctl E Ctl.mosiHigh h else ctl E Ctl.mosiLow h) = h1
      at hx ⊢
    cases d1 : ispDelay E f (ctl E Ctl.sckHigh (emit (Event.sample (miso h1.world)) h1)) with
    | none => simp [d1] at hx
    | some h4 =>
      rw [ispDelay_mono E d1 hfg]
      simp only [d1, Option.some_bind] at hx ⊢
      cases d2 : ispDelay E f (ctl E Ctl.sckLow h4) with
      | none => simp [d2] at hx
      | some h6 =>
        rw [ispDelay_mono E d2 hfg]
        simp only [d2, Option.some_bind] at hx ⊢
        exact ih _ _ _ _ hx

theorem swLoop_terminates (E : Env W) (miso : W → Bool) (hdelay : DelayLive E) :
    ∀ (n send acc : Nat) (h : Hw W), ∃ fuel, (swLoop E miso fuel n send acc h).isSome = true := by
  intro n
  induction n with
  | zero => intro send acc h; exact ⟨0, rfl⟩
  | succ n ih =>
    intro send acc h
    generalize hh1 : (if send &&& 0x80 ≠ 0 then ctl E Ctl.mosiHigh h
      else ctl E Ctl.mosiLow h) = h1
    obtain ⟨n1, d1⟩ := hdelay (ctl E Ctl.sckHigh (emit (Event.sample (miso h1.world)) h1))
    obtain ⟨h4, e4⟩ := Option.isSome_iff_exists.mp d1
    obtain ⟨n2, d2⟩ := hdelay (ctl E Ctl.sckLow h4)
    obtain ⟨h6, e6⟩ := Option.isSome_iff_exists.mp d2
    obtain ⟨n3, d3⟩ := ih ((send <<< 1) % 256)
      (if miso h1.world then ((acc <<< 1) % 256 + 1) % 256 else (acc <<< 1) % 256) h6
    obtain ⟨x, ex⟩ := Option.isSome_iff_exists.mp d3
    refine ⟨max n1 (max n2 n3), ?_⟩
    have l1 : n1 ≤ max n1 (max n2 n3) := Nat.le_max_left _ _
    have l2 : n2 ≤ max n1 (max n2 n3) :=
      Nat.le_trans (Nat.le_max_left _ _) (Nat.le_max_right _ _)
    have l3 : n3 ≤ max n1 (max n2 n3) :=
      Nat.le_trans (Nat.le_max_right _ _) (Nat.le_max_right _ _)
    simp only [swLoop, hh1, ispDelay_mono E e4 l1, Option.some_bind, ispDelay_mono E e6 l2,
      swLoop_mono E miso l3 _ _ _ _ _ ex, Option.isSome_some]

theorem swLoop_spec (E : Env W) (miso : W → Bool) (fuel : Nat) :
    ∀ (n send acc : Nat) (h : Hw W) (r : Nat) (h' : Hw W),
      swLoop E miso fuel n send acc h = some (r, h') →
      ∃ ins, ins.length = n ∧ h'.trace = h.trace ++ bitPeriods (topBits n send) ins ∧
        r = shiftIn acc ins ∧ h'.hwSpi = h.hwSpi ∧
        ((∀ w, miso (E.ctl Ctl.mosiHigh w) = true ∧ miso (E.ctl Ctl.mosiLow w) = false) →
          ins = topBits n send) := by
  intro n
  induction n with
  | zero =>
    intro send acc h r h' hx
    simp only [swLoop, Option.some.injEq, Prod.mk.injEq] at hx
    obtain ⟨rfl, rfl⟩ := hx
    exact ⟨[], rfl, by simp [bitPeriods, topBits], rfl, rfl, fun _ => rfl⟩
  | succ n ih =>
    intro send acc h r h' hx
    simp only [swLoop] at hx
    generalize hh1 : (if send &&& 0x80 ≠ 0 then ctl E Ctl.mosiHigh h
      else ctl E Ctl.mosiLow h) = h1 at hx
    have t1 : h1.trace = h.trace ++
        [Event.ctl (if decide (send &&& 0x80 ≠ 0) then Ctl.mosiHigh else Ctl.mosiLow)] ∧
        h1.hwSpi = h.hwSpi ∧
        ((∀ w, miso (E.ctl Ctl.mosiHigh w) = true ∧ miso (E.ctl Ctl.mosiLow w) = false) →
          miso h1.world = decide (send &&& 0x80 ≠ 0)) := by
      rw [← hh1]
      by_cases hb : send &&& 0x80 ≠ 0
      · rw [if_pos hb]
        refine ⟨by simp [ctl, hb], rfl, fun hl => ?_⟩
        simp only [ctl, (hl h.world).1]
        exact (decide_eq_true hb).symm
      · rw [if_neg hb]
        refine ⟨by simp [ctl, hb], rfl, fun hl => ?_⟩
        simp only [ctl, (hl h.world).2]
        exact (decide_eq_false hb).symm
    cases d1 : ispDelay E fuel (ctl E Ctl.sckHigh (emit (Event.sample (miso h1.world)) h1)) with
    | none => simp [d1] at hx
    | some h4 =>
      simp only [d1, Option.some_bind] at hx
      cases d2 : ispDelay E fuel (ctl E Ctl.sckLow h4) with
      | none => simp [d2] at hx
      | some h6 =>
        simp only [d2, Option.some_bind] at hx
        obtain ⟨ins, il, it, ir, ispi, ilb⟩ := ih _ _ h6 r h' hx
        obtain ⟨t4, s4⟩ := ispDelay_frame E d1
        obtain ⟨t6, s6⟩ := ispDelay_frame E d2
        refine ⟨miso h1.world :: ins, by simp [il], ?_, ?_, ?_, ?_⟩
        · rw [it, t6]
          simp only [ctl, t4, emit, t1.1, topBits, bitPeriods, List.append_assoc,
            List.singleton_append, List.cons_append, List.nil_append]
        · rw [ir]
          simp only [shiftIn, List.foldl_cons]
        · rw [ispi, s6]
          simp only [ctl, s4, emit, t1.2.1]
        · intro hl
          rw [ilb hl, t1.2.2 hl]
          rfl

set_option maxRecDepth 100000 in
theorem topBits_eq_msbFirst : ∀ s, s < 256 → topBits 8 s = msbFirst s := by decide

set_option maxRecDepth 100000 in
theorem ofMsbFirst_msbFirst : ∀ s, s < 256 → ofMsbFirst (msbFirst s) = s := by decide

theorem msbFold_ge (ins : List Bool) : ∀ acc : Nat,
    acc ≤ ins.foldl (fun a b => 2 * a + b.toNat) acc := by
  induction ins with
  | nil => intro acc; exact Nat.le_refl _
  | cons b t ih =>
    intro acc
    simp only [List.foldl_cons]
    exact Nat.le_trans (by omega) (ih _)

theorem msbFold_lt (ins : List Bool) : ∀ acc : Nat,
    ins.foldl (fun a b => 2 * a + b.toNat) acc + 1 ≤ (acc + 1) * 2 ^ ins.length := by
  induction ins with
  | nil => intro acc; simp
  | cons b t ih =>
    intro acc
    simp only [List.foldl_cons, List.length_cons]
    have hb : b.toNat ≤ 1 := by cases b <;> simp
    calc t.foldl (fun a b => 2 * a + b.toNat) (2 * acc + b.toNat) + 1
        ≤ (2 * acc + b.toNat + 1) * 2 ^ t.length := ih _
      _ ≤ (2 * acc + 2) * 2 ^ t.length := Nat.mul_le_mul_right _ (by omega)
      _ = (acc + 1) * 2 ^ (t.length + 1) := by ring

theorem shiftIn_eq (ins : List Bool) : ∀ acc : Nat,
    ins.foldl (fun a b => 2 * a + b.toNat) acc < 256 →
    shiftIn acc ins = ins.foldl (fun a b => 2 * a + b.toNat) acc := by
  induction ins with
  | nil => intro acc _; rfl
  | cons b t ih =>
    intro acc hlt
    simp only [List.foldl_cons] at hlt
    have hsmall : 2 * acc + b.toNat < 256 :=
      Nat.lt_of_le_of_lt (msbFold_ge t (2 * acc + b.toNat)) hlt
    have hstep : (if b = true then ((acc <<< 1) % 256 + 1) % 256 else (acc <<< 1) % 256) =
        2 * acc + b.toNat := by
      rw [Nat.shiftLeft_eq]
      cases b
      · simp only [Bool.toNat_false] at hsmall ⊢
        simp
        omega
      · simp only [Bool.toNat_true] at hsmall ⊢
        simp
        omega
    simp only [shiftIn, List.foldl_cons]
    rw [hstep]
    exact ih _ hlt

theorem shiftIn_byte (ins : List Bool) (hl : ins.length = 8) :
    shiftIn 0 ins = ofMsbFirst ins := by
  apply shiftIn_eq
  have := msbFold_lt ins 0
  rw [hl] at this
  omega

theorem bitPeriods_proj : ∀ (os is : List Bool), os.length = is.length →
    mosiWrites (bitPeriods os is) = os ∧ samplesOf (bitPeriods os is) = is ∧
    sckWrites (bitPeriods os is) = (List.replicate os.length [true, false]).flatten := by
  intro os
  induction os with
  | nil =>
    intro is hl
    cases is with
    | nil => exact ⟨rfl, rfl, rfl⟩
    | cons i t => simp at hl
  | cons o t ih =>
    intro is hl
    cases is with
    | nil => simp at hl
    | cons i u =>
      simp only [List.length_cons, Nat.add_right_cancel_iff] at hl
      obtain ⟨i1, i2, i3⟩ := ih u hl
      refine ⟨?_, ?_, ?_⟩
      · cases o <;> simp [bitPeriods, mosiWrites] <;> exact i1
      · cases o <;> simp [bitPeriods, samplesOf] <;> exact i2
      · cases o <;> simp [bitPeriods, sckWrites, List.replicate_succ] <;> exact i3

theorem bitPeriods_quiet : ∀ (os is : List Bool),
    callsOf (bitPeriods os is) = [] ∧ xchgsOf (bitPeriods os is) = [] := by
  intro os
  induction os with
  | nil => intro is; exact ⟨rfl, rfl⟩
  | cons o t ih =>
    intro is
    cases is with
    | nil => exact ⟨rfl, rfl⟩
    | cons i u =>
      obtain ⟨i1, i2⟩ := ih u
      exact ⟨by simp [bitPeriods, callsOf] at i1 ⊢; exact i1,
        by simp [bitPeriods, xchgsOf] at i2 ⊢; exact i2⟩

/-- C18: `ispTransmit_sw(s)` returns provided its `ispDelay` calls do
(`DelayLive`). Whenever it returns, its pin events are exactly 8 bit periods,
each consisting of a write to MOSI, a sample of MISO, SCK high, SCK low: the
levels written to MOSI are the bits of `s`, most significant first, SCK is
pulsed exactly 8 times, and the result is the byte whose bits, most significant
first, are the 8 sampled levels in order. With MISO wired to MOSI the result is
`s`. -/
theorem C18_bit_banged_exchange (E : Env W) (miso : W → Bool) (s : Nat) (h : Hw W) :
    (DelayLive E → ∃ fuel, (ispTransmit_sw E miso fuel s h).isSome = true) ∧
    ∀ fuel r h', ispTransmit_sw E miso fuel s h = some (r, h') →
      ∃ evs ins, h'.trace = h.trace ++ evs ∧ ins.length = 8 ∧
        evs = bitPeriods (msbFirst s) ins ∧
        mosiWrites evs = msbFirst s ∧
        sckWrites evs = (List.replicate 8 [true, false]).flatten ∧
        samplesOf evs = ins ∧
        callsOf evs = [] ∧ xchgsOf evs = [] ∧
        r = ofMsbFirst ins ∧
        ((∀ w, miso (E.ctl Ctl.mosiHigh w) = true ∧ miso (E.ctl Ctl.mosiLow w) = false) →
          r = s % 256) := by
  refine ⟨fun hd => swLoop_terminates E miso hd 8 (s % 256) 0 h, ?_⟩
  intro fuel r h' hx
  obtain ⟨ins, il, it, ir, _, ilb⟩ := swLoop_spec E miso fuel 8 (s % 256) 0 h r h' hx
  have hs : s % 256 < 256 := Nat.mod_lt _ (by decide)
  have htop : topBits 8 (s % 256) = msbFirst s := by
    rw [topBits_eq_msbFirst _ hs]
    simp only [msbFirst, Nat.mod_mod]
  have hlen : (msbFirst s).length = ins.length := by
    rw [il]; simp [msbFirst]
  obtain ⟨p1, p2, p3⟩ := bitPeriods_proj (msbFirst s) ins hlen
  rw [htop] at it ilb
  refine ⟨_, ins, it, il, rfl, p1, ?_, p2, ?_, ?_, ?_, ?_⟩
  · rw [p3]; simp [msbFirst]
  · exact (bitPeriods_quiet _ _).1
  · exact (bitPeriods_quiet _ _).2
  · rw [ir, shiftIn_byte ins il]
  · intro hl
    rw [ir, shiftIn_byte ins il, ilb hl]
    have := ofMsbFirst_msbFirst _ hs
    simp only [msbFirst, Nat.mod_mod] at this ⊢
    exact this

/-- The bit-banged exchange on pins with MISO wired to MOSI returns the byte sent. -/
theorem loopback_example :
    (ispTransmit_sw loopEnv loopMiso 1 0xA5 hwLoop).map Prod.fst = some 0xA5 := by
  decide

/-! ## C19: poll or delay in `ispFlushPage` and `ispWriteFlash` -/

theorem clockWaitsOf_append (a b : List Event) :
    clockWaitsOf (a ++ b) = clockWaitsOf a ++ clockWaitsOf b := by
  simp [clockWaitsOf, List.filterMap_append]

theorem pollFlash_events (E : Env W) (busy a : Nat) :
    ∀ (n retries st : Nat) (h : Hw W) (r : Nat) (h' : Hw W),
      pollFlash E busy a n retries st h = some (r, h') →
      ∃ evs, h'.trace = h.trace ++ evs ∧ clockWaitsOf evs = [] ∧
        (retries ≠ 0 → IspCall.readFlash a ∈ callsOf evs) := by
  intro n
  induction n with
  | zero => intro retries st h r h' hx; simp [pollFlash] at hx
  | succ n ih =>
    intro retries st h r h' hx
    simp only [pollFlash] at hx
    by_cases h1 : retries = 0
    · rw [if_pos h1] at hx
      simp only [Option.some.injEq, Prod.mk.injEq] at hx
      obtain ⟨rfl, rfl⟩ := hx
      exact ⟨[], by simp, rfl, fun hc => absurd h1 hc⟩
    · rw [if_neg h1] at hx
      obtain ⟨r1, r2, r3, htr⟩ := ispReadFlash_trace E a h
      have hcw : ∀ v, clockWaitsOf (readFlashEvents a r1 r2 r3 v) = [] := fun v => rfl
      have hmem : ∀ v rest, IspCall.readFlash a ∈ callsOf (readFlashEvents a r1 r2 r3 v ++ rest) :=
        fun v rest => by simp [readFlashEvents, callsOf_cons_call]
      by_cases h2 : (ispReadFlash E a h).1 ≠ busy
      · rw [if_pos h2] at hx
        simp only [Option.some.injEq, Prod.mk.injEq] at hx
        obtain ⟨rfl, rfl⟩ := hx
        exact ⟨_, htr, hcw _, fun _ => by simpa using hmem (ispReadFlash E a h).1 []⟩
      · rw [if_neg h2] at hx
        by_cases hc : ((readTimer E (ispReadFlash E a h).2).1 + 256 - st) % 256 >
            E.clock_T_320us % 256
        · rw [if_pos hc] at hx
          obtain ⟨evs, he, hw, _⟩ := ih _ _ _ _ _ hx
          refine ⟨readFlashEvents a r1 r2 r3 (ispReadFlash E a h).1 ++
            Event.retry (retries - 1) :: evs, ?_, ?_, fun _ => hmem _ _⟩
          · rw [he]; simp [emit, htr]
          · rw [clockWaitsOf_append, hcw]
            simpa [clockWaitsOf] using hw
        · rw [if_neg hc] at hx
          obtain ⟨evs, he, hw, _⟩ := ih _ _ _ _ _ hx
          refine ⟨readFlashEvents a r1 r2 r3 (ispReadFlash E a h).1 ++ evs, ?_, ?_,
            fun _ => hmem _ _⟩
          · rw [he]; simp [htr]
          · rw [clockWaitsOf_append, hcw, hw]
            rfl

theorem pollFlash_policy (E : Env W) (busy a fuel retries st : Nat) (h : Hw W) (r : Nat)
    (h' : Hw W) (hx : pollFlash E busy a fuel retries st h = some (r, h')) (hr : retries ≠ 0) :
    ∃ evs, h'.trace = h.trace ++ evs ∧ clockWaitsOf evs = [] ∧
      IspCall.readFlash a ∈ callsOf evs ∧ PollOutcome busy a retries evs r := by
  obtain ⟨_, evs, he, ho⟩ := pollFlash_outcome E _ _ _ _ _ _ _ _ hx
  obtain ⟨evs', he', hw, hm⟩ := pollFlash_events E _ _ _ _ _ _ _ _ hx
  have : evs' = evs := List.append_cancel_left (he'.symm.trans he)
  subst this
  exact ⟨evs', he, hw, hm hr, ho⟩

theorem ispFlushPage_policy (E : Env W) (fuel a v : Nat) (h : Hw W) (r : Nat) (h' : Hw W)
    (hx : ispFlushPage E fuel a v h = some (r, h')) :
    ∃ x1 x2 x3 x4 evs, h'.trace = h.trace ++ flushPageEvents a v x1 x2 x3 x4 ++ evs ∧
      (v = 0xFF → evs = [Event.clockWait 15] ∧ r = 0) ∧
      (v ≠ 0xFF → clockWaitsOf evs = [] ∧ IspCall.readFlash a ∈ callsOf evs ∧
        PollOutcome 0xFF a 30 evs r) := by
  let h0 := emit (Event.call (IspCall.flushPage a v)) h
  let y1 := ispTransmit E 0x4C h0
  let y2 := ispTransmit E (a >>> 9) y1.2
  let y3 := ispTransmit E (a >>> 1) y2.2
  let y4 := ispTransmit E 0 y3.2
  have ht : y4.2.trace = h.trace ++ flushPageEvents a v y1.1 y2.1 y3.1 y4.1 := by
    simp only [ispTransmit_trace, emit, flushPageEvents, List.append_assoc,
      List.singleton_append, y1, y2, y3, y4, h0]
    rfl
  simp only [ispFlushPage] at hx
  by_cases h2 : v = 0xFF
  · rw [if_pos h2] at hx
    simp only [Option.some.injEq, Prod.mk.injEq] at hx
    obtain ⟨rfl, rfl⟩ := hx
    refine ⟨y1.1, y2.1, y3.1, y4.1, [Event.clockWait 15], ?_,
      fun _ => ⟨rfl, rfl⟩, fun hd => absurd h2 hd⟩
    show y4.2.trace ++ [Event.clockWait 15] = _
    rw [ht]
  · rw [if_neg h2] at hx
    obtain ⟨evs, he, hw, hm, ho⟩ := pollFlash_policy E _ _ _ _ _ _ _ _ hx (by decide)
    refine ⟨y1.1, y2.1, y3.1, y4.1, evs, ?_, fun hd => absurd hd h2, fun _ => ⟨hw, hm, ho⟩⟩
    rw [he, readTimer_trace]
    show y4.2.trace ++ evs = _
    rw [ht]

theorem ispWriteFlash_policy (E : Env W) (fuel a d : Nat) (h : Hw W) (r : Nat) (h' : Hw W)
    (hx : ispWriteFlash E fuel a d 1 h = some (r, h')) :
    ∃ x1 x2 x3 x4 evs, h'.trace = h.trace ++ writeFlashEvents a d 1 x1 x2 x3 x4 ++ evs ∧
      (d = 0x7F → evs = [Event.clockWait 15] ∧ r = 0) ∧
      (d ≠ 0x7F → clockWaitsOf evs = [] ∧ IspCall.readFlash a ∈ callsOf evs ∧
        PollOutcome 0x7F a 30 evs r) := by
  let h0 := emit (Event.call (IspCall.writeFlash a d 1)) h
  let y1 := ispTransmit E (0x40 ||| ((a &&& 1) <<< 3)) h0
  let y2 := ispTransmit E (a >>> 9) y1.2
  let y3 := ispTransmit E (a >>> 1) y2.2
  let y4 := ispTransmit E d y3.2
  have ht : y4.2.trace = h.trace ++ writeFlashEvents a d 1 y1.1 y2.1 y3.1 y4.1 := by
    simp only [ispTransmit_trace, emit, writeFlashEvents, List.append_assoc,
      List.singleton_append, y1, y2, y3, y4, h0]
    rfl
  simp only [ispWriteFlash] at hx
  rw [if_neg (by decide)] at hx
  by_cases h2 : d = 0x7F
  · rw [if_pos h2] at hx
    simp only [Option.some.injEq, Prod.mk.injEq] at hx
    obtain ⟨rfl, rfl⟩ := hx
    refine ⟨y1.1, y2.1, y3.1, y4.1, [Event.clockWait 15], ?_,
      fun _ => ⟨rfl, rfl⟩, fun hd => absurd h2 hd⟩
    show y4.2.trace ++ [Event.clockWait 15] = _
    rw [ht]
  · rw [if_neg h2] at hx
    obtain ⟨evs, he, hw, hm, ho⟩ := pollFlash_policy E _ _ _ _ _ _ _ _ hx (by decide)
    refine ⟨y1.1, y2.1, y3.1, y4.1, evs, ?_, fun hd => absurd hd h2, fun _ => ⟨hw, hm, ho⟩⟩
    rw [he, readTimer_trace]
    show y4.2.trace ++ evs = _
    rw [ht]

/-- C19 as stated fails. For `v = 0x7F` `ispWriteFlash(0, v, 1)` takes the settle
delay (`clockWait(15)`, no read-back) while `ispFlushPage(0, v)` polls (a
read-back, no `clockWait`); for `v = 0xFF` it is the other way round. The busy
sentinels differ: against a target that reads back 0x7F, `ispWriteFlash(0, 0, 1)`
polls until its budget is used up and returns 1, `ispFlushPage(0, 0)` returns 0. -/
theorem C19_counterexample :
    (ispWriteFlash (tickEnv 0) 1 0 0x7F 1 hwT).map
        (fun x => (clockWaitsOf x.2.trace, callsOf x.2.trace)) =
      some ([15], [IspCall.writeFlash 0 0x7F 1]) ∧
    (ispFlushPage (tickEnv 0) 1 0 0x7F hwT).map
        (fun x => (clockWaitsOf x.2.trace, callsOf x.2.trace)) =
      some ([], [IspCall.flushPage 0 0x7F, IspCall.readFlash 0]) ∧
    (ispWriteFlash (tickEnv 0) 1 0 0xFF 1 hwT).map
        (fun x => (clockWaitsOf x.2.trace, callsOf x.2.trace)) =
      some ([], [IspCall.writeFlash 0 0xFF 1, IspCall.readFlash 0]) ∧
    (ispFlushPage (tickEnv 0) 1 0 0xFF hwT).map
        (fun x => (clockWaitsOf x.2.trace, callsOf x.2.trace)) =
      some ([15], [IspCall.flushPage 0 0xFF]) ∧
    (ispWriteFlash (tickEnv 0x7F) 200 0 0 1 hwT).map Prod.fst = some 1 ∧
    (ispFlushPage (tickEnv 0x7F) 200 0 0 hwT).map Prod.fst = some 0 := by
  decide

/-- C19 (amended): `ispFlushPage` has the policy of `ispWriteFlash` with its own
sentinel 0xFF in place of 0x7F. Both return under a running tick source. After
its four command exchanges `ispFlushPage(a, v)` takes the settle delay
`clockWait(15)` and nothing else exactly when `v = 0xFF`, and otherwise polls
(at least one read-back, no `clockWait`) against the busy value 0xFF with a
retry budget of 30; `ispWriteFlash(a, v, 1)` takes the settle delay exactly when
`v = 0x7F`, and otherwise polls against the busy value 0x7F with a retry budget
of 30. -/
theorem C19_flush_policy (E : Env W) (a v : Nat) (h : Hw W) :
    (TickLive E → ∃ fuel, (ispFlushPage E fuel a v h).isSome = true) ∧
    (TickLive E → ∃ fuel, (ispWriteFlash E fuel a v 1 h).isSome = true) ∧
    (∀ fuel r h', ispFlushPage E fuel a v h = some (r, h') →
      ∃ x1 x2 x3 x4 evs, h'.trace = h.trace ++ flushPageEvents a v x1 x2 x3 x4 ++ evs ∧
        (v = 0xFF → evs = [Event.clockWait 15] ∧ r = 0) ∧
        (v ≠ 0xFF → clockWaitsOf evs = [] ∧ IspCall.readFlash a ∈ callsOf evs ∧
          PollOutcome 0xFF a 30 evs r)) ∧
    (∀ fuel r h', ispWriteFlash E fuel a v 1 h = some (r, h') →
      ∃ x1 x2 x3 x4 evs, h'.trace = h.trace ++ writeFlashEvents a v 1 x1 x2 x3 x4 ++ evs ∧
        (v = 0x7F → evs = [Event.clockWait 15] ∧ r = 0) ∧
        (v ≠ 0x7F → clockWaitsOf evs = [] ∧ IspCall.readFlash a ∈ callsOf evs ∧
          PollOutcome 0x7F a 30 evs r)) :=
  ⟨fun hl => ispFlushPage_terminates E hl a v h, fun hl => ispWriteFlash_terminates E hl a v 1 h,
    fun fuel r h' hx => ispFlushPage_policy E fuel a v h r h' hx,
    fun fuel r h' hx => ispWriteFlash_policy E fuel a v h r h' hx⟩

/-! ## C20: flash packets and the EEPROM branch -/

/-- C20 at the failing input: after a WriteFlash command of length 1 the write
packet `[5, 6]` is handed to `usbFunctionWrite` in state WriteFlash. Byte 5 is
written to flash address 0; this ends the transfer (state Idle), and byte 6 goes
through the `else` branch of the loop: `ispWriteEEPROM(1, 6)`, opcode 0xC0. -/
theorem C20_failing_input :
    (usbFunctionSetup (tickEnv 0) 1 [0, USBASP_FUNC_WRITEFLASH, 0, 0, 0, 0, 1, 0]
        session0 hwT).map (fun r => (r.2.1.prog_state, r.2.1.prog_nbytes)) =
      some (ProgState.writeFlash, 1) ∧
    ((usbFunctionSetup (tickEnv 0) 1 [0, USBASP_FUNC_WRITEFLASH, 0, 0, 0, 0, 1, 0]
        session0 hwT).bind fun r =>
      (usbFunctionWrite (tickEnv 0) 1 [5, 6] r.2.1 r.2.2).map fun x =>
        (progCalls x.2.2.trace, (xchgsOf x.2.2.trace).map Prod.fst)) =
      some ([IspCall.writeFlash 0 5 1, IspCall.writeEEPROM 1 6],
            [0x40, 0, 0, 5, 0x20, 0, 0, 0, 0xC0, 0, 1, 6]) := by
  refine ⟨by decide, by decide⟩

theorem memCalls_flash (b : Nat) (s : Session) (hst : s.prog_state = ProgState.writeFlash) :
    ∀ c ∈ memCalls b s, isEepromWrite c = false := by
  intro c hc
  simp only [memCalls, hst, if_true] at hc
  split at hc
  · simp only [List.mem_singleton] at hc
    rw [hc]; rfl
  · split at hc
    · simp only [List.mem_cons, List.mem_singleton, List.not_mem_nil, or_false] at hc
      rcases hc with rfl | rfl <;> rfl
    · simp only [List.mem_singleton] at hc
      rw [hc]; rfl

theorem countCalls_flash (b : Nat) (s : Session) :
    ∀ c ∈ countCalls b s, isEepromWrite c = false := by
  intro c hc
  simp only [countCalls] at hc
  split at hc
  · simp only [List.mem_singleton] at hc
    rw [hc]; rfl
  · simp at hc

theorem loopPure_flash_only (data : List Nat) : ∀ (rv : Nat) (s : Session),
    s.prog_state = ProgState.writeFlash → s.prog_nbytes < 65536 →
    data.length ≤ s.prog_nbytes →
    ∀ c ∈ (loopPure data rv s).1, isEepromWrite c = false := by
  induction data with
  | nil => intro rv s _ _ _ c hc; simp [loopPure] at hc
  | cons b bs ih =>
    intro rv s hst hn hl c hc
    simp only [List.length_cons] at hl
    rw [loopPure_cons] at hc
    simp only [List.mem_append] at hc
    rcases hc with (hc | hc) | hc
    · exact memCalls_flash _ s hst c hc
    · exact countCalls_flash _ _ c hc
    · have e : ((memSess s).prog_nbytes + 65535) % 65536 = s.prog_nbytes - 1 := by
        rw [memSess_nbytes]; omega
      have hn2 : (countSess rv (memSess s)).2.prog_nbytes = s.prog_nbytes - 1 := by
        rw [countSess_nbytes, e]
      cases bs with
      | nil => simp [loopPure] at hc
      | cons b2 bs2 =>
        simp only [List.length_cons] at hl
        have e0 : ((memSess s).prog_nbytes + 65535) % 65536 ≠ 0 := by rw [e]; omega
        refine ih (countSess rv (memSess s)).1 (countSess rv (memSess s)).2 ?_ ?_ ?_ c hc
        · rw [countSess_state _ _ e0, memSess_state, hst]
        · rw [hn2]; omega
        · rw [hn2]; simp only [List.length_cons]; omega

/-- Within the declared length a WriteFlash packet reaches the target through
flash operations only. -/
theorem writeFlash_within_length_no_eeprom (E : Env W) (fuel : Nat) (data : List Nat)
    (s : Session) (h : Hw W) (x : Nat × Session × Hw W)
    (hst : s.prog_state = ProgState.writeFlash) (hn : s.prog_nbytes < 65536)
    (hl : data.length ≤ s.prog_nbytes)
    (hx : usbFunctionWrite E fuel data s h = some x) :
    ∃ calls, progCalls x.2.2.trace = progCalls h.trace ++ calls ∧
      ∀ c ∈ calls, isEepromWrite c = false := by
  obtain ⟨_, p2⟩ := usbFunctionWrite_pure E data hx
  refine ⟨_, p2, ?_⟩
  have hw : writePure data s = loopPure data 0 s := by
    unfold writePure
    rw [if_neg]
    intro hc
    exact hc.1 hst
  rw [hw]
  exact loopPure_flash_only data 0 s hst hn hl

end Usbasp
